import Mathlib

/-!
# Klampt motion planning bindings: adaptive constraint-test scheduling

A shallow embedding of `Python/klampt/src/motionplanning.cpp`: the `TesterStats`
estimator, `OptimizeTestingOrder`, the `PyCSpace` constraint registry with its
feasibility and visibility queries, the planner factory settings, and the tables of
C-spaces and planners behind the integer handles.  `double` values are taken over exact
rational arithmetic; the only non-finite values that arise are the results of a division
by zero, which are kept apart in the type `Double`.
-/

namespace Klampt

/-! ## TesterStats -/

/-- The `struct TesterStats`: running cost, pass probability and evidence count. -/
structure TesterStats where
  cost : ℚ
  probability : ℚ
  count : ℚ
deriving DecidableEq

/-- The constructor `TesterStats::TesterStats()`: all three fields zero. -/
def TesterStats.ctor : TesterStats := ⟨0, 0, 0⟩

/-- `TesterStats::reset`: overwrite all three fields. -/
def TesterStats.reset (_self : TesterStats) (cost probability count : ℚ) : TesterStats :=
  ⟨cost, probability, count⟩

/-- `TesterStats::update(testcost, testtrue, strength)`. -/
def TesterStats.update (self : TesterStats) (testcost : ℚ) (testtrue : Bool) (strength : ℚ) :
    TesterStats :=
  let newcount0 := self.count + strength
  let newcount := if newcount0 = 0 then 1 else newcount0
  let oldweight := self.count / newcount
  let newweight := 1 - oldweight
  ⟨oldweight * self.cost + newweight * testcost,
   if testtrue then oldweight * self.probability + newweight else oldweight * self.probability,
   self.count + strength⟩

/-- Apply a sequence of `update(testcost, testtrue, strength)` calls, first call first. -/
def TesterStats.updates (self : TesterStats) (calls : List (ℚ × Bool × ℚ)) : TesterStats :=
  calls.foldl (fun s c => s.update c.1 c.2.1 c.2.2) self

/-! ## Values of type `double` produced by a division -/

/-- A `double` as it comes out of a division of two finite values: a finite value,
one of the two infinities, or NaN. -/
inductive Double where
  | negInf
  | fin (q : ℚ)
  | posInf
  | nan
deriving DecidableEq

/-- The quotient `a / b` of two finite doubles.  The divisors of the source are of the
form `1.0 - x`, whose zero is `+0.0`, so a zero divisor gives the infinity of the sign of
`a`, and `0 / 0` is NaN. -/
def Double.div (a b : ℚ) : Double :=
  if b = 0 then
    if 0 < a then Double.posInf else if a < 0 then Double.negInf else Double.nan
  else Double.fin (a / b)

/-- `IsNaN`. -/
def Double.isNaN : Double → Bool
  | Double.nan => true
  | _ => false

/-- Unary minus on doubles. -/
def Double.neg : Double → Double
  | Double.negInf => Double.posInf
  | Double.fin q => Double.fin (-q)
  | Double.posInf => Double.negInf
  | Double.nan => Double.nan

/-- The comparison `a < b` on doubles; false whenever an operand is NaN. -/
def Double.lt : Double → Double → Bool
  | Double.nan, _ => false
  | _, Double.nan => false
  | Double.negInf, Double.negInf => false
  | Double.negInf, _ => true
  | Double.fin _, Double.negInf => false
  | Double.fin a, Double.fin b => decide (a < b)
  | Double.fin _, Double.posInf => true
  | Double.posInf, _ => false

/-! ## OptimizeTestingOrder -/

/-- Ways in which a run of the code yields no result. -/
inductive Fault where
  /-- An out-of-bounds access or a null dereference: undefined behaviour. -/
  | undefined
  /-- The loop did not finish within the given number of iterations. -/
  | timeout
  /-- A failed `assert`: the process aborts. -/
  | abort
deriving DecidableEq

/-- The priority `cost / (1 - probability)` of one constraint, NaN replaced by `0.0`
(source lines 192-193). -/
def priorityOf (s : TesterStats) : Double :=
  let p := Double.div s.cost (1 - s.probability)
  if p.isNaN then Double.fin 0 else p

/-- The vector `priority` after the first loop: entry `i` is `(priorityOf stats[i], i)`. -/
def initPriority (stats : List TesterStats) : List (Double × Nat) :=
  (List.range stats.length).map fun i => (priorityOf (stats.getD i TesterStats.ctor), i)

/-- The `operator<` of `std::pair<double,int>`: lexicographic. -/
def pairLt (a b : Double × Nat) : Bool :=
  a.1.lt b.1 || (!(b.1.lt a.1) && decide (a.2 < b.2))

/-- Insert one pair into an ascending list, before the first entry it is less than. -/
def insertPair (x : Double × Nat) : List (Double × Nat) → List (Double × Nat)
  | [] => [x]
  | y :: ys => if pairLt x y then x :: y :: ys else y :: insertPair x ys

/-- The call `sort(priority.begin(), priority.end())`.  The entries carry distinct
second components and no NaN, so `operator<` is a strict total order on them and the
sorted vector is determined by it; it is computed here by insertion. -/
def sortPairs : List (Double × Nat) → List (Double × Nat)
  | [] => []
  | x :: xs => insertPair x (sortPairs xs)

/-- Modelled from the spec: the out-edges of node `i` in the `Graph::DirectedGraph` that
the source builds with `G.AddEdge(deps[v][j], v)`: the nodes `v < n` that list `i` as a
prerequisite, iterated in ascending order. -/
def outEdges (n : Nat) (deps : List (List Nat)) (i : Nat) : List Nat :=
  (List.range n).filter fun v => decide (i ∈ deps.getD v [])

/-- Modelled from the spec: `G.InDegree(v)`, the number of distinct prerequisites of `v`. -/
def inDegree (deps : List (List Nat)) (v : Nat) : Nat :=
  ((deps.getD v []).dedup).length

/-- Modelled from the spec: one depth-first visit of `G.DFS(callback)` with a
`TopologicalSortCallback`: an unvisited node is marked, its out-edges are followed, and on
leaving the node it is pushed to the front of `callback.list`.  The first argument bounds
the recursion depth. -/
def dfsVisit (out : Nat → List Nat) : Nat → Nat → List Nat × List Nat → List Nat × List Nat
  | 0, _, st => st
  | depth + 1, v, (visited, list) =>
    if v ∈ visited then (visited, list)
    else
      let st := (out v).foldl (fun st w => dfsVisit out depth w st) (v :: visited, list)
      (st.1, v :: st.2)

/-- Modelled from the spec: `callback.list` after `G.DFS(callback)`: every node is tried as
a start in ascending order; the list is a topological order when the graph is acyclic. -/
def topologicalSort (n : Nat) (deps : List (List Nat)) : List Nat :=
  ((List.range n).foldl (fun st v => dfsVisit (outEdges n deps) (n + 1) v st) ([], [])).2

/-- One pass of the edge loop of source lines 233-242: `acc` is `(best, bestPriority)`,
with `none` for `best = -1`. -/
def bestChildStep (depcosts depprobs : List ℚ) (i : Nat) (acc : Option Nat × Double) (j : Nat) :
    Option Nat × Double :=
  let priority :=
    Double.div (depcosts.getD i 0 + depcosts.getD j 0) (1 - depprobs.getD i 0 * depprobs.getD j 0)
  if priority.lt acc.2 || acc.1.isNone then (some j, priority) else acc

/-- The body of the bottom-up loop of source lines 227-247 for node `i`, on the state
`(depcosts, depprobs, priority)`. -/
def reviseNode (n : Nat) (deps : List (List Nat))
    (st : List ℚ × List ℚ × List (Double × Nat)) (i : Nat) :
    List ℚ × List ℚ × List (Double × Nat) :=
  match (outEdges n deps i).foldl (bestChildStep st.1 st.2.1 i) (none, Double.posInf) with
  | (some best, bestPriority) =>
    (st.1.set i (st.1.getD i 0 + st.1.getD best 0),
     st.2.1.set i (st.2.1.getD i 0 * st.2.1.getD best 0),
     st.2.2.set i (bestPriority, (st.2.2.getD i (Double.nan, i)).2))
  | (none, _) => st

/-- The vector `priority` after the bottom-up revision (source lines 218-247). -/
def revisedPriority (stats : List TesterStats) (deps : List (List Nat)) : List (Double × Nat) :=
  ((topologicalSort stats.length deps).reverse.foldl (reviseNode stats.length deps)
    (stats.map TesterStats.cost, stats.map TesterStats.probability, initPriority stats)).2.2

/-- Modelled from the spec: `FixedSizeHeap<double>`, a max-priority heap of node indices
keyed by a double; held as the list of its entries in the order they were pushed. -/
structure FixedSizeHeap where
  entries : List (Nat × Double)

/-- Modelled from the spec: `queue.empty()`. -/
def FixedSizeHeap.empty (h : FixedSizeHeap) : Bool := h.entries.isEmpty

/-- Modelled from the spec: `queue.push(x, p)` adds the entry `(x, p)`. -/
def FixedSizeHeap.push (h : FixedSizeHeap) (x : Nat) (p : Double) : FixedSizeHeap :=
  ⟨h.entries ++ [(x, p)]⟩

/-- Modelled from the spec: the entry of greatest key among `best :: rest`; among equal
keys the one pushed first. -/
def FixedSizeHeap.maxEntry : Nat × Double → List (Nat × Double) → Nat × Double
  | best, [] => best
  | best, x :: xs =>
    if best.2.lt x.2 then FixedSizeHeap.maxEntry x xs else FixedSizeHeap.maxEntry best xs

/-- Modelled from the spec: the heap entry that `queue.top()` reports (`none` on an empty
heap). -/
def FixedSizeHeap.topEntry (h : FixedSizeHeap) : Option (Nat × Double) :=
  match h.entries with
  | [] => none
  | x :: xs => some (FixedSizeHeap.maxEntry x xs)

/-- Modelled from the spec: `queue.pop()` removes the top entry. -/
def FixedSizeHeap.pop (h : FixedSizeHeap) : FixedSizeHeap :=
  match h.topEntry with
  | none => h
  | some e => ⟨h.entries.erase e⟩

/-- The search of source lines 265-270 for the first `j` with `!visited[j]`. -/
def firstUnvisited : List Bool → Option Nat
  | [] => none
  | false :: _ => some 0
  | true :: vs => (firstUnvisited vs).map (· + 1)

/-- The node handled by one iteration of the `while(true)` loop together with the heap
after the optional `pop`; `none` when the loop breaks. -/
def nextNode (queue : FixedSizeHeap) (visited : List Bool) : Option (Nat × FixedSizeHeap) :=
  match queue.topEntry with
  | some e => some (e.1, queue.pop)
  | none => (firstUnvisited visited).map fun j => (j, queue)

/-- The `while(true)` loop of source lines 257-281, run for at most `fuel` iterations on the
state `(queue, visited, order)`. -/
def extractLoop (n : Nat) (deps : List (List Nat)) (priority : List (Double × Nat)) :
    Nat → FixedSizeHeap → List Bool → List Nat → Except Fault (List Nat)
  | 0, _, _, _ => Except.error Fault.timeout
  | fuel + 1, queue, visited, order =>
    match nextNode queue visited with
    | none => Except.ok order
    | some (i, queue1) =>
      extractLoop n deps priority fuel
        ((outEdges n deps i).foldl
          (fun q j => q.push j (Double.neg (priority.getD j (Double.nan, j)).1)) queue1)
        (visited.set i true)
        (order ++ [i])

/-- The heap after the loop of source lines 253-256: every node of in-degree zero pushed
with key `-priority[i].first`. -/
def initialQueue (n : Nat) (deps : List (List Nat)) (priority : List (Double × Nat)) :
    FixedSizeHeap :=
  ((List.range n).filter fun i => inDegree deps i == 0).foldl
    (fun q i => q.push i (Double.neg (priority.getD i (Double.nan, i)).1)) ⟨[]⟩

/-- Whether the graph construction of source lines 205-209 stays in bounds: `deps[i]` exists
for every `i < n` and every listed prerequisite is a node. -/
def depsInBounds (n : Nat) (deps : List (List Nat)) : Bool :=
  decide (n ≤ deps.length) && (List.range n).all fun v => (deps.getD v []).all fun u => decide (u < n)

/-- `OptimizeTestingOrder(stats, deps, order)`: the value left in `order`.  `fuel` bounds
the number of iterations of the extraction loop of the dependency branch. -/
def OptimizeTestingOrder (fuel : Nat) (stats : List TesterStats) (deps : List (List Nat)) :
    Except Fault (List Nat) :=
  if deps.isEmpty then
    Except.ok ((sortPairs (initPriority stats)).map Prod.snd)
  else if depsInBounds stats.length deps then
    let priority := revisedPriority stats deps
    extractLoop stats.length deps priority fuel (initialQueue stats.length deps priority)
      (List.replicate stats.length false) []
  else Except.error Fault.undefined

/-! ## PyCSpace -/

/-- A configuration: a finite sequence of numbers. -/
abbrev Config := List ℚ

/-- The data members of `class PyCSpace` that the constraint scheduler uses.  A Python
callable is a pure function; a `NULL` slot is `none`.  A visibility test returns an
integer, of which `PyObject_IsTrue` is taken. -/
structure PyCSpace where
  feasibleTests : List (Option (Config → Bool))
  visibleTests : List (Option (Config → Config → Int))
  constraintNames : List String
  constraintMap : List (String × Nat)
  edgeResolution : ℚ
  adaptive : Bool
  feasibleStats : List TesterStats
  visibleStats : List TesterStats
  feasibleTestDeps : List (List Nat)
  visibleTestDeps : List (List Nat)
  feasibleTestOrder : List Nat
  visibleTestOrder : List Nat

/-- The constructor `PyCSpace()`: no constraints, `edgeResolution(0.001)`,
`adaptive(false)`. -/
def PyCSpace.ctor : PyCSpace :=
  ⟨[], [], [], [], 1 / 1000, false, [], [], [], [], [], []⟩

/-- The result of a call on a C-space: a normal return with the state after the call, a
thrown `PyException` with the state at the throw, or no result at all. -/
inductive Outcome (α : Type) where
  | ret (val : α) (s : PyCSpace)
  | throw (msg : String) (s : PyCSpace)
  | fault (f : Fault)

/-- `std::vector::resize(n, d)`. -/
def resize {α : Type} (l : List α) (n : Nat) (d : α) : List α :=
  l.take n ++ List.replicate (n - l.length) d

/-- `constraintMap.count(name) > 0 ? constraintMap[name] : -1`, with `none` for `-1`. -/
def PyCSpace.lookup (s : PyCSpace) (name : String) : Option Nat :=
  s.constraintMap.lookup name

/-- `CSpaceInterface::setFeasibility` on a valid handle: the vectors are resized to one
entry, which is then overwritten; the map is cleared and given the one key. -/
def PyCSpace.setFeasibility (s : PyCSpace) (pyFeas : Config → Bool) : PyCSpace :=
  { s with
    feasibleTests := (resize s.feasibleTests 1 none).set 0 (some pyFeas)
    feasibleStats := (resize s.feasibleStats 1 TesterStats.ctor).set 0 (TesterStats.ctor.reset 0 0 0)
    constraintNames := (resize s.constraintNames 1 "").set 0 "feasible"
    constraintMap := [("feasible", 0)]
    feasibleTestOrder := [] }

/-- The assignment `feasibleTestOrder.back() = cindex` of source lines 928-929. -/
def setBack (order : List Nat) (cindex : Nat) : List Nat :=
  if order.isEmpty then order else order.set (order.length - 1) cindex

/-- `CSpaceInterface::addFeasibilityTest` on a valid handle.  In the branch for a known
name `Py_DECREF` dereferences the old slot, which is undefined on `NULL`. -/
def PyCSpace.addFeasibilityTest (s : PyCSpace) (name : String) (pyFeas : Config → Bool) :
    Outcome Unit :=
  let tests := resize s.feasibleTests s.constraintNames.length none
  let stats := resize s.feasibleStats s.constraintNames.length TesterStats.ctor
  match s.lookup name with
  | none =>
    let cindex := tests.length
    Outcome.ret () { s with
      feasibleTests := tests ++ [some pyFeas]
      constraintNames := s.constraintNames ++ [name]
      feasibleStats := stats ++ [TesterStats.ctor]
      constraintMap := s.constraintMap ++ [(name, cindex)]
      feasibleTestOrder := setBack s.feasibleTestOrder cindex }
  | some cindex =>
    match tests[cindex]?, stats[cindex]? with
    | some (some _), some st =>
      Outcome.ret () { s with
        feasibleTests := tests.set cindex (some pyFeas)
        feasibleStats := stats.set cindex (st.reset 0 0 0)
        feasibleTestOrder := setBack s.feasibleTestOrder cindex }
    | _, _ => Outcome.fault Fault.undefined

/-- `CSpaceInterface::setVisibility` on a valid handle. -/
def PyCSpace.setVisibility (s : PyCSpace) (pyVisible : Config → Config → Int) : PyCSpace :=
  { s with
    visibleTests := (resize s.visibleTests 1 none).set 0 (some pyVisible)
    visibleStats := (resize s.visibleStats 1 TesterStats.ctor).set 0 (TesterStats.ctor.reset 0 0 0)
    visibleTestOrder := [] }

/-- `CSpaceInterface::addVisibilityTest` on a valid handle. -/
def PyCSpace.addVisibilityTest (s : PyCSpace) (name : String) (pyVis : Config → Config → Int) :
    Outcome Unit :=
  let tests := resize s.visibleTests s.constraintNames.length none
  let stats := resize s.visibleStats s.constraintNames.length TesterStats.ctor
  match s.lookup name with
  | none =>
    let cindex := tests.length
    Outcome.ret () { s with
      visibleTests := tests ++ [some pyVis]
      visibleStats := stats ++ [TesterStats.ctor]
      constraintNames := s.constraintNames ++ [name]
      constraintMap := s.constraintMap ++ [(name, cindex)] }
  | some cindex =>
    match tests[cindex]?, stats[cindex]? with
    | some (some _), some st =>
      Outcome.ret () { s with
        visibleTests := tests.set cindex (some pyVis)
        visibleStats := stats.set cindex (st.reset 0 0 1) }
    | _, _ => Outcome.fault Fault.undefined

/-- `CSpaceInterface::setVisibilityEpsilon` on a valid handle. -/
def PyCSpace.setVisibilityEpsilon (s : PyCSpace) (eps : ℚ) : Outcome Unit :=
  if eps ≤ 0 then Outcome.throw "Invalid epsilon" s
  else Outcome.ret () { s with
    visibleTests := []
    visibleStats := []
    visibleTestOrder := []
    edgeResolution := eps }

/-- The statement `deps[cindex].push_back(dindex)`; `none` when `cindex` is out of bounds. -/
def pushDependency (deps : List (List Nat)) (cindex dindex : Nat) : Option (List (List Nat)) :=
  match deps[cindex]? with
  | none => none
  | some row => some (deps.set cindex (row ++ [dindex]))

/-- `CSpaceInterface::setFeasibilityDependency` on a valid handle, with
`PyCSpace::AddFeasibleDependency` inlined. -/
def PyCSpace.setFeasibilityDependency (s : PyCSpace) (name precedingTest : String) :
    Outcome Unit :=
  match s.lookup name, s.lookup precedingTest with
  | some cindex, some dindex =>
    let deps :=
      if s.feasibleTestDeps.isEmpty then resize s.feasibleTestDeps s.feasibleTests.length []
      else s.feasibleTestDeps
    match pushDependency deps cindex dindex with
    | none => Outcome.fault Fault.undefined
    | some deps1 => Outcome.ret () { s with feasibleTestDeps := deps1 }
  | _, _ => Outcome.throw "Invalid dependency" s

/-- `CSpaceInterface::setVisibilityDependency` on a valid handle, with
`PyCSpace::AddVisibleDependency` inlined. -/
def PyCSpace.setVisibilityDependency (s : PyCSpace) (name precedingTest : String) :
    Outcome Unit :=
  match s.lookup name, s.lookup precedingTest with
  | some cindex, some dindex =>
    let deps :=
      if s.visibleTestDeps.isEmpty then resize s.visibleTestDeps s.visibleTests.length []
      else s.visibleTestDeps
    match pushDependency deps cindex dindex with
    | none => Outcome.fault Fault.undefined
    | some deps1 => Outcome.ret () { s with visibleTestDeps := deps1 }
  | _, _ => Outcome.throw "Invalid dependency" s

/-- The statement `stats[cindex].reset(cost, probability, count)`; `none` when `cindex` is
out of bounds. -/
def resetStat (stats : List TesterStats) (cindex : Nat) (cost probability count : ℚ) :
    Option (List TesterStats) :=
  match stats[cindex]? with
  | none => none
  | some st => some (stats.set cindex (st.reset cost probability count))

/-- `CSpaceInterface::setFeasibilityPrior` on a valid handle. -/
def PyCSpace.setFeasibilityPrior (s : PyCSpace) (name : String)
    (costPrior feasibilityProbability evidenceStrength : ℚ) : Outcome Unit :=
  match s.lookup name with
  | none => Outcome.throw "Invalid constraint name" s
  | some cindex =>
    match resetStat s.feasibleStats cindex costPrior feasibilityProbability evidenceStrength with
    | none => Outcome.fault Fault.undefined
    | some stats => Outcome.ret () { s with feasibleStats := stats }

/-- `CSpaceInterface::setVisibilityPrior` on a valid handle. -/
def PyCSpace.setVisibilityPrior (s : PyCSpace) (name : String)
    (costPrior visibilityProbability evidenceStrength : ℚ) : Outcome Unit :=
  match s.lookup name with
  | none => Outcome.throw "Invalid constraint name" s
  | some cindex =>
    match resetStat s.visibleStats cindex costPrior visibilityProbability evidenceStrength with
    | none => Outcome.fault Fault.undefined
    | some stats => Outcome.ret () { s with visibleStats := stats }

/-- `CSpaceInterface::enableAdaptiveQueries` on a valid handle. -/
def PyCSpace.enableAdaptiveQueries (s : PyCSpace) (enabled : Bool) : PyCSpace :=
  { s with adaptive := enabled }

/-- `PyCSpace::OptimizeQueryOrder`, which `CSpaceInterface::optimizeQueryOrder` calls on a
valid handle; `fuel` bounds each of the two runs of `OptimizeTestingOrder`. -/
def PyCSpace.OptimizeQueryOrder (fuel : Nat) (s : PyCSpace) : Outcome Unit :=
  if s.adaptive then
    match OptimizeTestingOrder fuel s.feasibleStats s.feasibleTestDeps with
    | Except.error f => Outcome.fault f
    | Except.ok forder =>
      match OptimizeTestingOrder fuel s.visibleStats s.visibleTestDeps with
      | Except.error f => Outcome.fault f
      | Except.ok vorder =>
        Outcome.ret () { s with feasibleTestOrder := forder, visibleTestOrder := vorder }
  else Outcome.ret () s

/-- The statement `feasibleStats[obstacle].update(timer.ElapsedTime(), res)`; `none` when
`obstacle` is out of bounds. -/
def updateStat (stats : List TesterStats) (obstacle : Nat) (time : ℚ) (res : Bool) :
    Option (List TesterStats) :=
  match stats[obstacle]? with
  | none => none
  | some st => some (stats.set obstacle (st.update time res 1))

/-- The obstacle tested at loop index `i`:
`order.empty() ? i : order[i]`; `none` when the read is out of bounds. -/
def obstacleAt (order : List Nat) (i : Nat) : Option Nat :=
  if order.isEmpty then some i else order[i]?

/-- The loop of `PyCSpace::IsFeasible(const Config&)` from index `i` with `m` iterations
left.  `elapsed i` is the time the timer reports for the test at loop index `i`; `calls`
records each call made to a Python test as `(obstacle, result)`. -/
def IsFeasibleLoop (q : Config) (elapsed : Nat → ℚ) :
    Nat → Nat → PyCSpace → List (Nat × Bool) → Outcome (Bool × List (Nat × Bool))
  | 0, _, s, calls => Outcome.ret (true, calls) s
  | m + 1, i, s, calls =>
    match obstacleAt s.feasibleTestOrder i with
    | none => Outcome.fault Fault.undefined
    | some obstacle =>
      match s.feasibleTests[obstacle]? with
      | none => Outcome.fault Fault.undefined
      | some none =>
        match s.constraintNames[obstacle]? with
        | none => Outcome.fault Fault.undefined
        | some name =>
          Outcome.throw ("Python feasible test for constraint " ++ name ++ "not defined\n") s
      | some (some test) =>
        let res := test q
        match (if s.adaptive then updateStat s.feasibleStats obstacle (elapsed i) res
               else some s.feasibleStats) with
        | none => Outcome.fault Fault.undefined
        | some stats =>
          if res then
            IsFeasibleLoop q elapsed m (i + 1) { s with feasibleStats := stats }
              (calls ++ [(obstacle, res)])
          else Outcome.ret (false, calls ++ [(obstacle, res)]) { s with feasibleStats := stats }

/-- `PyCSpace::IsFeasible(const Config&)`: the returned boolean together with the calls
made to the Python tests. -/
def PyCSpace.IsFeasible (s : PyCSpace) (q : Config) (elapsed : Nat → ℚ) :
    Outcome (Bool × List (Nat × Bool)) :=
  if s.feasibleTests.isEmpty then Outcome.throw "Python feasible method not defined" s
  else IsFeasibleLoop q elapsed s.feasibleTests.length 0 s []

/-- The loop of `CSpaceInterface::feasibilityQueryOrder` from index `i` with `m`
iterations left; `res` is the Python list, `pyerr` whether a `PyList_SetItem` was out of
range. -/
def queryOrderLoop (s : PyCSpace) :
    Nat → Nat → List (Option String) → Bool → Option (List (Option String) × Bool)
  | 0, _, res, pyerr => some (res, pyerr)
  | m + 1, i, res, pyerr =>
    match obstacleAt s.feasibleTestOrder i with
    | none => none
    | some cindex =>
      match s.constraintNames[cindex]? with
      | none => none
      | some name =>
        if i < res.length then queryOrderLoop s m (i + 1) (res.set i (some name)) pyerr
        else queryOrderLoop s m (i + 1) res true

/-- `CSpaceInterface::feasibilityQueryOrder` on a valid handle: a list of
`feasibleTests.size()` slots, filled for each index below `constraintNames.size()`.  A
`PyList_SetItem` beyond the list leaves a Python `IndexError` pending. -/
def PyCSpace.feasibilityQueryOrder (s : PyCSpace) : Outcome (List (Option String)) :=
  match queryOrderLoop s s.constraintNames.length 0
      (List.replicate s.feasibleTests.length none) false with
  | none => Outcome.fault Fault.undefined
  | some (res, false) => Outcome.ret res s
  | some (_, true) => Outcome.throw "list assignment index out of range" s

/-- The public operations of `CSpaceInterface` that change or query the constraint set. -/
inductive Op where
  | setFeasibility (pyFeas : Config → Bool)
  | addFeasibilityTest (name : String) (pyFeas : Config → Bool)
  | setVisibility (pyVisible : Config → Config → Int)
  | addVisibilityTest (name : String) (pyVis : Config → Config → Int)
  | setVisibilityEpsilon (eps : ℚ)
  | setFeasibilityDependency (name precedingTest : String)
  | setVisibilityDependency (name precedingTest : String)
  | setFeasibilityPrior (name : String) (cost probability strength : ℚ)
  | setVisibilityPrior (name : String) (cost probability strength : ℚ)
  | enableAdaptiveQueries (enabled : Bool)
  | optimizeQueryOrder (fuel : Nat)
  | isFeasible (q : Config) (elapsed : Nat → ℚ)

/-- Forget the returned value of a call. -/
def Outcome.void {α : Type} : Outcome α → Outcome Unit
  | Outcome.ret _ s => Outcome.ret () s
  | Outcome.throw msg s => Outcome.throw msg s
  | Outcome.fault f => Outcome.fault f

/-- Run one public operation on a C-space. -/
def PyCSpace.apply (s : PyCSpace) : Op → Outcome Unit
  | Op.setFeasibility f => Outcome.ret () (s.setFeasibility f)
  | Op.addFeasibilityTest name f => s.addFeasibilityTest name f
  | Op.setVisibility v => Outcome.ret () (s.setVisibility v)
  | Op.addVisibilityTest name v => s.addVisibilityTest name v
  | Op.setVisibilityEpsilon eps => s.setVisibilityEpsilon eps
  | Op.setFeasibilityDependency name p => s.setFeasibilityDependency name p
  | Op.setVisibilityDependency name p => s.setVisibilityDependency name p
  | Op.setFeasibilityPrior name c p k => s.setFeasibilityPrior name c p k
  | Op.setVisibilityPrior name c p k => s.setVisibilityPrior name c p k
  | Op.enableAdaptiveQueries b => Outcome.ret () (s.enableAdaptiveQueries b)
  | Op.optimizeQueryOrder fuel => s.OptimizeQueryOrder fuel
  | Op.isFeasible q elapsed => (s.IsFeasible q elapsed).void

/-- The state in which a call leaves the C-space: the state at the return or at the
throw; `none` when the call has no result. -/
def Outcome.state {α : Type} : Outcome α → Option PyCSpace
  | Outcome.ret _ s => some s
  | Outcome.throw _ s => some s
  | Outcome.fault _ => none

/-- Run a sequence of public operations, first one first; a thrown exception is caught
by the caller, who goes on with the next operation. -/
def PyCSpace.run (s : PyCSpace) : List Op → Option PyCSpace
  | [] => some s
  | op :: ops =>
    match (s.apply op).state with
    | none => none
    | some s1 => s1.run ops

/-! ## PyCSpace: single-constraint feasibility and visibility queries -/

/-- The message of the `PyException` thrown for a `NULL` feasibility slot (source lines
440-442 and 479-481). -/
def feasibleNotDefined (name : String) : String :=
  "Python feasible test for constraint " ++ name ++ "not defined\n"

/-- The message of the `PyException` thrown for a `NULL` visibility slot (source lines
669-672 and 713-715). -/
def visibleNotDefined (name : String) : String :=
  "Python visible test for constraint " ++ name ++ "not defined\n"

/-- `PyCSpace::IsFeasible(const Config&, int obstacle)`; `elapsed` is the time the timer
reports for the test. -/
def PyCSpace.IsFeasibleAt (s : PyCSpace) (q : Config) (obstacle : Int) (elapsed : ℚ) :
    Outcome Bool :=
  if obstacle < 0 ∨ (s.feasibleTests.length : Int) ≤ obstacle then Outcome.ret false s
  else
    match s.feasibleTests[obstacle.toNat]? with
    | none => Outcome.fault Fault.undefined
    | some none =>
      match s.constraintNames[obstacle.toNat]? with
      | none => Outcome.fault Fault.undefined
      | some name => Outcome.throw (feasibleNotDefined name) s
    | some (some test) =>
      let res := test q
      match (if s.adaptive then updateStat s.feasibleStats obstacle.toNat elapsed res
             else some s.feasibleStats) with
      | none => Outcome.fault Fault.undefined
      | some stats => Outcome.ret res { s with feasibleStats := stats }

/-- `PyObject_IsTrue` on the integer a visibility test returned. -/
def isTrue (result : Int) : Bool := decide (result ≠ 0)

/-- The statement `visibleStats[obs].update(timer.ElapsedTime(), res)`; `none` when `obs`
is out of bounds. -/
def updateVisibleStats (s : PyCSpace) (obs : Nat) (time : ℚ) (res : Bool) :
    Option (List TesterStats) :=
  if s.adaptive then updateStat s.visibleStats obs time res else some s.visibleStats

/-- The loop of `PyEdgePlanner::IsVisible` over all obstacles (source lines 666-705) from
index `i` with `m` iterations left.  `args` is the argument tuple built before the loop;
`calls` records each call made to a Python test as `(obs, args)`. -/
def IsVisibleLoop (args : Config × Config) (elapsed : Nat → ℚ) :
    Nat → Nat → PyCSpace → List (Nat × Config × Config) →
      Outcome (Bool × List (Nat × Config × Config))
  | 0, _, s, calls => Outcome.ret (true, calls) s
  | m + 1, i, s, calls =>
    match obstacleAt s.visibleTestOrder i with
    | none => Outcome.fault Fault.undefined
    | some obs =>
      match s.visibleTests[obs]? with
      | none => Outcome.fault Fault.undefined
      | some none =>
        match s.constraintNames[obs]? with
        | none => Outcome.fault Fault.undefined
        | some name => Outcome.throw (visibleNotDefined name) s
      | some (some test) =>
        let res := isTrue (test args.1 args.2)
        match updateVisibleStats s obs (elapsed i) res with
        | none => Outcome.fault Fault.undefined
        | some stats =>
          if res then
            IsVisibleLoop args elapsed m (i + 1) { s with visibleStats := stats }
              (calls ++ [(obs, args)])
          else Outcome.ret (false, calls ++ [(obs, args)]) { s with visibleStats := stats }

/-- `PyEdgePlanner::IsVisible()` for the planner `PyEdgePlanner(space, a, b, obstacle)`.
With `obstacle < 0` the argument tuple is filled by `PyTuple_SetItem(args, 0, pya)` and
`PyTuple_SetItem(args, 1, pya)` (source lines 664-665); with `obstacle ≥ 0` the one test
is called with `(pya, pyb)`. -/
def PyEdgePlanner.IsVisible (space : PyCSpace) (a b : Config) (obstacle : Int)
    (elapsed : Nat → ℚ) : Outcome (Bool × List (Nat × Config × Config)) :=
  if space.visibleTests.length ≠ space.feasibleTests.length then Outcome.fault Fault.abort
  else if obstacle < 0 then
    IsVisibleLoop (a, a) elapsed space.visibleTests.length 0 space []
  else
    match space.visibleTests[obstacle.toNat]? with
    | none => Outcome.fault Fault.undefined
    | some none =>
      match space.constraintNames[obstacle.toNat]? with
      | none => Outcome.fault Fault.undefined
      | some name => Outcome.throw (visibleNotDefined name) space
    | some (some test) =>
      let res := isTrue (test a b)
      match updateVisibleStats space obstacle.toNat (elapsed 0) res with
      | none => Outcome.fault Fault.undefined
      | some stats =>
        Outcome.ret (res, [(obstacle.toNat, a, b)]) { space with visibleStats := stats }

/-! ## The planner factory -/

/-- Modelled from the spec: the settings record of `MotionPlannerFactory` (declared in
KrisLibrary), with the fields of spec section 4.F that `setPlanType` and `setPlanSetting`
write. -/
structure MotionPlannerFactory where
  type : String
  knn : Int
  connectionThreshold : ℚ
  perturbationRadius : ℚ
  bidirectional : Bool
  useGrid : Bool
  gridResolution : ℚ
  suboptimalityFactor : ℚ
  ignoreConnectedComponents : Bool
  randomizeFrequency : Int
  shortcut : Bool
  restart : Bool
  pointLocation : String
  restartTermCond : String

/-- The conversion `(int)value` of a double: truncation toward zero. -/
def toInt (value : ℚ) : Int :=
  if 0 ≤ value then ⌊value⌋ else ⌈value⌉

/-- `setPlanSetting(const char* setting, double value)`: the factory after the call, or
the message of the `PyException` thrown. -/
def setPlanSetting (factory : MotionPlannerFactory) (setting : String) (value : ℚ) :
    Except String MotionPlannerFactory :=
  if setting = "knn" then
    Except.ok { factory with knn := toInt value }
  else if setting = "connectionThreshold" then
    Except.ok { factory with connectionThreshold := value }
  else if setting = "perturbationRadius" then
    Except.ok { factory with perturbationRadius := value }
  else if setting = "bidirectional" then
    Except.ok { factory with bidirectional := decide (toInt value ≠ 0) }
  else if setting = "grid" then
    Except.ok { factory with useGrid := decide (toInt value ≠ 0) }
  else if setting = "gridResolution" then
    Except.ok { factory with gridResolution := value }
  else if setting = "suboptimalityFactor" then
    Except.ok { factory with suboptimalityFactor := value }
  else if setting = "ignoreConnectedComponents" then
    Except.ok { factory with ignoreConnectedComponents := decide (toInt value ≠ 0) }
  else if setting = "randomizeFrequency" then
    Except.ok { factory with randomizeFrequency := toInt value }
  else if setting = "shortcut" then
    Except.ok { factory with shortcut := decide (value ≠ 0) }
  else if setting = "restart" then
    Except.ok { factory with restart := decide (value ≠ 0) }
  else Except.error "Invalid setting"

/-- `setPlanSetting(const char* setting, const char* value)`. -/
def setPlanSettingString (factory : MotionPlannerFactory) (setting value : String) :
    Except String MotionPlannerFactory :=
  if setting = "pointLocation" then
    Except.ok { factory with pointLocation := value }
  else if setting = "restartTermCond" then
    Except.ok { factory with restartTermCond := value }
  else Except.error "Invalid setting"

/-! ## The registries -/

/-- Modelled from the spec: a planner made by `factory.Create` (a
`MotionPlannerInterface` of KrisLibrary): the milestones added so far. -/
structure MotionPlannerInterface where
  milestones : List Config

/-- The goal test of a `PyGoalSet`. -/
structure PyGoalSet where
  goalTest : Config → Int

/-- The static tables of the module: `spaces`, `plans`, `goalSets`, `factory`,
`spacesDeleteList` and `plansDeleteList`.  A `NULL` slot is `none`; the free lists hold
indices that passed the range check, kept as natural numbers. -/
structure Registry where
  spaces : List (Option PyCSpace)
  plans : List (Option MotionPlannerInterface)
  goalSets : List (Option PyGoalSet)
  factory : MotionPlannerFactory
  spacesDeleteList : List Nat
  plansDeleteList : List Nat

/-- The tables at program start: all empty. -/
def Registry.init (factory : MotionPlannerFactory) : Registry :=
  ⟨[], [], [], factory, [], []⟩

/-- The result of a call on the registries: a normal return with the tables after the
call, a thrown `PyException` with the tables at the throw, or no result at all. -/
inductive RegOutcome (α : Type) where
  | ret (val : α) (r : Registry)
  | throw (msg : String) (r : Registry)
  | fault (f : Fault)

/-- `makeNewCSpace()`: the returned index. -/
def makeNewCSpace (r : Registry) : RegOutcome Int :=
  match r.spacesDeleteList with
  | [] =>
    RegOutcome.ret (r.spaces.length : Int) { r with spaces := r.spaces ++ [some PyCSpace.ctor] }
  | index :: rest =>
    if index < r.spaces.length then
      RegOutcome.ret (index : Int)
        { r with spaces := r.spaces.set index (some PyCSpace.ctor), spacesDeleteList := rest }
    else RegOutcome.fault Fault.undefined

/-- `destroyCSpace(int cspace)`. -/
def destroyCSpace (r : Registry) (cspace : Int) : RegOutcome Unit :=
  if cspace < 0 ∨ (r.spaces.length : Int) ≤ cspace then
    RegOutcome.throw "Invalid cspace index" r
  else
    RegOutcome.ret () { r with
      spaces := r.spaces.set cspace.toNat none
      spacesDeleteList := r.spacesDeleteList ++ [cspace.toNat] }

/-- The C-space behind a handle that passes the check
`index < 0 || index >= (int)spaces.size() || spaces[index]==NULL`, else `none`. -/
def Registry.space (r : Registry) (index : Int) : Option PyCSpace :=
  if index < 0 then none else (r.spaces[index.toNat]?).join

/-- The planner behind a handle that passes the check
`index < 0 || index >= (int)plans.size() || plans[index]==NULL`, else `none`. -/
def Registry.plan (r : Registry) (index : Int) : Option MotionPlannerInterface :=
  if index < 0 then none else (r.plans[index.toNat]?).join

/-- A method of `CSpaceInterface` called on the handle `index`: the validity check that
opens every method, then `method` on `spaces[index]`. -/
def CSpaceInterface.call {α : Type} (r : Registry) (index : Int)
    (method : PyCSpace → Outcome α) : RegOutcome α :=
  match r.space index with
  | none => RegOutcome.throw "Invalid cspace index" r
  | some s =>
    match method s with
    | Outcome.ret val s1 => RegOutcome.ret val { r with spaces := r.spaces.set index.toNat (some s1) }
    | Outcome.throw msg s1 =>
      RegOutcome.throw msg { r with spaces := r.spaces.set index.toNat (some s1) }
    | Outcome.fault f => RegOutcome.fault f

/-- `makeNewPlan(int cspace)`; `factory.Create` gives a planner without milestones. -/
def makeNewPlan (r : Registry) (cspace : Int) : RegOutcome Int :=
  match r.space cspace with
  | none => RegOutcome.throw "Invalid cspace index" r
  | some _ =>
    match r.plansDeleteList with
    | [] =>
      RegOutcome.ret (r.plans.length : Int) { r with plans := r.plans ++ [some ⟨[]⟩] }
    | index :: rest =>
      if index < r.plans.length then
        RegOutcome.ret (index : Int)
          { r with plans := r.plans.set index (some ⟨[]⟩), plansDeleteList := rest }
      else RegOutcome.fault Fault.undefined

/-- `destroyPlan(int plan)`. -/
def destroyPlan (r : Registry) (plan : Int) : RegOutcome Unit :=
  match r.plan plan with
  | none => RegOutcome.throw "Invalid plan index" r
  | some _ =>
    RegOutcome.ret () { r with
      plans := r.plans.set plan.toNat none
      goalSets := if plan.toNat < r.goalSets.length then r.goalSets.set plan.toNat none
                  else r.goalSets
      plansDeleteList := r.plansDeleteList ++ [plan.toNat] }

/-- The handle object `PlannerInterface`: its data members `index` and `spaceIndex`. -/
structure PlannerInterface where
  index : Int
  spaceIndex : Int

/-- The call `spaces[spaceIndex]->IsFeasible(q)`, made without a validity check: a
`spaceIndex` out of range or a `NULL` slot is a null dereference. -/
def Registry.spaceIsFeasible (r : Registry) (spaceIndex : Int) (q : Config)
    (elapsed : Nat → ℚ) : RegOutcome Bool :=
  match r.space spaceIndex with
  | none => RegOutcome.fault Fault.undefined
  | some s =>
    match s.IsFeasible q elapsed with
    | Outcome.ret val s1 =>
      RegOutcome.ret val.1 { r with spaces := r.spaces.set spaceIndex.toNat (some s1) }
    | Outcome.throw msg s1 =>
      RegOutcome.throw msg { r with spaces := r.spaces.set spaceIndex.toNat (some s1) }
    | Outcome.fault f => RegOutcome.fault f

/-- Modelled from the spec: `plans[plan]->AddMilestone(q)` for a planner bound to the
C-space at `spaceIndex`: the planner validates `q` with the C-space and returns the new
dense index, or `-1` when `q` is infeasible. -/
def Registry.AddMilestone (r : Registry) (plan spaceIndex : Int) (q : Config)
    (elapsed : Nat → ℚ) : RegOutcome Int :=
  match r.spaceIsFeasible spaceIndex q elapsed with
  | RegOutcome.ret true r1 =>
    match r1.plan plan with
    | none => RegOutcome.fault Fault.undefined
    | some p =>
      RegOutcome.ret (p.milestones.length : Int)
        { r1 with plans := r1.plans.set plan.toNat (some ⟨p.milestones ++ [q]⟩) }
  | RegOutcome.ret false r1 => RegOutcome.ret (-1) r1
  | RegOutcome.throw msg r1 => RegOutcome.throw msg r1
  | RegOutcome.fault f => RegOutcome.fault f

/-- The second half of `PlannerInterface::setEndpoints` (source lines 1417-1427), after
the start milestone was added. -/
def PlannerInterface.setGoal (self : PlannerInterface) (r : Registry) (goal : Option Config)
    (elapsed : Nat → Nat → ℚ) : RegOutcome Bool :=
  match goal with
  | none => RegOutcome.throw "Invalid start endpoint" r
  | some qgoal =>
    match r.spaceIsFeasible self.spaceIndex qgoal (elapsed 2) with
    | RegOutcome.ret false r1 => RegOutcome.throw "Goal configuration is infeasible" r1
    | RegOutcome.ret true r1 =>
      match r1.AddMilestone self.index self.spaceIndex qgoal (elapsed 3) with
      | RegOutcome.ret igoal r2 =>
        if igoal < 0 then RegOutcome.throw "Goal configuration is infeasible" r2
        else RegOutcome.ret true r2
      | RegOutcome.throw msg r2 => RegOutcome.throw msg r2
      | RegOutcome.fault f => RegOutcome.fault f
    | RegOutcome.throw msg r1 => RegOutcome.throw msg r1
    | RegOutcome.fault f => RegOutcome.fault f

/-- `PlannerInterface::setEndpoints(start, goal)`.  An argument that `PyListToConfig`
rejects is `none`; `elapsed k` gives the timer readings of the `k`-th feasibility query
made during the call. -/
def PlannerInterface.setEndpoints (self : PlannerInterface) (r : Registry)
    (start goal : Option Config) (elapsed : Nat → Nat → ℚ) : RegOutcome Bool :=
  match r.plan self.index with
  | none => RegOutcome.throw "Invalid plan index" r
  | some _ =>
    match start with
    | none => RegOutcome.throw "Invalid start endpoint" r
    | some qstart =>
      match r.spaceIsFeasible self.spaceIndex qstart (elapsed 0) with
      | RegOutcome.ret false r1 => RegOutcome.throw "Start configuration is infeasible" r1
      | RegOutcome.ret true r1 =>
        match r1.AddMilestone self.index self.spaceIndex qstart (elapsed 1) with
        | RegOutcome.ret istart r2 =>
          if istart < 0 then RegOutcome.throw "Start configuration is infeasible" r2
          else if istart ≠ 0 then RegOutcome.throw "Plan already initialized?" r2
          else self.setGoal r2 goal elapsed
        | RegOutcome.throw msg r2 => RegOutcome.throw msg r2
        | RegOutcome.fault f => RegOutcome.fault f
      | RegOutcome.throw msg r1 => RegOutcome.throw msg r1
      | RegOutcome.fault f => RegOutcome.fault f

/-! ## CSpaceInterface: the handle and its single-constraint queries -/

/-- The handle object `CSpaceInterface`: its data member `index`. -/
structure CSpaceInterface where
  index : Int

/-- `PyCSpace::IsVisible(a, b, obstacle)`: `LocalPlanner(a, b, obstacle)->IsVisible()`.
With visibility tests the planner is a `PyEdgePlanner`; without, it is the bisection
planner of KrisLibrary, which is taken as the parameter `bisection` and calls no
visibility test. -/
def PyCSpace.IsVisibleAt (bisection : PyCSpace → Config → Config → Int → Outcome Bool)
    (s : PyCSpace) (a b : Config) (obstacle : Int) (elapsed : Nat → ℚ) :
    Outcome (Bool × List (Nat × Config × Config)) :=
  if s.visibleTests.isEmpty then
    match bisection s a b obstacle with
    | Outcome.ret val s1 => Outcome.ret (val, []) s1
    | Outcome.throw msg s1 => Outcome.throw msg s1
    | Outcome.fault f => Outcome.fault f
  else PyEdgePlanner.IsVisible s a b obstacle elapsed

/-- `CSpaceInterface::testFeasibility(name, q)`; an argument that `PyListToConfig` rejects
is `none`. -/
def CSpaceInterface.testFeasibility (self : CSpaceInterface) (r : Registry) (name : String)
    (q : Option Config) (elapsed : ℚ) : CSpaceInterface × RegOutcome Bool :=
  match r.space self.index with
  | none => (self, RegOutcome.throw "Invalid cspace index" r)
  | some s =>
    match q with
    | none => (self, RegOutcome.throw "Invalid configuration (must be list)" r)
    | some vq =>
      match s.lookup name with
      | none => (self, RegOutcome.throw "Invalid constraint name" r)
      | some found =>
        let cindex : Int := found
        (self, CSpaceInterface.call r self.index fun s0 => s0.IsFeasibleAt vq cindex elapsed)

/-- `CSpaceInterface::testVisibility(name, a, b)`: the handle after the call and the
result.  The looked-up index is assigned to the member `index` (source line 1093), the
local `cindex` keeps its initial value `-1`, and `spaces[index]` is then read without a
validity check. -/
def CSpaceInterface.testVisibility (bisection : PyCSpace → Config → Config → Int → Outcome Bool)
    (self : CSpaceInterface) (r : Registry) (name : String) (a b : Option Config)
    (elapsed : Nat → ℚ) :
    CSpaceInterface × RegOutcome (Bool × List (Nat × Config × Config)) :=
  match r.space self.index with
  | none => (self, RegOutcome.throw "Invalid cspace index" r)
  | some s =>
    match a, b with
    | none, _ => (self, RegOutcome.throw "Invalid configuration a (must be list)" r)
    | some _, none => (self, RegOutcome.throw "Invalid configuration b (must be list)" r)
    | some va, some vb =>
      match s.lookup name with
      | none => (self, RegOutcome.throw "Invalid constraint name" r)
      | some found =>
        let cindex : Int := -1
        let self1 : CSpaceInterface := ⟨(found : Int)⟩
        match r.space self1.index with
        | none => (self1, RegOutcome.fault Fault.undefined)
        | some s1 =>
          match s1.IsVisibleAt bisection va vb cindex elapsed with
          | Outcome.ret val s2 =>
            (self1, RegOutcome.ret val
              { r with spaces := r.spaces.set self1.index.toNat (some s2) })
          | Outcome.throw msg s2 =>
            (self1, RegOutcome.throw msg
              { r with spaces := r.spaces.set self1.index.toNat (some s2) })
          | Outcome.fault f => (self1, RegOutcome.fault f)

/-! ## PyCSpace: properties -/

/-- Modelled from the spec: `PropertyMap` (KrisLibrary), a map from strings to strings. -/
structure PropertyMap where
  get : String → Option String

/-- Modelled from the spec: `props.set(key, value)`, which stores the value as text. -/
def PropertyMap.set (props : PropertyMap) (key value : String) : PropertyMap :=
  ⟨fun k => if k = key then some value else props.get k⟩

/-- The data members of `class PyCSpace` that `Properties` reads: the callbacks `distance`
and `interpolate` (`none` for `NULL`) and the map `properties`. -/
structure PyCSpaceHints where
  distance : Option (Config → Config → ℚ)
  interpolate : Option (Config → Config → ℚ → Config)
  properties : PropertyMap

/-- `PyCSpace::Properties(PropertyMap& props)`: the value left in `props`. -/
def PyCSpace.Properties (c : PyCSpaceHints) : PropertyMap :=
  let props := c.properties
  if c.distance.isNone then
    let props1 := (props.set "euclidean" "1").set "metric" "euclidean"
    if c.interpolate.isNone then props1.set "geodesic" "1" else props1
  else props

/-! ## Specification predicates -/

/-- The invariant of `TesterStats`: nonnegative cost and count, probability in `[0,1]`. -/
def TesterStats.Valid (s : TesterStats) : Prop :=
  0 ≤ s.cost ∧ 0 ≤ s.probability ∧ s.probability ≤ 1 ∧ 0 ≤ s.count

/-- The calls `update(c, b)` with the default strength `1.0`. -/
def unitCalls (obs : List (ℚ × Bool)) : List (ℚ × Bool × ℚ) :=
  obs.map fun c => (c.1, c.2, 1)

/-- The priority that `OptimizeTestingOrder` gives constraint `i`. -/
def priorityAt (stats : List TesterStats) (i : Nat) : Double :=
  priorityOf (stats.getD i TesterStats.ctor)

/-- Constraint `i` comes before constraint `j` in the ascending order by priority, equal
priorities ordered by ascending index. -/
def Before (stats : List TesterStats) (i j : Nat) : Prop :=
  (priorityAt stats i).lt (priorityAt stats j) = true ∨
    (priorityAt stats i = priorityAt stats j ∧ i < j)

/-- The quotient `c_i / (1 - p_i)` as a rational number. -/
def ratioAt (stats : List TesterStats) (i : Nat) : ℚ :=
  (stats.getD i TesterStats.ctor).cost / (1 - (stats.getD i TesterStats.ctor).probability)

/-- The dependency edge `u → v`: `u` is listed in `deps[v]` as a prerequisite of `v`. -/
def Edge (deps : List (List Nat)) (u v : Nat) : Prop :=
  u ∈ deps.getD v []

/-- The dependency table has no cycle: no node is reached from itself along one or more
edges. -/
def Acyclic (deps : List (List Nat)) : Prop :=
  ∀ v, ¬ Relation.TransGen (Edge deps) v v

/-- The loop invariant of the extraction loop on a table in which every constraint has at
most one prerequisite: the nodes output or held in the heap are pairwise distinct and are
the roots together with the dependents of the nodes output; `visited` flags the nodes
output; every output node comes after its prerequisite. -/
structure ExtractInv (n : Nat) (deps : List (List Nat)) (queue : FixedSizeHeap)
    (visited : List Bool) (order : List Nat) : Prop where
  nodup : (order ++ queue.entries.map Prod.fst).Nodup
  mem_iff : ∀ v, v ∈ order ++ queue.entries.map Prod.fst ↔
    v < n ∧ (deps.getD v [] = [] ∨ ∃ u ∈ deps.getD v [], u ∈ order)
  vis_len : visited.length = n
  vis_iff : ∀ v < n, visited.getD v false = true ↔ v ∈ order
  before : ∀ v ∈ order, ∀ u ∈ deps.getD v [], order.indexOf u < order.indexOf v

/-- Whether the operation is `setFeasibility`. -/
def Op.isSetFeasibility : Op → Bool
  | Op.setFeasibility _ => true
  | _ => false

/-- Every name in `constraintMap` is the entry of `constraintNames` at its index. -/
def PyCSpace.NamesAgree (s : PyCSpace) : Prop :=
  ∀ name i, s.lookup name = some i → s.constraintNames[i]? = some name

/-- A sequence of `IsFeasible` calls that each return normally: the state after the last
call and the calls made to the Python tests, in order. -/
def PyCSpace.queries (s : PyCSpace) :
    List (Config × (Nat → ℚ)) → Option (PyCSpace × List (Nat × Bool))
  | [] => some (s, [])
  | c :: cs =>
    match s.IsFeasible c.1 c.2 with
    | Outcome.ret r s1 => (s1.queries cs).map fun p => (p.1, r.2 ++ p.2)
    | _ => none

/-- The states of the scenario with two feasibility tests `f0`, `f1` named `n0`, `n1`,
adaptive queries enabled, no dependencies and no order yet, in which the stats are those
of a fresh `TesterStats` after the observations `ev0` and `ev1`. -/
structure TwoTests (f0 f1 : Config → Bool) (n0 n1 : String) (ev0 ev1 : List (ℚ × Bool))
    (t : PyCSpace) : Prop where
  tests : t.feasibleTests = [some f0, some f1]
  stats : t.feasibleStats =
    [TesterStats.ctor.updates (unitCalls ev0), TesterStats.ctor.updates (unitCalls ev1)]
  names : t.constraintNames = [n0, n1]
  order : t.feasibleTestOrder = []
  fdeps : t.feasibleTestDeps = []
  vdeps : t.visibleTestDeps = []
  adaptive : t.adaptive = true

/-- Every feasibility slot has a name and a stats entry: `feasibleTests` is no longer
than `constraintNames` and as long as `feasibleStats`. -/
def PyCSpace.SlotsInBounds (s : PyCSpace) : Prop :=
  s.feasibleTests.length ≤ s.constraintNames.length ∧
    s.feasibleStats.length = s.feasibleTests.length

/-- A call of `makeNewCSpace` or `destroyCSpace`. -/
inductive RegistryCall where
  | makeNewCSpace
  | destroyCSpace (cspace : Int)

/-- Run a sequence of `makeNewCSpace` and `destroyCSpace` calls in which `destroyCSpace` is
only applied to indices that are live at the call; `none` when a call of the sequence is
applied to an index that is not live, or does not return. -/
def Registry.runCalls (r : Registry) : List RegistryCall → Option Registry
  | [] => some r
  | RegistryCall.makeNewCSpace :: calls =>
    match makeNewCSpace r with
    | RegOutcome.ret _ r1 => r1.runCalls calls
    | _ => none
  | RegistryCall.destroyCSpace cspace :: calls =>
    if (r.space cspace).isSome then
      match destroyCSpace r cspace with
      | RegOutcome.ret _ r1 => r1.runCalls calls
      | _ => none
    else none

/-- The free list holds, without repetition, exactly the indices of the `NULL` slots of
`spaces`. -/
def Registry.FreeListExact (r : Registry) : Prop :=
  r.spacesDeleteList.Nodup ∧ ∀ i : Nat, i ∈ r.spacesDeleteList ↔ r.spaces[i]? = some none

/-- The setting names that the numeric `setPlanSetting` accepts. -/
def numericSettings : List String :=
  ["knn", "connectionThreshold", "perturbationRadius", "bidirectional", "grid",
   "gridResolution", "suboptimalityFactor", "ignoreConnectedComponents", "randomizeFrequency",
   "shortcut", "restart"]

/-- The setting names that the string `setPlanSetting` accepts. -/
def stringSettings : List String :=
  ["pointLocation", "restartTermCond"]

/-! ## TesterStats: proofs -/

theorem TesterStats.update_valid (s : TesterStats) (t : ℚ) (b : Bool) (k : ℚ)
    (hs : s.Valid) (ht : 0 ≤ t) (hk : 0 ≤ k) : (s.update t b k).Valid := by
  obtain ⟨hc, hp0, hp1, hn⟩ := hs
  have hpos : 0 < (if s.count + k = 0 then (1 : ℚ) else s.count + k) := by
    split_ifs with h
    · norm_num
    · exact lt_of_le_of_ne (add_nonneg hn hk) (Ne.symm h)
  have hle : s.count ≤ (if s.count + k = 0 then (1 : ℚ) else s.count + k) := by
    split_ifs with h
    · linarith
    · linarith
  have hw0 : 0 ≤ s.count / (if s.count + k = 0 then (1 : ℚ) else s.count + k) :=
    div_nonneg hn hpos.le
  have hw1 : s.count / (if s.count + k = 0 then (1 : ℚ) else s.count + k) ≤ 1 :=
    (div_le_one hpos).mpr hle
  simp only [TesterStats.Valid, TesterStats.update]
  generalize s.count / (if s.count + k = 0 then (1 : ℚ) else s.count + k) = w at hw0 hw1
  refine ⟨?_, ?_, ?_, ?_⟩
  · have h1 : 0 ≤ w * s.cost := mul_nonneg hw0 hc
    have h2 : 0 ≤ (1 - w) * t := mul_nonneg (by linarith) ht
    linarith
  · have h1 : 0 ≤ w * s.probability := mul_nonneg hw0 hp0
    split_ifs <;> linarith
  · have h1 : w * s.probability ≤ w := by nlinarith
    split_ifs <;> linarith
  · linarith

theorem TesterStats.updates_valid (calls : List (ℚ × Bool × ℚ)) :
    ∀ s : TesterStats, s.Valid → (∀ c ∈ calls, 0 ≤ c.1 ∧ 0 ≤ c.2.2) →
      (s.updates calls).Valid := by
  induction calls with
  | nil => intro s hs _; exact hs
  | cons c cs ih =>
    intro s hs hc
    have h1 := hc c (List.mem_cons_self _ _)
    exact ih (s.update c.1 c.2.1 c.2.2) (TesterStats.update_valid s _ _ _ hs h1.1 h1.2)
      (fun d hd => hc d (List.mem_cons_of_mem _ hd))

/-- C5: from a fresh `TesterStats`, and from any state set by `reset` with `cost ≥ 0`,
`0 ≤ probability ≤ 1` and `count ≥ 0`, every finite sequence of `update` calls with
`testcost ≥ 0` and `strength ≥ 0` leaves `0 ≤ probability ≤ 1` and `cost ≥ 0`. -/
theorem C5_update_keeps_probability_and_cost_in_range
    (old : TesterStats) (cost probability count : ℚ) (calls : List (ℚ × Bool × ℚ))
    (hcost : 0 ≤ cost) (hp0 : 0 ≤ probability) (hp1 : probability ≤ 1) (hcount : 0 ≤ count)
    (hcalls : ∀ c ∈ calls, 0 ≤ c.1 ∧ 0 ≤ c.2.2) :
    (0 ≤ (TesterStats.ctor.updates calls).probability ∧
      (TesterStats.ctor.updates calls).probability ≤ 1 ∧
      0 ≤ (TesterStats.ctor.updates calls).cost) ∧
    (0 ≤ ((old.reset cost probability count).updates calls).probability ∧
      ((old.reset cost probability count).updates calls).probability ≤ 1 ∧
      0 ≤ ((old.reset cost probability count).updates calls).cost) := by
  have h1 := TesterStats.updates_valid calls TesterStats.ctor
    ⟨le_refl _, le_refl _, zero_le_one, le_refl _⟩ hcalls
  have h2 := TesterStats.updates_valid calls (old.reset cost probability count)
    ⟨hcost, hp0, hp1, hcount⟩ hcalls
  exact ⟨⟨h1.2.1, h1.2.2.1, h1.1⟩, ⟨h2.2.1, h2.2.2.1, h2.1⟩⟩

/-- C5 at a concrete input: a prior `(2, 1/2, 3)` followed by a failed test of cost `1` and
a passed test of cost `4` with strength `2`. -/
theorem C5_update_keeps_probability_and_cost_in_range_witness :
    (0 ≤ (TesterStats.ctor.updates [(1, false, 1), (4, true, 2)]).probability ∧
      (TesterStats.ctor.updates [(1, false, 1), (4, true, 2)]).probability ≤ 1 ∧
      0 ≤ (TesterStats.ctor.updates [(1, false, 1), (4, true, 2)]).cost) ∧
    (0 ≤ ((TesterStats.ctor.reset 2 (1 / 2) 3).updates [(1, false, 1), (4, true, 2)]).probability ∧
      ((TesterStats.ctor.reset 2 (1 / 2) 3).updates [(1, false, 1), (4, true, 2)]).probability ≤ 1 ∧
      0 ≤ ((TesterStats.ctor.reset 2 (1 / 2) 3).updates [(1, false, 1), (4, true, 2)]).cost) :=
  C5_update_keeps_probability_and_cost_in_range TesterStats.ctor 2 (1 / 2) 3
    [(1, false, 1), (4, true, 2)] (by norm_num) (by norm_num) (by norm_num) (by norm_num)
    (by intro c hc; simp at hc; rcases hc with rfl | rfl <;> norm_num)

/-- The running-mean invariant: `count = k`, `cost * k` is the sum of the observed costs
and `probability * k` the number of passed tests. -/
theorem TesterStats.update_mean (s : TesterStats) (k : ℕ) (S T : ℚ) (c : ℚ) (b : Bool)
    (hk : s.count = k) (hS : s.cost * k = S) (hT : s.probability * k = T) :
    (s.update c b 1).count = (k + 1 : ℕ) ∧ (s.update c b 1).cost * (k + 1 : ℕ) = S + c ∧
      (s.update c b 1).probability * (k + 1 : ℕ) = T + (if b then 1 else 0) := by
  have hne : (k : ℚ) + 1 ≠ 0 := by positivity
  simp only [TesterStats.update, hk, if_neg hne]
  push_cast
  refine ⟨rfl, ?_, ?_⟩
  · rw [← hS]; field_simp; ring
  · rw [← hT]; cases b <;> simp <;> field_simp <;> ring

theorem TesterStats.updates_mean (obs : List (ℚ × Bool)) :
    ∀ (s : TesterStats) (k : ℕ) (S T : ℚ), s.count = k → s.cost * k = S →
      s.probability * k = T →
      (s.updates (unitCalls obs)).count = (k + obs.length : ℕ) ∧
      (s.updates (unitCalls obs)).cost * (k + obs.length : ℕ) = S + (obs.map Prod.fst).sum ∧
      (s.updates (unitCalls obs)).probability * (k + obs.length : ℕ) =
        T + ((obs.filter fun c => c.2).length : ℕ) := by
  induction obs with
  | nil => intro s k S T hk hS hT; simpa [unitCalls, TesterStats.updates] using ⟨hk, hS, hT⟩
  | cons o os ih =>
    intro s k S T hk hS hT
    obtain ⟨h1, h2, h3⟩ := TesterStats.update_mean s k S T o.1 o.2 hk hS hT
    have := ih (s.update o.1 o.2 1) (k + 1) (S + o.1) (T + (if o.2 then 1 else 0)) h1 h2 h3
    have e : k + 1 + os.length = k + (o :: os).length := by simp; ring
    rw [e] at this
    obtain ⟨g1, g2, g3⟩ := this
    refine ⟨g1, ?_, ?_⟩
    · rw [show (s.updates (unitCalls (o :: os))) = (s.update o.1 o.2 1).updates (unitCalls os)
        from rfl, g2]
      simp; ring
    · rw [show (s.updates (unitCalls (o :: os))) = (s.update o.1 o.2 1).updates (unitCalls os)
        from rfl, g3]
      cases h : o.2 <;> simp [List.filter_cons, h]
      ring

/-- C6: from a fresh `TesterStats`, after `n ≥ 1` calls `update(c_k, b_k)` with the default
strength `1`, `cost` is the arithmetic mean of the `c_k`, `probability` is the number of
true `b_k` divided by `n`, and `count` is `n`. -/
theorem C6_update_is_running_mean (obs : List (ℚ × Bool)) (hn : 1 ≤ obs.length) :
    (TesterStats.ctor.updates (unitCalls obs)).cost = (obs.map Prod.fst).sum / obs.length ∧
    (TesterStats.ctor.updates (unitCalls obs)).probability =
      ((obs.filter fun c => c.2).length : ℕ) / obs.length ∧
    (TesterStats.ctor.updates (unitCalls obs)).count = obs.length := by
  obtain ⟨h1, h2, h3⟩ := TesterStats.updates_mean obs TesterStats.ctor 0 0 0
    (by simp [TesterStats.ctor]) (by simp) (by simp)
  have hpos : (obs.length : ℚ) ≠ 0 := by
    have : 0 < obs.length := hn
    positivity
  simp only [Nat.zero_add, zero_add] at h1 h2 h3
  exact ⟨by rw [eq_div_iff hpos]; exact h2, by rw [eq_div_iff hpos]; exact h3, h1⟩

/-- C6 at a concrete input: observations `(3, true), (1, false), (2, true)`. -/
theorem C6_update_is_running_mean_witness :
    (TesterStats.ctor.updates (unitCalls [(3, true), (1, false), (2, true)])).cost
      = ([(3, true), (1, false), (2, true)].map Prod.fst).sum
        / ([(3, true), (1, false), (2, true)] : List (ℚ × Bool)).length ∧
    (TesterStats.ctor.updates (unitCalls [(3, true), (1, false), (2, true)])).probability =
      ((([(3, true), (1, false), (2, true)] : List (ℚ × Bool)).filter fun c => c.2).length : ℕ)
        / ([(3, true), (1, false), (2, true)] : List (ℚ × Bool)).length ∧
    (TesterStats.ctor.updates (unitCalls [(3, true), (1, false), (2, true)])).count
      = ([(3, true), (1, false), (2, true)] : List (ℚ × Bool)).length :=
  C6_update_is_running_mean [(3, true), (1, false), (2, true)] (by decide)

/-! ## The no-dependency branch: sorting -/

theorem Double.lt_transitive {a b c : Double} (h1 : a.lt b = true) (h2 : b.lt c = true) :
    a.lt c = true := by
  cases a <;> cases b <;> cases c <;> simp_all [Double.lt]
  linarith

theorem Double.lt_asymmetric {a b : Double} (h1 : a.lt b = true) : b.lt a = false := by
  cases a <;> cases b <;> simp_all [Double.lt]
  linarith

theorem Double.eq_of_not_lt {a b : Double} (ha : a ≠ Double.nan) (hb : b ≠ Double.nan)
    (h1 : a.lt b = false) (h2 : b.lt a = false) : a = b := by
  cases a <;> cases b <;> simp_all [Double.lt]
  linarith

theorem Double.lt_irreflexive (a : Double) : a.lt a = false := by
  cases a <;> simp [Double.lt]

/-- The lexicographic order on pairs, as a proposition. -/
theorem pairLt_iff {a b : Double × Nat} (ha : a.1 ≠ Double.nan) (hb : b.1 ≠ Double.nan) :
    pairLt a b = true ↔ (a.1.lt b.1 = true ∨ (a.1 = b.1 ∧ a.2 < b.2)) := by
  unfold pairLt
  constructor
  · intro h
    rcases Bool.or_eq_true _ _ ▸ h with h | h
    · exact Or.inl h
    · simp only [Bool.and_eq_true, Bool.not_eq_true', decide_eq_true_eq] at h
      by_cases hab : a.1.lt b.1 = true
      · exact Or.inl hab
      · exact Or.inr ⟨Double.eq_of_not_lt ha hb (by simpa using hab) h.1, h.2⟩
  · rintro (h | ⟨h1, h2⟩)
    · simp [h]
    · simp [h1, Double.lt_irreflexive, h2]

theorem pairLt_trans {a b c : Double × Nat} (ha : a.1 ≠ Double.nan) (hb : b.1 ≠ Double.nan)
    (hc : c.1 ≠ Double.nan) (h1 : pairLt a b = true) (h2 : pairLt b c = true) :
    pairLt a c = true := by
  rw [pairLt_iff ha hb] at h1
  rw [pairLt_iff hb hc] at h2
  rw [pairLt_iff ha hc]
  rcases h1 with h1 | ⟨e1, l1⟩ <;> rcases h2 with h2 | ⟨e2, l2⟩
  · exact Or.inl (Double.lt_transitive h1 h2)
  · exact Or.inl (e2 ▸ h1)
  · exact Or.inl (e1 ▸ h2)
  · exact Or.inr ⟨e1.trans e2, lt_trans l1 l2⟩

theorem pairLt_of_not_gt {a b : Double × Nat} (ha : a.1 ≠ Double.nan) (hb : b.1 ≠ Double.nan)
    (hne : a.2 ≠ b.2) (h : pairLt b a = false) : pairLt a b = true := by
  rw [pairLt_iff ha hb]
  have h' : ¬ (b.1.lt a.1 = true ∨ (b.1 = a.1 ∧ b.2 < a.2)) := by
    rw [← pairLt_iff hb ha]; simp [h]
  push_neg at h'
  by_cases hab : a.1.lt b.1 = true
  · exact Or.inl hab
  · have e : a.1 = b.1 := Double.eq_of_not_lt ha hb (by simpa using hab) (by simpa using h'.1)
    refine Or.inr ⟨e, ?_⟩
    have := h'.2 e.symm
    omega

theorem insertPair_perm (x : Double × Nat) (l : List (Double × Nat)) :
    (insertPair x l).Perm (x :: l) := by
  induction l with
  | nil => exact List.Perm.refl _
  | cons y ys ih =>
    unfold insertPair
    split_ifs
    · exact List.Perm.refl _
    · exact (List.Perm.cons y ih).trans (List.Perm.swap x y ys)

theorem sortPairs_perm (l : List (Double × Nat)) : (sortPairs l).Perm l := by
  induction l with
  | nil => exact List.Perm.refl _
  | cons x xs ih => exact (insertPair_perm x (sortPairs xs)).trans (List.Perm.cons x ih)

theorem insertPair_sorted (x : Double × Nat) (hx : x.1 ≠ Double.nan) (l : List (Double × Nat))
    (hl : ∀ e ∈ l, e.1 ≠ Double.nan) (hs : l.Pairwise fun a b => pairLt b a = false) :
    (insertPair x l).Pairwise fun a b => pairLt b a = false := by
  induction l with
  | nil => simp [insertPair]
  | cons y ys ih =>
    have hy : y.1 ≠ Double.nan := hl y (List.mem_cons_self _ _)
    have hys : ∀ e ∈ ys, e.1 ≠ Double.nan := fun e he => hl e (List.mem_cons_of_mem _ he)
    rw [List.pairwise_cons] at hs
    unfold insertPair
    split_ifs with hxy
    · refine List.Pairwise.cons ?_ (List.Pairwise.cons hs.1 hs.2)
      intro z hz
      rcases List.mem_cons.mp hz with rfl | hz
      · by_contra hc
        have hzx : pairLt z x = true := by simpa using hc
        have := pairLt_trans hx hy hx hxy hzx
        simp [pairLt, Double.lt_irreflexive] at this
      · by_contra hc
        have hzx : pairLt z x = true := by simpa using hc
        have := pairLt_trans (hys z hz) hx hy hzx hxy
        rw [hs.1 z hz] at this
        exact Bool.noConfusion this
    · refine List.Pairwise.cons ?_ (ih hys hs.2)
      intro z hz
      rcases List.mem_cons.mp ((insertPair_perm x ys).mem_iff.mp hz) with rfl | hz
      · simpa using hxy
      · exact hs.1 z hz

theorem sortPairs_sorted (l : List (Double × Nat)) (hl : ∀ e ∈ l, e.1 ≠ Double.nan) :
    (sortPairs l).Pairwise fun a b => pairLt b a = false := by
  induction l with
  | nil => exact List.Pairwise.nil
  | cons x xs ih =>
    have hxs : ∀ e ∈ xs, e.1 ≠ Double.nan := fun e he => hl e (List.mem_cons_of_mem _ he)
    exact insertPair_sorted x (hl x (List.mem_cons_self _ _)) (sortPairs xs)
      (fun e he => hxs e ((sortPairs_perm xs).mem_iff.mp he)) (ih hxs)

theorem priorityOf_ne_nan (s : TesterStats) : priorityOf s ≠ Double.nan := by
  unfold priorityOf
  cases h : Double.div s.cost (1 - s.probability) <;> simp [Double.isNaN]

theorem mem_initPriority {stats : List TesterStats} {e : Double × Nat}
    (he : e ∈ initPriority stats) : e.1 = priorityAt stats e.2 ∧ e.2 < stats.length := by
  unfold initPriority at he
  obtain ⟨i, hi, rfl⟩ := List.mem_map.mp he
  exact ⟨rfl, List.mem_range.mp hi⟩

theorem initPriority_snd (stats : List TesterStats) :
    (initPriority stats).map Prod.snd = List.range stats.length := by
  unfold initPriority
  rw [List.map_map]
  exact List.map_id _

/-- The order of the no-dependency branch is a rearrangement of `0..n-1` that ascends by
`(priority, index)`. -/
theorem sorted_order_spec (stats : List TesterStats) :
    ((sortPairs (initPriority stats)).map Prod.snd).Perm (List.range stats.length) ∧
    ((sortPairs (initPriority stats)).map Prod.snd).Pairwise (Before stats) := by
  have hperm := sortPairs_perm (initPriority stats)
  have hmem : ∀ e ∈ sortPairs (initPriority stats),
      e.1 = priorityAt stats e.2 ∧ e.2 < stats.length :=
    fun e he => mem_initPriority (hperm.mem_iff.mp he)
  have hnan : ∀ e ∈ sortPairs (initPriority stats), e.1 ≠ Double.nan := by
    intro e he
    rw [(hmem e he).1]
    exact priorityOf_ne_nan _
  have hp : ((sortPairs (initPriority stats)).map Prod.snd).Perm (List.range stats.length) := by
    rw [← initPriority_snd]
    exact hperm.map _
  have hnd : ((sortPairs (initPriority stats)).map Prod.snd).Nodup :=
    hp.nodup_iff.mpr (List.nodup_range _)
  refine ⟨hp, ?_⟩
  rw [List.pairwise_map]
  have hs := sortPairs_sorted (initPriority stats)
    (fun e he => hnan e (hperm.mem_iff.mpr he))
  have hnd' : (sortPairs (initPriority stats)).Pairwise fun a b => a.2 ≠ b.2 := by
    have := hnd
    rw [List.Nodup, List.pairwise_map] at this
    exact this
  refine (hs.and hnd').imp_of_mem ?_
  intro a b ha hb hab
  have h := pairLt_of_not_gt (hnan a ha) (hnan b hb) hab.2 hab.1
  rw [pairLt_iff (hnan a ha) (hnan b hb)] at h
  unfold Before
  rw [← (hmem a ha).1, ← (hmem b hb).1]
  exact h

theorem priorityAt_eq_ratio (stats : List TesterStats) (i : Nat)
    (h : (stats.getD i TesterStats.ctor).probability < 1) :
    priorityAt stats i = Double.fin (ratioAt stats i) := by
  unfold priorityAt ratioAt priorityOf Double.div
  generalize stats.getD i TesterStats.ctor = s at h ⊢
  have hne : (1 : ℚ) - s.probability ≠ 0 := by linarith
  simp [hne, Double.isNaN]

theorem OptimizeTestingOrder_no_deps (fuel : Nat) (stats : List TesterStats) :
    OptimizeTestingOrder fuel stats [] =
      Except.ok ((sortPairs (initPriority stats)).map Prod.snd) := by
  simp [OptimizeTestingOrder]

/-- C2: with an empty dependency table and a non-empty stats vector, `OptimizeTestingOrder`
returns the indices `0..n-1` ascending by priority `cost_i/(1-probability_i)`, equal
priorities by ascending index; when all probabilities are below 1 and the quotients
`c_i/(1-p_i)` are distinct, the result ascends strictly by `c_i/(1-p_i)`; and for stats
`(1.0,0.1), (2.0,0.5), (0.5,0.9)` it is `[0,1,2]`. -/
theorem C2_no_dependency_order_is_ascending_priority_sort (fuel : Nat)
    (stats : List TesterStats) (_hne : stats ≠ []) :
    ∃ order, OptimizeTestingOrder fuel stats [] = Except.ok order ∧
      order.Perm (List.range stats.length) ∧
      order.Pairwise (Before stats) ∧
      ((∀ i < stats.length, (stats.getD i TesterStats.ctor).probability < 1) →
        (∀ i < stats.length, ∀ j < stats.length, i ≠ j → ratioAt stats i ≠ ratioAt stats j) →
        order.Pairwise fun i j => ratioAt stats i < ratioAt stats j) ∧
      (∀ k0 k1 k2 : ℚ,
        OptimizeTestingOrder fuel [⟨1, 1 / 10, k0⟩, ⟨2, 1 / 2, k1⟩, ⟨1 / 2, 9 / 10, k2⟩] []
          = Except.ok [0, 1, 2]) := by
  obtain ⟨hp, hs⟩ := sorted_order_spec stats
  refine ⟨_, OptimizeTestingOrder_no_deps fuel stats, hp, hs, ?_, ?_⟩
  · intro hprob hdist
    have hnd : ((sortPairs (initPriority stats)).map Prod.snd).Nodup :=
      hp.nodup_iff.mpr (List.nodup_range _)
    refine (hs.and hnd).imp_of_mem ?_
    intro i j hi hj hij
    have hi' : i < stats.length := List.mem_range.mp (hp.mem_iff.mp hi)
    have hj' : j < stats.length := List.mem_range.mp (hp.mem_iff.mp hj)
    have h := hij.1
    unfold Before at h
    rw [priorityAt_eq_ratio stats i (hprob i hi'), priorityAt_eq_ratio stats j (hprob j hj')] at h
    rcases h with h | ⟨h, _⟩
    · simpa [Double.lt] using h
    · exact absurd (Double.fin.inj h) (hdist i hi' j hj' hij.2)
  · intro k0 k1 k2
    rw [OptimizeTestingOrder_no_deps]
    simp [initPriority, List.range, List.range.loop, priorityOf, Double.div, Double.isNaN,
      sortPairs, insertPair, pairLt, Double.lt]
    norm_num [insertPair, pairLt, Double.lt]

/-- C2 at the stats `(1.0,0.1), (2.0,0.5), (0.5,0.9)`. -/
theorem C2_no_dependency_order_is_ascending_priority_sort_witness :
    ∃ order, OptimizeTestingOrder 0 [⟨1, 1 / 10, 0⟩, ⟨2, 1 / 2, 0⟩, ⟨1 / 2, 9 / 10, 0⟩] []
        = Except.ok order ∧
      order.Perm (List.range [(⟨1, 1 / 10, 0⟩ : TesterStats), ⟨2, 1 / 2, 0⟩, ⟨1 / 2, 9 / 10, 0⟩].length) ∧
      order.Pairwise (Before [⟨1, 1 / 10, 0⟩, ⟨2, 1 / 2, 0⟩, ⟨1 / 2, 9 / 10, 0⟩]) ∧
      ((∀ i < [(⟨1, 1 / 10, 0⟩ : TesterStats), ⟨2, 1 / 2, 0⟩, ⟨1 / 2, 9 / 10, 0⟩].length,
          (([⟨1, 1 / 10, 0⟩, ⟨2, 1 / 2, 0⟩, ⟨1 / 2, 9 / 10, 0⟩] : List TesterStats).getD i
            TesterStats.ctor).probability < 1) →
        (∀ i < [(⟨1, 1 / 10, 0⟩ : TesterStats), ⟨2, 1 / 2, 0⟩, ⟨1 / 2, 9 / 10, 0⟩].length,
          ∀ j < [(⟨1, 1 / 10, 0⟩ : TesterStats), ⟨2, 1 / 2, 0⟩, ⟨1 / 2, 9 / 10, 0⟩].length,
          i ≠ j → ratioAt [⟨1, 1 / 10, 0⟩, ⟨2, 1 / 2, 0⟩, ⟨1 / 2, 9 / 10, 0⟩] i
            ≠ ratioAt [⟨1, 1 / 10, 0⟩, ⟨2, 1 / 2, 0⟩, ⟨1 / 2, 9 / 10, 0⟩] j) →
        order.Pairwise fun i j => ratioAt [⟨1, 1 / 10, 0⟩, ⟨2, 1 / 2, 0⟩, ⟨1 / 2, 9 / 10, 0⟩] i
          < ratioAt [⟨1, 1 / 10, 0⟩, ⟨2, 1 / 2, 0⟩, ⟨1 / 2, 9 / 10, 0⟩] j) ∧
      (∀ k0 k1 k2 : ℚ,
        OptimizeTestingOrder 0 [⟨1, 1 / 10, k0⟩, ⟨2, 1 / 2, k1⟩, ⟨1 / 2, 9 / 10, k2⟩] []
          = Except.ok [0, 1, 2]) :=
  C2_no_dependency_order_is_ascending_priority_sort 0
    [⟨1, 1 / 10, 0⟩, ⟨2, 1 / 2, 0⟩, ⟨1 / 2, 9 / 10, 0⟩] (by simp)

/-! ## The dependency branch: the extraction loop -/

theorem foldl_push_entries (f : Nat → Double) (l : List Nat) :
    ∀ q : FixedSizeHeap,
      (l.foldl (fun q j => q.push j (f j)) q).entries = q.entries ++ l.map fun j => (j, f j) := by
  induction l with
  | nil => intro q; simp
  | cons a l ih =>
    intro q
    rw [List.foldl_cons, ih]
    simp [FixedSizeHeap.push]

theorem FixedSizeHeap.maxEntry_mem (l : List (Nat × Double)) :
    ∀ best, FixedSizeHeap.maxEntry best l ∈ best :: l := by
  induction l with
  | nil => intro best; simp [FixedSizeHeap.maxEntry]
  | cons x xs ih =>
    intro best
    unfold FixedSizeHeap.maxEntry
    split_ifs
    · exact List.mem_cons_of_mem _ (ih x)
    · rcases List.mem_cons.mp (ih best) with h | h
      · rw [h]; exact List.mem_cons_self _ _
      · exact List.mem_cons_of_mem _ (List.mem_cons_of_mem _ h)

theorem FixedSizeHeap.topEntry_mem {q : FixedSizeHeap} {e : Nat × Double}
    (h : q.topEntry = some e) : e ∈ q.entries := by
  unfold FixedSizeHeap.topEntry at h
  cases hq : q.entries with
  | nil => rw [hq] at h; exact Option.noConfusion h
  | cons x xs =>
    rw [hq] at h
    simp only [Option.some.injEq] at h
    exact h ▸ FixedSizeHeap.maxEntry_mem xs x

theorem FixedSizeHeap.topEntry_none {q : FixedSizeHeap} (h : q.topEntry = none) :
    q.entries = [] := by
  unfold FixedSizeHeap.topEntry at h
  cases hq : q.entries with
  | nil => rfl
  | cons x xs => rw [hq] at h; exact Option.noConfusion h

theorem firstUnvisited_none (vs : List Bool)
    (h : ∀ v < vs.length, vs.getD v false = true) : firstUnvisited vs = none := by
  induction vs with
  | nil => rfl
  | cons b bs ih =>
    have h0 := h 0 (by simp)
    simp at h0
    subst h0
    have : firstUnvisited bs = none := by
      apply ih
      intro v hv
      have := h (v + 1) (by simpa using hv)
      simpa using this
    simp [firstUnvisited, this]

theorem getD_set_true (vs : List Bool) (i v : Nat) (hi : i < vs.length) :
    (vs.set i true).getD v false = true ↔ v = i ∨ vs.getD v false = true := by
  simp only [List.getD_eq_getElem?_getD, List.getElem?_set]
  by_cases hv : i = v
  · subst hv
    simp [hi]
  · simp [hv, Ne.symm hv]

theorem outEdges_mem {n : Nat} {deps : List (List Nat)} {i w : Nat} :
    w ∈ outEdges n deps i ↔ w < n ∧ i ∈ deps.getD w [] := by
  simp [outEdges]

theorem outEdges_nodup (n : Nat) (deps : List (List Nat)) (i : Nat) :
    (outEdges n deps i).Nodup :=
  (List.nodup_range n).filter _

/-- On an acyclic table with in-range entries, when the heap is empty every node has been
output. -/
theorem ExtractInv.all_output {n : Nat} {deps : List (List Nat)} {queue : FixedSizeHeap}
    {visited : List Bool} {order : List Nat} (inv : ExtractInv n deps queue visited order)
    (hrange : ∀ v < n, ∀ u ∈ deps.getD v [], u < n) (hacyc : Acyclic deps)
    (hq : queue.entries = []) : ∀ v < n, v ∈ order := by
  have hwf : WellFounded fun a b : Fin n => Relation.TransGen (Edge deps) a.val b.val := by
    haveI : IsTrans (Fin n) fun a b => Relation.TransGen (Edge deps) a.val b.val :=
      ⟨fun _ _ _ h1 h2 => Relation.TransGen.trans h1 h2⟩
    haveI : IsIrrefl (Fin n) fun a b => Relation.TransGen (Edge deps) a.val b.val :=
      ⟨fun a => hacyc a.val⟩
    exact Finite.wellFounded_of_trans_of_irrefl _
  have key : ∀ a : Fin n, a.val ∈ order := by
    intro a
    induction a using hwf.induction with
    | _ a ih =>
      have hm := inv.mem_iff a.val
      rw [hq] at hm
      simp only [List.map_nil, List.append_nil] at hm
      rw [hm]
      refine ⟨a.isLt, ?_⟩
      cases hd : deps.getD a.val [] with
      | nil => exact Or.inl rfl
      | cons u us =>
        right
        have hu : u ∈ deps.getD a.val [] := by rw [hd]; exact List.mem_cons_self _ _
        have hun : u < n := hrange a.val a.isLt u hu
        exact ⟨u, List.mem_cons_self _ _, ih ⟨u, hun⟩ (Relation.TransGen.single hu)⟩
  intro v hv
  exact key ⟨v, hv⟩

theorem eq_of_mem_of_length_le_one {l : List Nat} (h : l.length ≤ 1) {a b : Nat}
    (ha : a ∈ l) (hb : b ∈ l) : a = b := by
  match l, h with
  | [], _ => exact absurd ha (List.not_mem_nil _)
  | [x], _ =>
    rw [List.mem_singleton] at ha hb
    rw [ha, hb]
  | _ :: _ :: _, h => simp at h

theorem perm_cons_erase_entry {e : Nat × Double} {l : List (Nat × Double)} (h : e ∈ l) :
    l.Perm (e :: l.erase e) := by
  induction l with
  | nil => exact absurd h (List.not_mem_nil _)
  | cons x xs ih =>
    rw [List.erase_cons]
    by_cases hx : x = e
    · subst hx
      simp
    · have hbeq : (x == e) = false := by simpa using hx
      rw [hbeq]
      simp only [Bool.false_eq_true, if_false]
      have he : e ∈ xs := (List.mem_cons.mp h).resolve_left (Ne.symm hx)
      exact (List.Perm.cons x (ih he)).trans (List.Perm.swap e x _)

/-- One iteration of the extraction loop that pops the heap keeps the invariant. -/
theorem ExtractInv.step {n : Nat} {deps : List (List Nat)} {queue : FixedSizeHeap}
    {visited : List Bool} {order : List Nat} (priority : List (Double × Nat))
    (inv : ExtractInv n deps queue visited order)
    (hone : ∀ v < n, (deps.getD v []).length ≤ 1)
    {e : Nat × Double} (he : queue.topEntry = some e) :
    ExtractInv n deps
      ((outEdges n deps e.1).foldl
        (fun q j => q.push j (Double.neg (priority.getD j (Double.nan, j)).1)) queue.pop)
      (visited.set e.1 true) (order ++ [e.1]) := by
  have hmem : e ∈ queue.entries := FixedSizeHeap.topEntry_mem he
  have hpop : queue.pop = ⟨queue.entries.erase e⟩ := by
    unfold FixedSizeHeap.pop
    rw [he]
  have hperm : (queue.entries.map Prod.fst).Perm
      (e.1 :: (queue.entries.erase e).map Prod.fst) := by
    exact (perm_cons_erase_entry hmem).map Prod.fst
  have hnew : (((outEdges n deps e.1).foldl
        (fun q j => q.push j (Double.neg (priority.getD j (Double.nan, j)).1))
        queue.pop).entries.map Prod.fst)
      = (queue.entries.erase e).map Prod.fst ++ outEdges n deps e.1 := by
    rw [foldl_push_entries, hpop, List.map_append, List.map_map]
    congr 1
    exact List.map_id _
  have hL : (order ++ queue.entries.map Prod.fst).Perm
      ((order ++ [e.1]) ++ (queue.entries.erase e).map Prod.fst) := by
    rw [List.append_assoc]
    exact List.Perm.append_left order hperm
  have hnd0 := hL.nodup_iff.mp inv.nodup
  have heL : e.1 ∈ order ++ queue.entries.map Prod.fst :=
    List.mem_append_right _ (List.mem_map_of_mem _ hmem)
  have hen : e.1 < n := ((inv.mem_iff e.1).mp heL).1
  have heo : e.1 ∉ order := by
    intro h
    exact (List.nodup_append.mp inv.nodup).2.2 h (List.mem_map_of_mem _ hmem)
  have hC : ∀ w ∈ outEdges n deps e.1, w ∉ order ++ queue.entries.map Prod.fst := by
    intro w hw hwL
    obtain ⟨hwn, hew⟩ := outEdges_mem.mp hw
    rcases ((inv.mem_iff w).mp hwL).2 with h | ⟨u, hu, huo⟩
    · rw [h] at hew
      exact List.not_mem_nil _ hew
    · exact heo (eq_of_mem_of_length_le_one (hone w hwn) hew hu ▸ huo)
  refine ⟨?_, ?_, ?_, ?_, ?_⟩
  · rw [hnew, ← List.append_assoc]
    refine List.nodup_append.mpr ⟨hnd0, outEdges_nodup _ _ _, ?_⟩
    intro a ha hb
    exact hC a hb (hL.mem_iff.mpr ha)
  · intro v
    rw [hnew, ← List.append_assoc, List.mem_append, ← hL.mem_iff, inv.mem_iff, outEdges_mem]
    constructor
    · rintro (⟨hv, h | ⟨u, hu, huo⟩⟩ | ⟨hv, hev⟩)
      · exact ⟨hv, Or.inl h⟩
      · exact ⟨hv, Or.inr ⟨u, hu, List.mem_append_left _ huo⟩⟩
      · exact ⟨hv, Or.inr ⟨e.1, hev, List.mem_append_right _ (List.mem_singleton_self _)⟩⟩
    · rintro ⟨hv, h | ⟨u, hu, huo⟩⟩
      · exact Or.inl ⟨hv, Or.inl h⟩
      · rcases List.mem_append.mp huo with h | h
        · exact Or.inl ⟨hv, Or.inr ⟨u, hu, h⟩⟩
        · rw [List.mem_singleton] at h
          exact Or.inr ⟨hv, h ▸ hu⟩
  · rw [List.length_set]
    exact inv.vis_len
  · intro v hv
    rw [getD_set_true _ _ _ (inv.vis_len.symm ▸ hen), List.mem_append, List.mem_singleton]
    constructor
    · rintro (h | h)
      · exact Or.inr h
      · exact Or.inl ((inv.vis_iff v hv).mp h)
    · rintro (h | h)
      · exact Or.inr ((inv.vis_iff v hv).mpr h)
      · exact Or.inl h
  · intro v hv u hu
    rcases List.mem_append.mp hv with hvo | hve
    · have hlt := inv.before v hvo u hu
      have huo : u ∈ order :=
        List.indexOf_lt_length.mp (lt_of_lt_of_le hlt List.indexOf_le_length)
      rw [List.indexOf_append_of_mem huo, List.indexOf_append_of_mem hvo]
      exact hlt
    · rw [List.mem_singleton] at hve
      subst hve
      have huo : u ∈ order := by
        rcases ((inv.mem_iff e.1).mp heL).2 with h | ⟨u', hu', huo'⟩
        · rw [h] at hu
          exact absurd hu (List.not_mem_nil _)
        · exact eq_of_mem_of_length_le_one (hone e.1 hen) hu hu' ▸ huo'
      rw [List.indexOf_append_of_mem huo, List.indexOf_append_of_not_mem heo]
      have := List.indexOf_lt_length.mpr huo
      omega

/-- On an acyclic table with in-range entries and at most one prerequisite per constraint,
the extraction loop returns once it has `n + 1` iterations left beyond the nodes already
output; the result rearranges `0..n-1` and puts every prerequisite before its dependent. -/
theorem extractLoop_forest (n : Nat) (deps : List (List Nat)) (priority : List (Double × Nat))
    (hrange : ∀ v < n, ∀ u ∈ deps.getD v [], u < n)
    (hone : ∀ v < n, (deps.getD v []).length ≤ 1) (hacyc : Acyclic deps) (fuel : Nat) :
    ∀ (queue : FixedSizeHeap) (visited : List Bool) (order : List Nat),
      ExtractInv n deps queue visited order → n + 1 ≤ order.length + fuel →
      ∃ result, extractLoop n deps priority fuel queue visited order = Except.ok result ∧
        result.Perm (List.range n) ∧
        ∀ v ∈ result, ∀ u ∈ deps.getD v [], result.indexOf u < result.indexOf v := by
  induction fuel with
  | zero =>
    intro queue visited order inv hf
    exfalso
    have hnd : order.Nodup := (List.nodup_append.mp inv.nodup).1
    have hsub : order ⊆ List.range n := by
      intro v hv
      exact List.mem_range.mpr ((inv.mem_iff v).mp (List.mem_append_left _ hv)).1
    have := (List.subperm_of_subset hnd hsub).length_le
    rw [List.length_range] at this
    omega
  | succ fuel ih =>
    intro queue visited order inv hf
    cases he : queue.topEntry with
    | none =>
      have hq := FixedSizeHeap.topEntry_none he
      have hall := inv.all_output hrange hacyc hq
      have hfu : firstUnvisited visited = none := by
        apply firstUnvisited_none
        intro v hv
        rw [inv.vis_len] at hv
        exact (inv.vis_iff v hv).mpr (hall v hv)
      refine ⟨order, ?_, ?_, inv.before⟩
      · simp [extractLoop, nextNode, he, hfu]
      · have hnd : order.Nodup := (List.nodup_append.mp inv.nodup).1
        rw [List.perm_ext_iff_of_nodup hnd (List.nodup_range n)]
        intro v
        rw [List.mem_range]
        constructor
        · intro hv
          exact ((inv.mem_iff v).mp (List.mem_append_left _ hv)).1
        · exact hall v
    | some e =>
      have hstep := inv.step priority hone he
      obtain ⟨result, hr, hp, hb⟩ := ih _ _ _ hstep (by rw [List.length_append]; simp; omega)
      refine ⟨result, ?_, hp, hb⟩
      rw [← hr]
      simp [extractLoop, nextNode, he]

/-- The state before the first iteration of the extraction loop satisfies the invariant. -/
theorem ExtractInv.init (n : Nat) (deps : List (List Nat)) (priority : List (Double × Nat)) :
    ExtractInv n deps (initialQueue n deps priority) (List.replicate n false) [] := by
  have hq : (initialQueue n deps priority).entries.map Prod.fst
      = (List.range n).filter fun i => inDegree deps i == 0 := by
    unfold initialQueue
    rw [foldl_push_entries, List.nil_append, List.map_map]
    exact List.map_id _
  refine ⟨?_, ?_, ?_, ?_, ?_⟩
  · rw [hq, List.nil_append]
    exact (List.nodup_range n).filter _
  · intro v
    rw [hq, List.nil_append, List.mem_filter, List.mem_range]
    simp [inDegree]
  · exact List.length_replicate _ _
  · intro v hv
    simp [List.getD_eq_getElem?_getD, List.getElem?_replicate, hv]
  · intro v hv
    exact absurd hv (List.not_mem_nil _)

theorem depsInBounds_of (n : Nat) (deps : List (List Nat)) (hlen : n ≤ deps.length)
    (hrange : ∀ v < n, ∀ u ∈ deps.getD v [], u < n) : depsInBounds n deps = true := by
  unfold depsInBounds
  simp only [Bool.and_eq_true, decide_eq_true_eq, List.all_eq_true, List.mem_range]
  exact ⟨hlen, hrange⟩

theorem edge_forest_example (u v : Nat) : Edge [[], [], [0], []] u v ↔ u = 0 ∧ v = 2 := by
  unfold Edge
  rcases v with _ | _ | _ | _ | v <;> simp

theorem acyclic_forest_example : Acyclic [[], [], [0], []] := by
  intro v h
  obtain ⟨b, hvb, hbv⟩ := Relation.TransGen.head'_iff.mp h
  obtain ⟨rfl, rfl⟩ := (edge_forest_example v b).mp hvb
  rcases Relation.ReflTransGen.cases_head hbv with h | ⟨c, hc, _⟩
  · exact absurd h (by decide)
  · exact absurd ((edge_forest_example 2 c).mp hc).1 (by decide)

/-- C7: on an acyclic dependency table in which each constraint has at most one
prerequisite, `OptimizeTestingOrder` returns (given `n + 1` loop iterations) a permutation
of `0..n-1` in which every prerequisite precedes its dependent; for four constraints with
`(cost,prob) = (1,0.5)` and the single edge `0→2` the order is `[1,3,0,2]`, with 0 before
2. -/
theorem C7_single_prerequisite_order_is_topological_permutation
    (fuel : Nat) (stats : List TesterStats) (deps : List (List Nat))
    (hlen : deps.length = stats.length)
    (hrange : ∀ v < stats.length, ∀ u ∈ deps.getD v [], u < stats.length)
    (hone : ∀ v < stats.length, (deps.getD v []).length ≤ 1)
    (hacyc : Acyclic deps) (hfuel : stats.length + 1 ≤ fuel) :
    (∃ order, OptimizeTestingOrder fuel stats deps = Except.ok order ∧
      order.Perm (List.range stats.length) ∧
      ∀ v < stats.length, ∀ u ∈ deps.getD v [], order.indexOf u < order.indexOf v) ∧
    (∀ k : Nat, OptimizeTestingOrder (k + 5)
        [⟨1, 1 / 2, 0⟩, ⟨1, 1 / 2, 0⟩, ⟨1, 1 / 2, 0⟩, ⟨1, 1 / 2, 0⟩] [[], [], [0], []]
      = Except.ok [1, 3, 0, 2]) := by
  constructor
  · cases hd : deps.isEmpty with
    | true =>
      have hnil : deps = [] := List.isEmpty_iff.mp hd
      subst hnil
      have hn : stats.length = 0 := hlen.symm
      refine ⟨_, OptimizeTestingOrder_no_deps fuel stats, (sorted_order_spec stats).1, ?_⟩
      intro v hv
      omega
    | false =>
      obtain ⟨order, ho, hp, hb⟩ := extractLoop_forest stats.length deps
        (revisedPriority stats deps) hrange hone hacyc fuel _ _ _
        (ExtractInv.init stats.length deps (revisedPriority stats deps)) (by simpa using hfuel)
      refine ⟨order, ?_, hp, ?_⟩
      · unfold OptimizeTestingOrder
        rw [hd, depsInBounds_of _ _ (le_of_eq hlen.symm) hrange]
        simpa using ho
      · intro v hv u hu
        exact hb v (hp.mem_iff.mpr (List.mem_range.mpr hv)) u hu
  · intro k
    have hrp : revisedPriority [⟨1, 1 / 2, 0⟩, ⟨1, 1 / 2, 0⟩, ⟨1, 1 / 2, 0⟩, ⟨1, 1 / 2, 0⟩]
        [[], [], [0], []]
        = [(Double.fin (8 / 3), 0), (Double.fin 2, 1), (Double.fin 2, 2), (Double.fin 2, 3)] := by
      simp [revisedPriority, topologicalSort, dfsVisit, outEdges, List.range, List.range.loop,
        reviseNode, bestChildStep, initPriority, priorityOf, Double.div, Double.isNaN, Double.lt]
      norm_num
    unfold OptimizeTestingOrder
    rw [hrp]
    norm_num [depsInBounds, initialQueue, List.erase_cons, inDegree, extractLoop, nextNode,
      FixedSizeHeap.topEntry, FixedSizeHeap.maxEntry, FixedSizeHeap.pop, FixedSizeHeap.push,
      outEdges, List.range, List.range.loop, Double.neg, Double.lt, firstUnvisited]

/-- C7 at four constraints with `(cost,prob) = (1,0.5)` and the single edge `0→2`. -/
theorem C7_single_prerequisite_order_is_topological_permutation_witness :
    (∃ order, OptimizeTestingOrder 5
        [⟨1, 1 / 2, 0⟩, ⟨1, 1 / 2, 0⟩, ⟨1, 1 / 2, 0⟩, ⟨1, 1 / 2, 0⟩] [[], [], [0], []]
        = Except.ok order ∧
      order.Perm (List.range
        [(⟨1, 1 / 2, 0⟩ : TesterStats), ⟨1, 1 / 2, 0⟩, ⟨1, 1 / 2, 0⟩, ⟨1, 1 / 2, 0⟩].length) ∧
      ∀ v < [(⟨1, 1 / 2, 0⟩ : TesterStats), ⟨1, 1 / 2, 0⟩, ⟨1, 1 / 2, 0⟩, ⟨1, 1 / 2, 0⟩].length,
        ∀ u ∈ ([[], [], [0], []] : List (List Nat)).getD v [],
          order.indexOf u < order.indexOf v) ∧
    (∀ k : Nat, OptimizeTestingOrder (k + 5)
        [⟨1, 1 / 2, 0⟩, ⟨1, 1 / 2, 0⟩, ⟨1, 1 / 2, 0⟩, ⟨1, 1 / 2, 0⟩] [[], [], [0], []]
      = Except.ok [1, 3, 0, 2]) :=
  C7_single_prerequisite_order_is_topological_permutation 5
    [⟨1, 1 / 2, 0⟩, ⟨1, 1 / 2, 0⟩, ⟨1, 1 / 2, 0⟩, ⟨1, 1 / 2, 0⟩] [[], [], [0], []]
    rfl
    (by
      intro v hv u hu
      rcases v with _ | _ | _ | _ | v <;> simp at hu hv ⊢
      omega)
    (by
      intro v hv
      rcases v with _ | _ | _ | _ | v <;> simp)
    acyclic_forest_example (by decide)

/-! ## The dependency branch: inputs on which the extraction loop goes wrong -/

theorem edge_two_prerequisites (u v : Nat) :
    Edge [[], [], [0, 1]] u v ↔ (u = 0 ∨ u = 1) ∧ v = 2 := by
  unfold Edge
  rcases v with _ | _ | _ | v <;> simp

theorem acyclic_two_prerequisites : Acyclic [[], [], [0, 1]] := by
  intro v h
  obtain ⟨b, hvb, hbv⟩ := Relation.TransGen.head'_iff.mp h
  obtain ⟨hv, rfl⟩ := (edge_two_prerequisites v b).mp hvb
  rcases Relation.ReflTransGen.cases_head hbv with h | ⟨c, hc, _⟩
  · omega
  · have := ((edge_two_prerequisites 2 c).mp hc).1
    omega

/-- The run of `OptimizeTestingOrder` on three constraints of costs `1, 10, 1` and pass
probability `0`, where constraint 2 has the two prerequisites 0 and 1: after 0 is output,
2 is pushed and, being cheaper than 1, output next; the later output of 1 pushes 2 again. -/
theorem optimize_two_prerequisites (k : Nat) :
    OptimizeTestingOrder (k + 5) [⟨1, 0, 0⟩, ⟨10, 0, 0⟩, ⟨1, 0, 0⟩] [[], [], [0, 1]]
      = Except.ok [0, 2, 1, 2] := by
  have hrp : revisedPriority [⟨1, 0, 0⟩, ⟨10, 0, 0⟩, ⟨1, 0, 0⟩] [[], [], [0, 1]]
      = [(Double.fin 2, 0), (Double.fin 11, 1), (Double.fin 1, 2)] := by
    simp [revisedPriority, topologicalSort, dfsVisit, outEdges, List.range, List.range.loop,
      reviseNode, bestChildStep, initPriority, priorityOf, Double.div, Double.isNaN, Double.lt]
    norm_num
  unfold OptimizeTestingOrder
  rw [hrp]
  norm_num [depsInBounds, initialQueue, List.erase_cons, inDegree, extractLoop, nextNode,
    FixedSizeHeap.topEntry, FixedSizeHeap.maxEntry, FixedSizeHeap.pop, FixedSizeHeap.push,
    outEdges, List.range, List.range.loop, Double.neg, Double.lt, firstUnvisited]

/-- C3 (the code departs from the claim): the table `[[], [], [0, 1]]` is acyclic and has
the edge `1→2`, yet `OptimizeTestingOrder` returns `[0, 2, 1, 2]`, in which 2 comes before
its prerequisite 1. -/
theorem C3_two_prerequisites_order_not_topological :
    Acyclic [[], [], [0, 1]] ∧ Edge [[], [], [0, 1]] 1 2 ∧
    ∀ k : Nat, ∃ order,
      OptimizeTestingOrder (k + 5) [⟨1, 0, 0⟩, ⟨10, 0, 0⟩, ⟨1, 0, 0⟩] [[], [], [0, 1]]
        = Except.ok order ∧
      order = [0, 2, 1, 2] ∧ order.indexOf 2 < order.indexOf 1 := by
  refine ⟨acyclic_two_prerequisites, (edge_two_prerequisites 1 2).mpr ⟨Or.inr rfl, rfl⟩, ?_⟩
  intro k
  exact ⟨_, optimize_two_prerequisites k, rfl, by decide⟩

/-- C4 (the code departs from the claim): on three constraints with the in-range table
`[[], [], [0, 1]]` the returned order has four entries, with index 2 twice, and is not a
permutation of `0..2`. -/
theorem C4_two_prerequisites_order_not_permutation :
    depsInBounds 3 [[], [], [0, 1]] = true ∧
    ∀ k : Nat, ∃ order,
      OptimizeTestingOrder (k + 5) [⟨1, 0, 0⟩, ⟨10, 0, 0⟩, ⟨1, 0, 0⟩] [[], [], [0, 1]]
        = Except.ok order ∧
      order.length = 4 ∧ order.count 2 = 2 ∧ ¬ order.Perm (List.range 3) := by
  refine ⟨by decide, ?_⟩
  intro k
  refine ⟨_, optimize_two_prerequisites k, rfl, by decide, ?_⟩
  intro h
  exact absurd h.length_eq (by decide)

theorem outEdges_cycle0 : outEdges 2 [[1], [0]] 0 = [1] := by
  simp [outEdges, List.range, List.range.loop]

theorem outEdges_cycle1 : outEdges 2 [[1], [0]] 1 = [0] := by
  simp [outEdges, List.range, List.range.loop]

/-- On the two-cycle, a heap that holds one node never empties: popping a node pushes the
other one. -/
theorem extractLoop_cycle_timeout (priority : List (Double × Nat)) (fuel : Nat) :
    ∀ (j : Nat) (key : Double) (visited : List Bool) (order : List Nat), j < 2 →
      extractLoop 2 [[1], [0]] priority fuel ⟨[(j, key)]⟩ visited order
        = Except.error Fault.timeout := by
  induction fuel with
  | zero => intros; rfl
  | succ fuel ih =>
    intro j key visited order hj
    have hj' : j = 0 ∨ j = 1 := by omega
    rcases hj' with rfl | rfl
    · simp only [extractLoop, nextNode, FixedSizeHeap.topEntry, FixedSizeHeap.maxEntry,
        FixedSizeHeap.pop, outEdges_cycle0, List.foldl, FixedSizeHeap.push, List.erase_cons_head,
        List.nil_append]
      exact ih 1 _ _ _ (by decide)
    · simp only [extractLoop, nextNode, FixedSizeHeap.topEntry, FixedSizeHeap.maxEntry,
        FixedSizeHeap.pop, outEdges_cycle1, List.foldl, FixedSizeHeap.push, List.erase_cons_head,
        List.nil_append]
      exact ih 0 _ _ _ (by decide)

/-- C8 (the code departs from the claim): for two constraints that are each other's
prerequisite the extraction loop never returns: whatever the stats and however many
iterations are allowed, the run is still going when they are used up. -/
theorem C8_two_cycle_never_returns (fuel : Nat) (s0 s1 : TesterStats) :
    OptimizeTestingOrder fuel [s0, s1] [[1], [0]] = Except.error Fault.timeout := by
  have hq : ∀ pr, initialQueue 2 [[1], [0]] pr = ⟨[]⟩ := by
    intro pr
    simp [initialQueue, inDegree, List.range, List.range.loop]
  have hb : depsInBounds (0 + 1 + 1) [[1], [0]] = true := by
    simp [depsInBounds, List.range, List.range.loop]
  simp only [OptimizeTestingOrder, List.isEmpty_cons, Bool.false_eq_true, if_false,
    List.length_cons, List.length_nil, hq]
  rw [if_pos hb]
  cases fuel with
  | zero => rfl
  | succ fuel =>
    simp only [extractLoop, nextNode, FixedSizeHeap.topEntry, List.replicate, firstUnvisited,
      Option.map, outEdges_cycle0, List.foldl, FixedSizeHeap.push, List.nil_append]
    exact extractLoop_cycle_timeout _ fuel 1 _ _ _ (by decide)

/-! ## PyCSpace: feasibility queries -/

/-- C1 (the code departs from the claim): after two constraints `A` (always true) and `B`
(always false) are registered, the order is optimized and `A` is registered again,
`feasibleTestOrder` is `[0, 0]`: `IsFeasible(q)` calls `A` twice, never calls `B`, and
returns true although `B` is false at `q`. -/
theorem C1_isFeasible_true_with_false_constraint (q : Config) (elapsed : Nat → ℚ) :
    ∃ s, PyCSpace.ctor.run
        [Op.addFeasibilityTest "A" (fun _ => true), Op.addFeasibilityTest "B" (fun _ => false),
         Op.enableAdaptiveQueries true, Op.optimizeQueryOrder 0,
         Op.addFeasibilityTest "A" (fun _ => true)] = some s ∧
      s.feasibleTests = [some (fun _ => true), some (fun _ => false)] ∧
      s.feasibleTestOrder = [0, 0] ∧
      (¬ ∀ test, some test ∈ s.feasibleTests → test q = true) ∧
      ∃ s1, s.IsFeasible q elapsed = Outcome.ret (true, [(0, true), (0, true)]) s1 := by
  refine ⟨⟨[some (fun _ => true), some (fun _ => false)], [], ["A", "B"], [("A", 0), ("B", 1)],
    1 / 1000, true, [⟨0, 0, 0⟩, ⟨0, 0, 0⟩], [], [], [], [0, 0], []⟩, ?_, rfl, rfl, ?_, ?_⟩
  · simp [PyCSpace.run, PyCSpace.apply, PyCSpace.ctor, PyCSpace.addFeasibilityTest,
      PyCSpace.lookup, resize, List.lookup, Outcome.state, PyCSpace.enableAdaptiveQueries,
      PyCSpace.OptimizeQueryOrder, OptimizeTestingOrder, initPriority, List.range,
      List.range.loop, priorityOf, Double.div, Double.isNaN, TesterStats.ctor, sortPairs,
      insertPair, pairLt, Double.lt, setBack, TesterStats.reset]
  · intro h
    have := h (fun _ => false) (by simp)
    simp at this
  · simp [PyCSpace.IsFeasible, IsFeasibleLoop, obstacleAt, updateStat]

/-! ## PyCSpace: the name to index map -/

theorem resize_length {α : Type} (l : List α) (n : Nat) (d : α) : (resize l n d).length = n := by
  simp [resize]
  omega

theorem IsFeasibleLoop_names (q : Config) (elapsed : Nat → ℚ) (m : Nat) :
    ∀ (i : Nat) (s : PyCSpace) (calls : List (Nat × Bool)) (s1 : PyCSpace),
      (IsFeasibleLoop q elapsed m i s calls).state = some s1 →
      s1.constraintNames = s.constraintNames ∧ s1.constraintMap = s.constraintMap := by
  induction m with
  | zero =>
    intro i s calls s1 h
    simp only [IsFeasibleLoop, Outcome.state, Option.some.injEq] at h
    subst h
    exact ⟨rfl, rfl⟩
  | succ m ih =>
    intro i s calls s1 h
    unfold IsFeasibleLoop at h
    cases ho : obstacleAt s.feasibleTestOrder i with
    | none => simp [ho, Outcome.state] at h
    | some obstacle =>
      simp only [ho] at h
      cases ht : s.feasibleTests[obstacle]? with
      | none => simp [ht, Outcome.state] at h
      | some slot =>
        cases slot with
        | none =>
          simp only [ht] at h
          cases hn : s.constraintNames[obstacle]? with
          | none => simp [hn, Outcome.state] at h
          | some name =>
            simp only [hn, Outcome.state, Option.some.injEq] at h
            subst h
            exact ⟨rfl, rfl⟩
        | some test =>
          simp only [ht] at h
          generalize (if s.adaptive = true then
            updateStat s.feasibleStats obstacle (elapsed i) (test q)
            else some s.feasibleStats) = st at h
          cases st with
          | none => simp [Outcome.state] at h
          | some stats =>
            simp only at h
            split_ifs at h
            · exact ih _ { s with feasibleStats := stats } _ _ h
            · simp only [Outcome.state, Option.some.injEq] at h
              subst h
              exact ⟨rfl, rfl⟩

/-- What one operation does to `constraintNames` and `constraintMap`: `setFeasibility`
replaces them by the single name `feasible` at index 0; a registration of a new name
appends it at the next index; everything else leaves both unchanged. -/
theorem apply_names_map (s s1 : PyCSpace) (op : Op) (h : (s.apply op).state = some s1) :
    (op.isSetFeasibility = true ∧ s1.constraintNames[0]? = some "feasible" ∧
      s1.constraintMap = [("feasible", 0)]) ∨
    (op.isSetFeasibility = false ∧ s1.constraintNames = s.constraintNames ∧
      s1.constraintMap = s.constraintMap) ∨
    (op.isSetFeasibility = false ∧ ∃ name, s.lookup name = none ∧
      s1.constraintNames = s.constraintNames ++ [name] ∧
      s1.constraintMap = s.constraintMap ++ [(name, s.constraintNames.length)]) := by
  cases op with
  | setFeasibility f =>
    left
    simp only [PyCSpace.apply, Outcome.state, Option.some.injEq] at h
    subst h
    refine ⟨rfl, ?_, rfl⟩
    simp [PyCSpace.setFeasibility, List.getElem?_set, resize_length]
  | addFeasibilityTest name f =>
    right
    simp only [PyCSpace.apply, PyCSpace.addFeasibilityTest] at h
    split at h
    · right
      rename_i hl
      simp only [Outcome.state, Option.some.injEq] at h
      subst h
      exact ⟨rfl, name, hl, rfl, by simp [resize_length]⟩
    · left
      split at h
      · simp only [Outcome.state, Option.some.injEq] at h
        subst h
        exact ⟨rfl, rfl, rfl⟩
      · simp [Outcome.state] at h
  | setVisibility v =>
    right; left
    simp only [PyCSpace.apply, Outcome.state, Option.some.injEq] at h
    subst h
    exact ⟨rfl, rfl, rfl⟩
  | addVisibilityTest name v =>
    right
    simp only [PyCSpace.apply, PyCSpace.addVisibilityTest] at h
    split at h
    · right
      rename_i hl
      simp only [Outcome.state, Option.some.injEq] at h
      subst h
      exact ⟨rfl, name, hl, rfl, by simp [resize_length]⟩
    · left
      split at h
      · simp only [Outcome.state, Option.some.injEq] at h
        subst h
        exact ⟨rfl, rfl, rfl⟩
      · simp [Outcome.state] at h
  | setVisibilityEpsilon eps =>
    right; left
    simp only [PyCSpace.apply, PyCSpace.setVisibilityEpsilon] at h
    split_ifs at h <;> simp only [Outcome.state, Option.some.injEq] at h <;> subst h <;>
      exact ⟨rfl, rfl, rfl⟩
  | setFeasibilityDependency name p =>
    right; left
    simp only [PyCSpace.apply, PyCSpace.setFeasibilityDependency] at h
    split at h
    · split at h
      · simp [Outcome.state] at h
      · simp only [Outcome.state, Option.some.injEq] at h
        subst h
        exact ⟨rfl, rfl, rfl⟩
    · simp only [Outcome.state, Option.some.injEq] at h
      subst h
      exact ⟨rfl, rfl, rfl⟩
  | setVisibilityDependency name p =>
    right; left
    simp only [PyCSpace.apply, PyCSpace.setVisibilityDependency] at h
    split at h
    · split at h
      · simp [Outcome.state] at h
      · simp only [Outcome.state, Option.some.injEq] at h
        subst h
        exact ⟨rfl, rfl, rfl⟩
    · simp only [Outcome.state, Option.some.injEq] at h
      subst h
      exact ⟨rfl, rfl, rfl⟩
  | setFeasibilityPrior name c p k =>
    right; left
    simp only [PyCSpace.apply, PyCSpace.setFeasibilityPrior] at h
    split at h
    · simp only [Outcome.state, Option.some.injEq] at h
      subst h
      exact ⟨rfl, rfl, rfl⟩
    · split at h
      · simp [Outcome.state] at h
      · simp only [Outcome.state, Option.some.injEq] at h
        subst h
        exact ⟨rfl, rfl, rfl⟩
  | setVisibilityPrior name c p k =>
    right; left
    simp only [PyCSpace.apply, PyCSpace.setVisibilityPrior] at h
    split at h
    · simp only [Outcome.state, Option.some.injEq] at h
      subst h
      exact ⟨rfl, rfl, rfl⟩
    · split at h
      · simp [Outcome.state] at h
      · simp only [Outcome.state, Option.some.injEq] at h
        subst h
        exact ⟨rfl, rfl, rfl⟩
  | enableAdaptiveQueries b =>
    right; left
    simp only [PyCSpace.apply, Outcome.state, Option.some.injEq] at h
    subst h
    exact ⟨rfl, rfl, rfl⟩
  | optimizeQueryOrder fuel =>
    right; left
    simp only [PyCSpace.apply, PyCSpace.OptimizeQueryOrder] at h
    split_ifs at h
    · split at h
      · simp [Outcome.state] at h
      · split at h
        · simp [Outcome.state] at h
        · simp only [Outcome.state, Option.some.injEq] at h
          subst h
          exact ⟨rfl, rfl, rfl⟩
    · simp only [Outcome.state, Option.some.injEq] at h
      subst h
      exact ⟨rfl, rfl, rfl⟩
  | isFeasible q elapsed =>
    right; left
    simp only [PyCSpace.apply, PyCSpace.IsFeasible] at h
    split_ifs at h
    · simp only [Outcome.void, Outcome.state, Option.some.injEq] at h
      subst h
      exact ⟨rfl, rfl, rfl⟩
    · have hs : (IsFeasibleLoop q elapsed s.feasibleTests.length 0 s []).state = some s1 := by
        cases hr : IsFeasibleLoop q elapsed s.feasibleTests.length 0 s [] <;>
          rw [hr] at h <;> simp [Outcome.void, Outcome.state] at h ⊢ <;> exact h
      exact ⟨rfl, IsFeasibleLoop_names _ _ _ _ _ _ _ hs⟩

theorem lookup_append_of_some {l m : List (String × Nat)} {a : String} {i : Nat}
    (h : l.lookup a = some i) : (l ++ m).lookup a = some i := by
  induction l with
  | nil => simp [List.lookup] at h
  | cons x xs ih =>
    obtain ⟨k, v⟩ := x
    cases hk : a == k with
    | true =>
      rw [List.cons_append, List.lookup_cons, hk]
      rw [List.lookup_cons, hk] at h
      exact h
    | false =>
      rw [List.cons_append, List.lookup_cons, hk]
      rw [List.lookup_cons, hk] at h
      exact ih h

theorem lookup_append_of_none {l m : List (String × Nat)} {a : String}
    (h : l.lookup a = none) : (l ++ m).lookup a = m.lookup a := by
  induction l with
  | nil => rfl
  | cons x xs ih =>
    obtain ⟨k, v⟩ := x
    cases hk : a == k with
    | true =>
      rw [List.lookup_cons, hk] at h
      exact Option.noConfusion h
    | false =>
      rw [List.cons_append, List.lookup_cons, hk]
      rw [List.lookup_cons, hk] at h
      exact ih h

/-- An operation other than `setFeasibility` keeps the index of every registered name. -/
theorem apply_keeps_index (s s1 : PyCSpace) (op : Op) (h : (s.apply op).state = some s1)
    (hop : op.isSetFeasibility = false) (name : String) (i : Nat)
    (hi : s.lookup name = some i) : s1.lookup name = some i := by
  rcases apply_names_map s s1 op h with ⟨h1, _⟩ | ⟨_, _, hm⟩ | ⟨_, n, _, _, hm⟩
  · rw [hop] at h1
    exact Bool.noConfusion h1
  · unfold PyCSpace.lookup at hi ⊢
    rw [hm]
    exact hi
  · unfold PyCSpace.lookup at hi ⊢
    rw [hm]
    exact lookup_append_of_some hi

/-- Every operation keeps the names vector and the map in agreement. -/
theorem apply_namesAgree (s s1 : PyCSpace) (op : Op) (h : (s.apply op).state = some s1)
    (hs : s.NamesAgree) : s1.NamesAgree := by
  intro name i hi
  rcases apply_names_map s s1 op h with ⟨_, hn, hm⟩ | ⟨_, hn, hm⟩ | ⟨_, n, hl, hn, hm⟩
  · unfold PyCSpace.lookup at hi
    rw [hm] at hi
    simp only [List.lookup] at hi
    split at hi
    · rename_i hk
      have e : name = "feasible" := by simpa using hk
      simp only [Option.some.injEq] at hi
      rw [← hi, e]
      exact hn
    · exact Option.noConfusion hi
  · unfold PyCSpace.lookup at hi
    rw [hm] at hi
    rw [hn]
    exact hs name i hi
  · unfold PyCSpace.lookup at hi hl
    rw [hm] at hi
    rw [hn]
    cases ho : s.constraintMap.lookup name with
    | some j =>
      rw [lookup_append_of_some ho, Option.some.injEq] at hi
      subst hi
      have := hs name j ho
      have hj : j < s.constraintNames.length := by
        by_contra hc
        rw [List.getElem?_eq_none (by omega)] at this
        exact Option.noConfusion this
      rw [List.getElem?_append_left hj]
      exact this
    | none =>
      rw [lookup_append_of_none ho] at hi
      simp only [List.lookup] at hi
      split at hi
      · rename_i hk
        have e : name = n := by simpa using hk
        simp only [Option.some.injEq] at hi
        subst hi
        subst e
        simp
      · exact Option.noConfusion hi

theorem run_namesAgree (ops : List Op) :
    ∀ s s1 : PyCSpace, s.run ops = some s1 → s.NamesAgree → s1.NamesAgree := by
  induction ops with
  | nil =>
    intro s s1 h hs
    simp only [PyCSpace.run, Option.some.injEq] at h
    exact h ▸ hs
  | cons op ops ih =>
    intro s s1 h hs
    simp only [PyCSpace.run] at h
    cases hst : (s.apply op).state with
    | none => simp [hst] at h
    | some s2 =>
      simp only [hst] at h
      exact ih s2 s1 h (apply_namesAgree s s2 op hst hs)

theorem run_keeps_index (ops : List Op) :
    ∀ s s1 : PyCSpace, s.run ops = some s1 → (∀ op ∈ ops, op.isSetFeasibility = false) →
      ∀ (name : String) (i : Nat), s.lookup name = some i → s1.lookup name = some i := by
  induction ops with
  | nil =>
    intro s s1 h _ name i hi
    simp only [PyCSpace.run, Option.some.injEq] at h
    exact h ▸ hi
  | cons op ops ih =>
    intro s s1 h hno name i hi
    simp only [PyCSpace.run] at h
    cases hst : (s.apply op).state with
    | none => simp [hst] at h
    | some s2 =>
      simp only [hst] at h
      exact ih s2 s1 h (fun o ho => hno o (List.mem_cons_of_mem _ ho)) name i
        (apply_keeps_index s s2 op hst (hno op (List.mem_cons_self _ _)) name i hi)

theorem ctor_namesAgree : PyCSpace.ctor.NamesAgree := by
  intro name i hi
  simp [PyCSpace.lookup, PyCSpace.ctor, List.lookup] at hi

/-- C10 (the claim as stated fails): `setFeasibility` deletes the registered names: after
`A` got index 0, `setFeasibility` leaves `A` out of `constraintMap`, and registering `A`
again gives it index 1. -/
theorem C10_setFeasibility_deletes_and_renumbers :
    ∃ s1 s2 s3 : PyCSpace,
      PyCSpace.ctor.run [Op.addFeasibilityTest "A" (fun _ => true)] = some s1 ∧
      s1.lookup "A" = some 0 ∧
      s1.run [Op.setFeasibility (fun _ => true)] = some s2 ∧
      s2.lookup "A" = none ∧
      s2.run [Op.addFeasibilityTest "A" (fun _ => true)] = some s3 ∧
      s3.lookup "A" = some 1 := by
  refine ⟨_, _, _, rfl, ?_, rfl, ?_, rfl, ?_⟩ <;>
    simp [PyCSpace.run, PyCSpace.apply, PyCSpace.ctor, PyCSpace.addFeasibilityTest,
      PyCSpace.setFeasibility, PyCSpace.lookup, resize, List.lookup, Outcome.state, setBack]

/-- C10 (amended): in every state reached from a fresh C-space by public operations,
distinct names have distinct indices; a further sequence of operations without
`setFeasibility` keeps the index of every name already registered; and `setFeasibility`
leaves exactly the name `feasible` at index 0. -/
theorem C10_names_keep_index_without_setFeasibility
    (ops1 ops2 : List Op) (s1 s2 : PyCSpace) (name : String) (i : Nat) (f : Config → Bool)
    (h1 : PyCSpace.ctor.run ops1 = some s1) (h2 : s1.run ops2 = some s2)
    (hno : ∀ op ∈ ops2, op.isSetFeasibility = false) (hi : s1.lookup name = some i) :
    s2.lookup name = some i ∧
    (∀ (n m : String) (j : Nat), s2.lookup n = some j → s2.lookup m = some j → n = m) ∧
    (s2.setFeasibility f).constraintMap = [("feasible", 0)] := by
  refine ⟨run_keeps_index ops2 s1 s2 h2 hno name i hi, ?_, rfl⟩
  have hs2 : s2.NamesAgree :=
    run_namesAgree ops2 s1 s2 h2 (run_namesAgree ops1 _ s1 h1 ctor_namesAgree)
  intro n m j hn hm
  have e1 := hs2 n j hn
  have e2 := hs2 m j hm
  rw [e1] at e2
  exact Option.some.inj e2

/-- C10 (amended) at a concrete input: after `setFeasibility` and a registration of `A` at
index 1, a visibility registration of `B` and a prior for `A` keep `A` at index 1. -/
theorem C10_names_keep_index_without_setFeasibility_witness :
    ∃ s1 s2 : PyCSpace,
      PyCSpace.ctor.run
        [Op.setFeasibility (fun _ => true), Op.addFeasibilityTest "A" (fun _ => false)]
        = some s1 ∧
      s1.run [Op.addVisibilityTest "B" (fun _ _ => 1), Op.setFeasibilityPrior "A" 1 (1 / 2) 1]
        = some s2 ∧
      s1.lookup "A" = some 1 ∧
      (s2.lookup "A" = some 1 ∧
        (∀ (n m : String) (j : Nat), s2.lookup n = some j → s2.lookup m = some j → n = m) ∧
        (s2.setFeasibility (fun _ => true)).constraintMap = [("feasible", 0)]) :=
  ⟨_, _, rfl, rfl, rfl,
    C10_names_keep_index_without_setFeasibility
      [Op.setFeasibility (fun _ => true), Op.addFeasibilityTest "A" (fun _ => false)]
      [Op.addVisibilityTest "B" (fun _ _ => 1), Op.setFeasibilityPrior "A" 1 (1 / 2) 1]
      _ _ "A" 1 (fun _ => true) rfl rfl
      (by intro op hop; simp at hop; rcases hop with rfl | rfl <;> rfl) rfl⟩

/-! ## PyCSpace: the adaptive reorder of two tests -/

theorem updates_unitCalls_append (x : TesterStats) (ev : List (ℚ × Bool)) (e : ℚ × Bool) :
    x.updates (unitCalls (ev ++ [e])) = (x.updates (unitCalls ev)).update e.1 e.2 1 := by
  simp [unitCalls, TesterStats.updates, List.foldl_append]

/-- A test that passed on every one of its (at least one) timed runs has priority `+∞`. -/
theorem priorityOf_all_true (ev : List (ℚ × Bool)) (hne : ev ≠ [])
    (htrue : ∀ e ∈ ev, e.2 = true) (hpos : ∀ e ∈ ev, 0 < e.1) :
    priorityOf (TesterStats.ctor.updates (unitCalls ev)) = Double.posInf := by
  obtain ⟨_, h2, h3⟩ := TesterStats.updates_mean ev TesterStats.ctor 0 0 0
    (by simp [TesterStats.ctor]) (by simp) (by simp)
  simp only [Nat.zero_add, zero_add] at h2 h3
  have hn : 0 < ev.length := List.length_pos.mpr hne
  have hn' : (0 : ℚ) < ev.length := by exact_mod_cast hn
  have hf : ev.filter (fun c => c.2) = ev := List.filter_eq_self.mpr (fun e he => htrue e he)
  rw [hf] at h3
  have hp : (TesterStats.ctor.updates (unitCalls ev)).probability = 1 := by
    have := mul_right_cancel₀ (ne_of_gt hn') (h3.trans (one_mul _).symm)
    exact this
  have hsum : 0 < (ev.map Prod.fst).sum := by
    apply List.sum_pos
    · intro x hx
      obtain ⟨e, he, rfl⟩ := List.mem_map.mp hx
      exact hpos e he
    · simpa using hne
  have hc : 0 < (TesterStats.ctor.updates (unitCalls ev)).cost := by
    by_contra hc
    have : (TesterStats.ctor.updates (unitCalls ev)).cost * ev.length ≤ 0 :=
      mul_nonpos_of_nonpos_of_nonneg (not_lt.mp hc) hn'.le
    linarith
  simp [priorityOf, Double.div, hp, hc, Double.isNaN]

/-- A test that failed on one of its runs has a finite priority. -/
theorem priorityOf_some_false (ev : List (ℚ × Bool)) (hfalse : ∃ e ∈ ev, e.2 = false) :
    ∃ x, priorityOf (TesterStats.ctor.updates (unitCalls ev)) = Double.fin x := by
  obtain ⟨_, _, h3⟩ := TesterStats.updates_mean ev TesterStats.ctor 0 0 0
    (by simp [TesterStats.ctor]) (by simp) (by simp)
  simp only [Nat.zero_add, zero_add] at h3
  have hlt : (ev.filter fun c => c.2).length < ev.length := by
    rw [List.length_filter_lt_length_iff_exists]
    obtain ⟨e, he, hf⟩ := hfalse
    exact ⟨e, he, by simp [hf]⟩
  have hlt' : (((ev.filter fun c => c.2).length : ℕ) : ℚ) < ev.length := by exact_mod_cast hlt
  have hn' : (0 : ℚ) < ev.length := lt_of_le_of_lt (Nat.cast_nonneg _) hlt'
  have hp : (TesterStats.ctor.updates (unitCalls ev)).probability < 1 := by
    by_contra hc
    have : (ev.length : ℚ) ≤ (TesterStats.ctor.updates (unitCalls ev)).probability * ev.length :=
      le_mul_of_one_le_left hn'.le (not_lt.mp hc)
    linarith
  have hne : (1 : ℚ) - (TesterStats.ctor.updates (unitCalls ev)).probability ≠ 0 := by linarith
  refine ⟨(TesterStats.ctor.updates (unitCalls ev)).cost
    / (1 - (TesterStats.ctor.updates (unitCalls ev)).probability), ?_⟩
  simp [priorityOf, Double.div, hne, Double.isNaN]

/-- One `IsFeasible` call in the two-test scenario: test 0 is called, and test 1 when
test 0 passed; each call adds an observation to the stats of its test. -/
theorem TwoTests.isFeasible {f0 f1 : Config → Bool} {n0 n1 : String}
    {ev0 ev1 : List (ℚ × Bool)} {t : PyCSpace} (ht : TwoTests f0 f1 n0 n1 ev0 ev1 t)
    (q : Config) (elapsed : Nat → ℚ) :
    ∃ t1, t.IsFeasible q elapsed
        = Outcome.ret (f0 q && f1 q, (0, f0 q) :: (if f0 q then [(1, f1 q)] else [])) t1 ∧
      TwoTests f0 f1 n0 n1 (ev0 ++ [(elapsed 0, f0 q)])
        (ev1 ++ (if f0 q then [(elapsed 1, f1 q)] else [])) t1 := by
  obtain ⟨h1, h2, h3, h4, h5, h6, h7⟩ := ht
  refine ⟨{ t with feasibleStats :=
    [TesterStats.ctor.updates (unitCalls (ev0 ++ [(elapsed 0, f0 q)])),
     TesterStats.ctor.updates (unitCalls (ev1 ++ (if f0 q then [(elapsed 1, f1 q)] else [])))] },
    ?_, ⟨h1, rfl, h3, h4, h5, h6, h7⟩⟩
  cases hq0 : f0 q <;> cases hq1 : f1 q <;>
    simp [PyCSpace.IsFeasible, IsFeasibleLoop, obstacleAt, updateStat, h1, h2, h4, h7, hq0, hq1,
      updates_unitCalls_append]

theorem ex_mem_append_singleton (ev : List (ℚ × Bool)) (x0 : ℚ) (b r : Bool) :
    (∃ x, (x, r) ∈ ev ++ [(x0, b)]) ↔ (∃ x, (x, r) ∈ ev) ∨ r = b := by
  constructor
  · rintro ⟨x, hx⟩
    rcases List.mem_append.mp hx with h | h
    · exact Or.inl ⟨x, h⟩
    · rw [List.mem_singleton] at h
      exact Or.inr (Prod.mk.inj h).2
  · rintro (⟨x, hx⟩ | rfl)
    · exact ⟨x, List.mem_append_left _ hx⟩
    · exact ⟨x0, List.mem_append_right _ (List.mem_singleton_self _)⟩

/-- A sequence of `IsFeasible` calls in the two-test scenario: the stats are those of the
observations made, which are the calls recorded, each with a measured time. -/
theorem TwoTests.queries {f0 f1 : Config → Bool} {n0 n1 : String}
    (cs : List (Config × (Nat → ℚ))) :
    ∀ (ev0 ev1 : List (ℚ × Bool)) (t s1 : PyCSpace) (calls : List (Nat × Bool)),
      TwoTests f0 f1 n0 n1 ev0 ev1 t → t.queries cs = some (s1, calls) →
      (∀ c ∈ cs, ∀ i, 0 < c.2 i) →
      ∃ ev0' ev1', TwoTests f0 f1 n0 n1 ev0' ev1' s1 ∧
        (∀ r, (∃ x, (x, r) ∈ ev0') ↔ (∃ x, (x, r) ∈ ev0) ∨ (0, r) ∈ calls) ∧
        (∀ r, (∃ x, (x, r) ∈ ev1') ↔ (∃ x, (x, r) ∈ ev1) ∨ (1, r) ∈ calls) ∧
        ((∀ e ∈ ev0, 0 < e.1) → ∀ e ∈ ev0', 0 < e.1) ∧
        ((∀ e ∈ ev1, 0 < e.1) → ∀ e ∈ ev1', 0 < e.1) := by
  induction cs with
  | nil =>
    intro ev0 ev1 t s1 calls ht hq _
    simp only [PyCSpace.queries, Option.some.injEq, Prod.mk.injEq] at hq
    obtain ⟨rfl, rfl⟩ := hq
    exact ⟨ev0, ev1, ht, by simp, by simp, fun h => h, fun h => h⟩
  | cons c cs ih =>
    intro ev0 ev1 t s1 calls ht hq htime
    obtain ⟨t1, hcall, ht1⟩ := ht.isFeasible c.1 c.2
    simp only [PyCSpace.queries, hcall, Option.map_eq_some', Prod.mk.injEq] at hq
    obtain ⟨⟨s1', calls'⟩, hq', rfl, rfl⟩ := hq
    obtain ⟨ev0', ev1', hs1, hm0, hm1, hp0, hp1⟩ :=
      ih _ _ t1 s1' calls' ht1 hq' (fun d hd => htime d (List.mem_cons_of_mem _ hd))
    have hc := htime c (List.mem_cons_self _ _)
    refine ⟨ev0', ev1', hs1, ?_, ?_, ?_, ?_⟩
    · intro r
      rw [hm0 r, ex_mem_append_singleton]
      have hmem : (0, r) ∈ ((0, f0 c.1) :: if f0 c.1 = true then [(1, f1 c.1)] else []) ++ calls'
          ↔ r = f0 c.1 ∨ (0, r) ∈ calls' := by
        cases hf : f0 c.1 <;> simp
      rw [hmem]
      tauto
    · intro r
      rw [hm1 r]
      cases hf : f0 c.1
      · simp
      · have hmem : (1, r) ∈ ((0, true) :: if true = true then [(1, f1 c.1)] else []) ++ calls'
            ↔ r = f1 c.1 ∨ (1, r) ∈ calls' := by simp
        rw [hmem, if_pos rfl, ex_mem_append_singleton]
        tauto
    · intro h
      apply hp0
      intro e he
      rcases List.mem_append.mp he with he | he
      · exact h e he
      · rw [List.mem_singleton] at he
        rw [he]
        exact hc 0
    · intro h
      apply hp1
      intro e he
      rcases List.mem_append.mp he with he | he
      · exact h e he
      · cases hf : f0 c.1 <;> simp [hf] at he
        rw [he]
        exact hc 1

/-- C9: in a C-space with adaptive queries enabled, no dependencies and two feasibility
tests with fresh stats, `A` at index `a` and `B` at the other index `b`, after a sequence
of `IsFeasible` calls in which `A` returned false at least once, `B` was called at least
once and returned true every time, and every measured time was positive,
`OptimizeQueryOrder` followed by `feasibilityQueryOrder` lists `A`'s name before `B`'s. -/
theorem C9_adaptive_reorder_puts_rejecting_test_first
    (s s1 : PyCSpace) (f0 f1 : Config → Bool) (n0 n1 : String) (a b : Nat)
    (cs : List (Config × (Nat → ℚ))) (calls : List (Nat × Bool)) (fuel : Nat)
    (htests : s.feasibleTests = [some f0, some f1])
    (hstats : s.feasibleStats = [TesterStats.ctor, TesterStats.ctor])
    (hnames : s.constraintNames = [n0, n1])
    (horder : s.feasibleTestOrder = [])
    (hfdeps : s.feasibleTestDeps = []) (hvdeps : s.visibleTestDeps = [])
    (hadaptive : s.adaptive = true)
    (hab : (a = 0 ∧ b = 1) ∨ (a = 1 ∧ b = 0))
    (hrun : s.queries cs = some (s1, calls))
    (hA : (a, false) ∈ calls)
    (hB : ∀ r, (b, r) ∈ calls → r = true) (hB1 : ∃ r, (b, r) ∈ calls)
    (htime : ∀ c ∈ cs, ∀ i, 0 < c.2 i) :
    ∃ s2, s1.OptimizeQueryOrder fuel = Outcome.ret () s2 ∧
      s2.feasibilityQueryOrder = Outcome.ret [[n0, n1][a]?, [n0, n1][b]?] s2 := by
  have h0 : TwoTests f0 f1 n0 n1 [] [] s :=
    ⟨htests, hstats, hnames, horder, hfdeps, hvdeps, hadaptive⟩
  obtain ⟨ev0, ev1, ⟨g1, g2, g3, g4, g5, g6, g7⟩, hm0, hm1, hp0, hp1⟩ :=
    TwoTests.queries cs [] [] s s1 calls h0 hrun htime
  have hp0' := hp0 (by simp)
  have hp1' := hp1 (by simp)
  simp only [List.not_mem_nil, exists_false, false_or] at hm0 hm1
  have hvis : ∀ st : List TesterStats, ∃ vo, OptimizeTestingOrder fuel st [] = Except.ok vo :=
    fun st => ⟨_, OptimizeTestingOrder_no_deps fuel st⟩
  obtain ⟨vo, hvo⟩ := hvis s1.visibleStats
  rcases hab with ⟨rfl, rfl⟩ | ⟨rfl, rfl⟩
  · obtain ⟨x, hx⟩ := priorityOf_some_false ev0 (by
      obtain ⟨t, ht⟩ := (hm0 false).mpr hA
      exact ⟨_, ht, rfl⟩)
    have hy := priorityOf_all_true ev1 (by
        obtain ⟨r, hr⟩ := hB1
        obtain ⟨t, ht⟩ := (hm1 r).mpr hr
        exact List.ne_nil_of_mem ht)
      (fun e he => hB e.2 ((hm1 e.2).mp ⟨e.1, he⟩)) hp1'
    refine ⟨{ s1 with feasibleTestOrder := [0, 1], visibleTestOrder := vo }, ?_, ?_⟩
    · simp [PyCSpace.OptimizeQueryOrder, g7, g5, g6, g2, hvo, OptimizeTestingOrder_no_deps,
        initPriority, List.range, List.range.loop, hx, hy, sortPairs, insertPair, pairLt,
        Double.lt]
    · simp [PyCSpace.feasibilityQueryOrder, queryOrderLoop, obstacleAt, g1, g3]
  · obtain ⟨x, hx⟩ := priorityOf_some_false ev1 (by
      obtain ⟨t, ht⟩ := (hm1 false).mpr hA
      exact ⟨_, ht, rfl⟩)
    have hy := priorityOf_all_true ev0 (by
        obtain ⟨r, hr⟩ := hB1
        obtain ⟨t, ht⟩ := (hm0 r).mpr hr
        exact List.ne_nil_of_mem ht)
      (fun e he => hB e.2 ((hm0 e.2).mp ⟨e.1, he⟩)) hp0'
    refine ⟨{ s1 with feasibleTestOrder := [1, 0], visibleTestOrder := vo }, ?_, ?_⟩
    · simp [PyCSpace.OptimizeQueryOrder, g7, g5, g6, g2, hvo, OptimizeTestingOrder_no_deps,
        initPriority, List.range, List.range.loop, hx, hy, sortPairs, insertPair, pairLt,
        Double.lt]
    · simp [PyCSpace.feasibilityQueryOrder, queryOrderLoop, obstacleAt, g1, g3]

/-- C9 at a concrete input: `A` (true only at `[1]`) registered before `B` (always true),
queried at `[1]` and at `[0]` with measured times 1 and 2. -/
theorem C9_adaptive_reorder_puts_rejecting_test_first_witness :
    ∃ s s1 : PyCSpace, ∃ calls : List (Nat × Bool),
      PyCSpace.ctor.run
        [Op.addFeasibilityTest "A" (fun q => decide (q = [1])),
         Op.addFeasibilityTest "B" (fun _ => true), Op.enableAdaptiveQueries true] = some s ∧
      s.queries [([1], fun _ => 1), ([0], fun _ => 2)] = some (s1, calls) ∧
      calls = [(0, true), (1, true), (0, false)] ∧
      ∃ s2, s1.OptimizeQueryOrder 0 = Outcome.ret () s2 ∧
        s2.feasibilityQueryOrder = Outcome.ret [["A", "B"][0]?, ["A", "B"][1]?] s2 :=
  have hq : (⟨[some (fun q => decide (q = [1])), some (fun _ => true)], [], ["A", "B"],
        [("A", 0), ("B", 1)], 1 / 1000, true, [⟨0, 0, 0⟩, ⟨0, 0, 0⟩], [], [], [], [], []⟩ :
        PyCSpace).queries [([1], fun _ => 1), ([0], fun _ => 2)]
      = some (⟨[some (fun q => decide (q = [1])), some (fun _ => true)], [], ["A", "B"],
        [("A", 0), ("B", 1)], 1 / 1000, true, [⟨3 / 2, 1 / 2, 2⟩, ⟨1, 1, 1⟩], [], [], [], [],
        []⟩, [(0, true), (1, true), (0, false)]) := by
    simp [PyCSpace.queries, PyCSpace.IsFeasible, IsFeasibleLoop, obstacleAt, updateStat,
      TesterStats.update]
    norm_num
  ⟨_, _, _, rfl, hq, rfl,
    C9_adaptive_reorder_puts_rejecting_test_first _ _ (fun q => decide (q = [1])) (fun _ => true)
      "A" "B" 0 1 [([1], fun _ => 1), ([0], fun _ => 2)] _ 0 rfl rfl rfl rfl rfl rfl rfl
      (Or.inl ⟨rfl, rfl⟩) hq (by simp) (by simp) ⟨true, by simp⟩
      (by intro c hc i; simp at hc; rcases hc with rfl | rfl <;> norm_num)⟩

/-! ## PyCSpace: registering both kinds of test under one name -/

/-- C11 (the code departs from the claim): for a name registered through
`addFeasibilityTest` only, the visibility slot at its index is `NULL`, and
`addVisibilityTest` of that name runs `Py_DECREF` on it: a null dereference instead of the
store the claim describes; likewise `addFeasibilityTest` of a name registered through
`addVisibilityTest` only. -/
theorem C11_second_kind_of_test_dereferences_null (f : Config → Bool)
    (v : Config → Config → Int) :
    (∃ s, PyCSpace.ctor.run [Op.addFeasibilityTest "A" f] = some s ∧
      s.lookup "A" = some 0 ∧
      resize s.visibleTests s.constraintNames.length none = [none] ∧
      s.addVisibilityTest "A" v = Outcome.fault Fault.undefined) ∧
    (∃ s, PyCSpace.ctor.run [Op.addVisibilityTest "A" v] = some s ∧
      s.lookup "A" = some 0 ∧
      resize s.feasibleTests s.constraintNames.length none = [none] ∧
      s.addFeasibilityTest "A" f = Outcome.fault Fault.undefined) := by
  refine ⟨⟨_, rfl, rfl, rfl, rfl⟩, ⟨_, rfl, rfl, rfl, rfl⟩⟩

/-! ## PyEdgePlanner: the visibility query over all constraints -/

/-- C13 (the code departs from the claim): with the one visibility test "`a` equals `b`",
`IsVisible([0], [1])` calls the test with the arguments `([0], [0])` and returns true,
although the test is false on `([0], [1])`. -/
theorem C13_isVisible_calls_test_with_start_twice (elapsed : Nat → ℚ) :
    ∃ s, PyCSpace.ctor.run
        [Op.setFeasibility (fun _ => true),
         Op.setVisibility (fun a b => if a = b then 1 else 0)] = some s ∧
      s.visibleTests = [some (fun a b => if a = b then 1 else 0)] ∧
      s.visibleTests.length = s.feasibleTests.length ∧
      isTrue ((fun a b => if a = b then 1 else 0 : Config → Config → Int) [0] [1]) = false ∧
      ∃ s1, PyEdgePlanner.IsVisible s [0] [1] (-1) elapsed
        = Outcome.ret (true, [(0, [0], [0])]) s1 := by
  refine ⟨_, rfl, rfl, rfl, ?_, ?_⟩
  · simp [isTrue]
  · simp [PyEdgePlanner.IsVisible, IsVisibleLoop, obstacleAt, updateVisibleStats, isTrue,
      PyCSpace.run, PyCSpace.apply, Outcome.state, PyCSpace.setFeasibility,
      PyCSpace.setVisibility, PyCSpace.ctor, resize]

/-! ## PyCSpace: a missing feasibility predicate -/

theorem updateStat_isSome (stats : List TesterStats) (o : Nat) (time : ℚ) (res : Bool)
    (h : o < stats.length) :
    ∃ stats1, updateStat stats o time res = some stats1 ∧ stats1.length = stats.length := by
  unfold updateStat
  rw [List.getElem?_eq_getElem h]
  exact ⟨_, rfl, List.length_set _ _ _⟩

/-- The loop of `IsFeasible(q)` that passes `k` tests and then meets a `NULL` slot throws
the message that names the constraint of that slot. -/
theorem IsFeasibleLoop_null_slot (q : Config) (elapsed : Nat → ℚ)
    (T : List (Option (Config → Bool))) (O : List Nat) (N : List String)
    (obstacle : Nat) (name : String) (k : Nat) :
    ∀ (m i0 : Nat) (s : PyCSpace) (calls : List (Nat × Bool)),
      s.feasibleTests = T → s.feasibleTestOrder = O → s.constraintNames = N →
      s.feasibleStats.length = T.length → k < m →
      (∀ j < k, ∃ o test, obstacleAt O (i0 + j) = some o ∧ T[o]? = some (some test) ∧
        test q = true) →
      obstacleAt O (i0 + k) = some obstacle → T[obstacle]? = some none →
      N[obstacle]? = some name →
      ∃ s1, IsFeasibleLoop q elapsed m i0 s calls
        = Outcome.throw (feasibleNotDefined name) s1 := by
  induction k with
  | zero =>
    intro m i0 s calls hT hO hN _ hm _ ho hnull hname
    obtain ⟨m, rfl⟩ : ∃ m', m = m' + 1 := ⟨m - 1, by omega⟩
    refine ⟨s, ?_⟩
    rw [Nat.add_zero] at ho
    simp only [IsFeasibleLoop, hO, ho, hT, hnull, hN, hname, feasibleNotDefined]
  | succ k ih =>
    intro m i0 s calls hT hO hN hlen hm hpass ho hnull hname
    obtain ⟨m, rfl⟩ : ∃ m', m = m' + 1 := ⟨m - 1, by omega⟩
    obtain ⟨o, test, ho0, hto, hq⟩ := hpass 0 (Nat.succ_pos k)
    rw [Nat.add_zero] at ho0
    have hol : o < s.feasibleStats.length := by
      rw [hlen]
      by_contra hc
      rw [List.getElem?_eq_none (by omega)] at hto
      exact Option.noConfusion hto
    obtain ⟨stats1, hst, hlen1⟩ : ∃ stats1,
        (if s.adaptive = true then updateStat s.feasibleStats o (elapsed i0) (test q)
          else some s.feasibleStats) = some stats1 ∧ stats1.length = s.feasibleStats.length := by
      split_ifs
      · exact updateStat_isSome _ _ _ _ hol
      · exact ⟨_, rfl, rfl⟩
    obtain ⟨s1, hs1⟩ := ih m (i0 + 1) { s with feasibleStats := stats1 }
      (calls ++ [(o, test q)]) hT hO hN (hlen1.trans hlen) (by omega)
      (fun j hj => by
        have := hpass (j + 1) (by omega)
        rwa [show i0 + (j + 1) = i0 + 1 + j by omega] at this)
      (by rwa [show i0 + (k + 1) = i0 + 1 + k by omega] at ho) hnull hname
    refine ⟨s1, ?_⟩
    simp only [hq, hT, hO] at hs1 hst
    simp only [IsFeasibleLoop, hO, ho0, hT, hto, hq, hst, if_true]
    exact hs1

/-- C12: in a state in which every feasibility slot has a name and a stats entry (as in
every state the public operations reach), when the tests at the loop positions before `i`
all return true at `q` and the slot tested at position `i` is `NULL`, `IsFeasible(q)`
throws the message naming that constraint; and `IsFeasible(q, k)` with `k` in range and
slot `k` `NULL` throws the message naming constraint `k`. -/
theorem C12_missing_feasibility_predicate_throws_with_name (s : PyCSpace) (q : Config)
    (hb : s.SlotsInBounds) :
    (∀ (elapsed : Nat → ℚ) (i obstacle : Nat), i < s.feasibleTests.length →
      (∀ j < i, ∃ o test, obstacleAt s.feasibleTestOrder j = some o ∧
        s.feasibleTests[o]? = some (some test) ∧ test q = true) →
      obstacleAt s.feasibleTestOrder i = some obstacle →
      s.feasibleTests[obstacle]? = some none →
      ∃ name s1, s.constraintNames[obstacle]? = some name ∧
        s.IsFeasible q elapsed = Outcome.throw (feasibleNotDefined name) s1) ∧
    (∀ (elapsed : ℚ) (k : Nat), k < s.feasibleTests.length →
      s.feasibleTests[k]? = some none →
      ∃ name, s.constraintNames[k]? = some name ∧
        s.IsFeasibleAt q k elapsed = Outcome.throw (feasibleNotDefined name) s) := by
  have hname : ∀ o : Nat, s.feasibleTests[o]? = some none →
      ∃ name, s.constraintNames[o]? = some name := by
    intro o ho
    have hol : o < s.constraintNames.length := by
      by_contra hc
      rw [List.getElem?_eq_none (by have := hb.1; omega)] at ho
      exact Option.noConfusion ho
    exact ⟨_, List.getElem?_eq_getElem hol⟩
  constructor
  · intro elapsed i obstacle hi hpass ho hnull
    obtain ⟨name, hn⟩ := hname obstacle hnull
    obtain ⟨s1, hs1⟩ := IsFeasibleLoop_null_slot q elapsed s.feasibleTests s.feasibleTestOrder
      s.constraintNames obstacle name i s.feasibleTests.length 0 s [] rfl rfl rfl hb.2 hi
      (fun j hj => by simpa using hpass j hj) (by simpa using ho) hnull hn
    refine ⟨name, s1, hn, ?_⟩
    have hne : s.feasibleTests.isEmpty = false := by
      cases ht : s.feasibleTests with
      | nil => rw [ht] at hi; exact absurd hi (Nat.not_lt_zero i)
      | cons _ _ => rfl
    simp only [PyCSpace.IsFeasible, hne, Bool.false_eq_true, if_false]
    exact hs1
  · intro elapsed k hk hnull
    obtain ⟨name, hn⟩ := hname k hnull
    refine ⟨name, hn, ?_⟩
    have hlt : ¬ ((k : Int) < 0 ∨ (s.feasibleTests.length : Int) ≤ (k : Int)) := by omega
    simp only [PyCSpace.IsFeasibleAt, hlt, if_false, Int.toNat_ofNat, hnull, hn]

theorem updateStat_length {stats stats1 : List TesterStats} {o : Nat} {time : ℚ} {res : Bool}
    (h : updateStat stats o time res = some stats1) : stats1.length = stats.length := by
  unfold updateStat at h
  cases ho : stats[o]? with
  | none => simp [ho] at h
  | some st =>
    simp only [ho, Option.some.injEq] at h
    rw [← h]
    exact List.length_set _ _ _

theorem IsFeasibleLoop_lengths (q : Config) (elapsed : Nat → ℚ) (m : Nat) :
    ∀ (i : Nat) (s : PyCSpace) (calls : List (Nat × Bool)) (s1 : PyCSpace),
      (IsFeasibleLoop q elapsed m i s calls).state = some s1 →
      s1.feasibleTests = s.feasibleTests ∧ s1.feasibleStats.length = s.feasibleStats.length := by
  induction m with
  | zero =>
    intro i s calls s1 h
    simp only [IsFeasibleLoop, Outcome.state, Option.some.injEq] at h
    subst h
    exact ⟨rfl, rfl⟩
  | succ m ih =>
    intro i s calls s1 h
    unfold IsFeasibleLoop at h
    cases ho : obstacleAt s.feasibleTestOrder i with
    | none => simp [ho, Outcome.state] at h
    | some obstacle =>
      simp only [ho] at h
      cases ht : s.feasibleTests[obstacle]? with
      | none => simp [ht, Outcome.state] at h
      | some slot =>
        cases slot with
        | none =>
          simp only [ht] at h
          cases hn : s.constraintNames[obstacle]? with
          | none => simp [hn, Outcome.state] at h
          | some name =>
            simp only [hn, Outcome.state, Option.some.injEq] at h
            subst h
            exact ⟨rfl, rfl⟩
        | some test =>
          simp only [ht] at h
          cases hst : (if s.adaptive = true then
            updateStat s.feasibleStats obstacle (elapsed i) (test q)
            else some s.feasibleStats) with
          | none => simp [hst, Outcome.state] at h
          | some stats =>
            have hlen : stats.length = s.feasibleStats.length := by
              split_ifs at hst
              · exact updateStat_length hst
              · simp only [Option.some.injEq] at hst
                rw [← hst]
            simp only [hst] at h
            split_ifs at h
            · obtain ⟨h1, h2⟩ := ih _ { s with feasibleStats := stats } _ _ h
              exact ⟨h1, h2.trans hlen⟩
            · simp only [Outcome.state, Option.some.injEq] at h
              subst h
              exact ⟨rfl, hlen⟩

/-- Every public operation keeps a name and a stats entry for every feasibility slot. -/
theorem apply_slotsInBounds (s s1 : PyCSpace) (op : Op) (h : (s.apply op).state = some s1)
    (hs : s.SlotsInBounds) : s1.SlotsInBounds := by
  obtain ⟨hs1, hs2⟩ := hs
  cases op with
  | setFeasibility f =>
    simp only [PyCSpace.apply, Outcome.state, Option.some.injEq] at h
    subst h
    simp [PyCSpace.SlotsInBounds, PyCSpace.setFeasibility, resize_length]
  | addFeasibilityTest name f =>
    simp only [PyCSpace.apply, PyCSpace.addFeasibilityTest] at h
    split at h
    · simp only [Outcome.state, Option.some.injEq] at h
      subst h
      simp [PyCSpace.SlotsInBounds, resize_length]
    · split at h
      · simp only [Outcome.state, Option.some.injEq] at h
        subst h
        simp [PyCSpace.SlotsInBounds, resize_length]
      · simp [Outcome.state] at h
  | setVisibility v =>
    simp only [PyCSpace.apply, Outcome.state, Option.some.injEq] at h
    subst h
    exact ⟨hs1, hs2⟩
  | addVisibilityTest name v =>
    simp only [PyCSpace.apply, PyCSpace.addVisibilityTest] at h
    split at h
    · simp only [Outcome.state, Option.some.injEq] at h
      subst h
      refine ⟨?_, hs2⟩
      simp only [List.length_append, List.length_singleton]
      omega
    · split at h
      · simp only [Outcome.state, Option.some.injEq] at h
        subst h
        exact ⟨hs1, hs2⟩
      · simp [Outcome.state] at h
  | setVisibilityEpsilon eps =>
    simp only [PyCSpace.apply, PyCSpace.setVisibilityEpsilon] at h
    split_ifs at h <;> simp only [Outcome.state, Option.some.injEq] at h <;> subst h <;>
      exact ⟨hs1, hs2⟩
  | setFeasibilityDependency name p =>
    simp only [PyCSpace.apply, PyCSpace.setFeasibilityDependency] at h
    split at h
    · split at h
      · simp [Outcome.state] at h
      · simp only [Outcome.state, Option.some.injEq] at h
        subst h
        exact ⟨hs1, hs2⟩
    · simp only [Outcome.state, Option.some.injEq] at h
      subst h
      exact ⟨hs1, hs2⟩
  | setVisibilityDependency name p =>
    simp only [PyCSpace.apply, PyCSpace.setVisibilityDependency] at h
    split at h
    · split at h
      · simp [Outcome.state] at h
      · simp only [Outcome.state, Option.some.injEq] at h
        subst h
        exact ⟨hs1, hs2⟩
    · simp only [Outcome.state, Option.some.injEq] at h
      subst h
      exact ⟨hs1, hs2⟩
  | setFeasibilityPrior name c p k =>
    simp only [PyCSpace.apply, PyCSpace.setFeasibilityPrior] at h
    split at h
    · simp only [Outcome.state, Option.some.injEq] at h
      subst h
      exact ⟨hs1, hs2⟩
    · split at h
      · simp [Outcome.state] at h
      · rename_i stats hreset
        simp only [Outcome.state, Option.some.injEq] at h
        subst h
        refine ⟨hs1, ?_⟩
        unfold resetStat at hreset
        split at hreset
        · exact Option.noConfusion hreset
        · simp only [Option.some.injEq] at hreset
          rw [← hreset]
          simpa using hs2
  | setVisibilityPrior name c p k =>
    simp only [PyCSpace.apply, PyCSpace.setVisibilityPrior] at h
    split at h
    · simp only [Outcome.state, Option.some.injEq] at h
      subst h
      exact ⟨hs1, hs2⟩
    · split at h
      · simp [Outcome.state] at h
      · simp only [Outcome.state, Option.some.injEq] at h
        subst h
        exact ⟨hs1, hs2⟩
  | enableAdaptiveQueries b =>
    simp only [PyCSpace.apply, Outcome.state, Option.some.injEq] at h
    subst h
    exact ⟨hs1, hs2⟩
  | optimizeQueryOrder fuel =>
    simp only [PyCSpace.apply, PyCSpace.OptimizeQueryOrder] at h
    split_ifs at h
    · split at h
      · simp [Outcome.state] at h
      · split at h
        · simp [Outcome.state] at h
        · simp only [Outcome.state, Option.some.injEq] at h
          subst h
          exact ⟨hs1, hs2⟩
    · simp only [Outcome.state, Option.some.injEq] at h
      subst h
      exact ⟨hs1, hs2⟩
  | isFeasible q elapsed =>
    simp only [PyCSpace.apply, PyCSpace.IsFeasible] at h
    split_ifs at h
    · simp only [Outcome.void, Outcome.state, Option.some.injEq] at h
      subst h
      exact ⟨hs1, hs2⟩
    · have hst : (IsFeasibleLoop q elapsed s.feasibleTests.length 0 s []).state = some s1 := by
        cases hr : IsFeasibleLoop q elapsed s.feasibleTests.length 0 s [] <;>
          rw [hr] at h <;> simp [Outcome.void, Outcome.state] at h ⊢ <;> exact h
      obtain ⟨h1, h2⟩ := IsFeasibleLoop_lengths _ _ _ _ _ _ _ hst
      obtain ⟨h3, _⟩ := IsFeasibleLoop_names _ _ _ _ _ _ _ hst
      exact ⟨by rw [h1, h3]; exact hs1, by rw [h1, h2]; exact hs2⟩

/-- Every state reached from a fresh C-space by public operations has a name and a stats
entry for every feasibility slot. -/
theorem run_slotsInBounds (ops : List Op) :
    ∀ s s1 : PyCSpace, s.run ops = some s1 → s.SlotsInBounds → s1.SlotsInBounds := by
  induction ops with
  | nil =>
    intro s s1 h hs
    simp only [PyCSpace.run, Option.some.injEq] at h
    exact h ▸ hs
  | cons op ops ih =>
    intro s s1 h hs
    simp only [PyCSpace.run] at h
    cases hst : (s.apply op).state with
    | none => simp [hst] at h
    | some s2 =>
      simp only [hst] at h
      exact ih s2 s1 h (apply_slotsInBounds s s2 op hst hs)

theorem ctor_slotsInBounds : PyCSpace.ctor.SlotsInBounds :=
  ⟨le_refl _, rfl⟩

/-- C12 at a concrete input: after `A` (feasibility), `B` (visibility only) and `C`
(feasibility) are registered, slot 1 is `NULL`; `IsFeasible([0])` passes `A` and throws the
message naming `B`, and so does `IsFeasible([0], 1)`. -/
theorem C12_missing_feasibility_predicate_throws_with_name_witness :
    ∃ s, PyCSpace.ctor.run
        [Op.addFeasibilityTest "A" (fun _ => true), Op.addVisibilityTest "B" (fun _ _ => 1),
         Op.addFeasibilityTest "C" (fun _ => true)] = some s ∧
      s.SlotsInBounds ∧
      (∃ name s1, s.constraintNames[1]? = some name ∧
        s.IsFeasible [0] (fun _ => 1) = Outcome.throw (feasibleNotDefined name) s1) ∧
      (∃ name, s.constraintNames[1]? = some name ∧
        s.IsFeasibleAt [0] (1 : Nat) 1 = Outcome.throw (feasibleNotDefined name) s) :=
  have hrun : PyCSpace.ctor.run
      [Op.addFeasibilityTest "A" (fun _ => true), Op.addVisibilityTest "B" (fun _ _ => 1),
       Op.addFeasibilityTest "C" (fun _ => true)]
      = some ⟨[some (fun _ => true), none, some (fun _ => true)], [none, some (fun _ _ => 1)],
        ["A", "B", "C"], [("A", 0), ("B", 1), ("C", 2)], 1 / 1000, false,
        [⟨0, 0, 0⟩, ⟨0, 0, 0⟩, ⟨0, 0, 0⟩], [⟨0, 0, 0⟩, ⟨0, 0, 0⟩], [], [], [], []⟩ := rfl
  have hb := run_slotsInBounds _ _ _ hrun ctor_slotsInBounds
  ⟨_, hrun, hb,
    (C12_missing_feasibility_predicate_throws_with_name _ [0] hb).1 (fun _ => 1) 1 1
      (by decide)
      (by
        intro j hj
        obtain rfl : j = 0 := by omega
        exact ⟨0, fun _ => true, rfl, rfl, rfl⟩)
      rfl rfl,
    (C12_missing_feasibility_predicate_throws_with_name _ [0] hb).2 1 1 (by decide) rfl⟩

/-! ## The registry of C-spaces -/

theorem Registry.space_natCast (r : Registry) (i : Nat) :
    r.space (i : Int) = (r.spaces[i]?).join := by
  simp [Registry.space]

theorem Registry.space_isSome {r : Registry} {i : Int} (h : (r.space i).isSome = true) :
    0 ≤ i ∧ i.toNat < r.spaces.length ∧ ∃ s, r.spaces[i.toNat]? = some (some s) := by
  unfold Registry.space at h
  split_ifs at h with hneg
  · simp at h
  · have h0 : 0 ≤ i := by omega
    cases hs : r.spaces[i.toNat]? with
    | none => simp [hs] at h
    | some slot =>
      cases slot with
      | none => simp [hs] at h
      | some s =>
        refine ⟨h0, ?_, s, rfl⟩
        by_contra hc
        rw [List.getElem?_eq_none (by omega)] at hs
        exact Option.noConfusion hs

/-- `makeNewCSpace` keeps the free list exact. -/
theorem makeNewCSpace_freeListExact (r : Registry) (h : r.FreeListExact) :
    ∃ index r1, makeNewCSpace r = RegOutcome.ret index r1 ∧ r1.FreeListExact := by
  obtain ⟨hnd, hmem⟩ := h
  unfold makeNewCSpace
  cases hl : r.spacesDeleteList with
  | nil =>
    refine ⟨_, _, rfl, ?_⟩
    refine ⟨by simp [hl], ?_⟩
    intro i
    have hi := hmem i
    rw [hl] at hi
    simp only [hl, List.not_mem_nil, false_iff] at hi ⊢
    intro hc
    by_cases hlt : i < r.spaces.length
    · rw [List.getElem?_append_left hlt] at hc
      exact hi hc
    · by_cases he : i = r.spaces.length
      · subst he
        simp at hc
      · rw [List.getElem?_eq_none (by simp; omega)] at hc
        exact Option.noConfusion hc
  | cons index rest =>
    have hidx : r.spaces[index]? = some none := (hmem index).mp (by rw [hl]; simp)
    have hlt : index < r.spaces.length := by
      by_contra hc
      rw [List.getElem?_eq_none (by omega)] at hidx
      exact Option.noConfusion hidx
    simp only [hlt, if_true]
    refine ⟨_, _, rfl, ?_⟩
    rw [hl] at hnd
    refine ⟨(List.nodup_cons.mp hnd).2, ?_⟩
    intro i
    have hi := hmem i
    rw [hl] at hi
    simp only [List.getElem?_set]
    by_cases he : index = i
    · subst he
      simp [hlt, (List.nodup_cons.mp hnd).1]
    · simp only [he, if_false]
      rw [← hi]
      simp [Ne.symm he]

/-- `destroyCSpace` on a live index keeps the free list exact. -/
theorem destroyCSpace_freeListExact (r : Registry) (h : r.FreeListExact) (i : Int)
    (hlive : (r.space i).isSome = true) :
    ∃ r1, destroyCSpace r i = RegOutcome.ret () r1 ∧ r1.FreeListExact ∧
      r1.spaces = r.spaces.set i.toNat none ∧
      r1.spacesDeleteList = r.spacesDeleteList ++ [i.toNat] := by
  obtain ⟨hnd, hmem⟩ := h
  obtain ⟨h0, hlt, s, hs⟩ := Registry.space_isSome hlive
  have hcond : ¬ (i < 0 ∨ (r.spaces.length : Int) ≤ i) := by omega
  refine ⟨{ r with spaces := r.spaces.set i.toNat none,
                   spacesDeleteList := r.spacesDeleteList ++ [i.toNat] },
    by simp only [destroyCSpace, hcond, if_false], ?_, rfl, rfl⟩
  have hnot : i.toNat ∉ r.spacesDeleteList := by
    intro hc
    rw [(hmem i.toNat).mp hc] at hs
    simp at hs
  refine ⟨?_, ?_⟩
  · exact List.nodup_append.mpr ⟨hnd, List.nodup_singleton _, by
      intro a ha hb
      rw [List.mem_singleton] at hb
      exact hnot (hb ▸ ha)⟩
  · intro j
    simp only [List.mem_append, List.mem_singleton, List.getElem?_set]
    by_cases he : i.toNat = j
    · subst he
      simp [hlt]
    · simp only [he, if_false]
      rw [← hmem j]
      simp [Ne.symm he]

theorem Registry.runCalls_freeListExact (calls : List RegistryCall) :
    ∀ r r1 : Registry, r.runCalls calls = some r1 → r.FreeListExact → r1.FreeListExact := by
  induction calls with
  | nil =>
    intro r r1 h hr
    simp only [Registry.runCalls, Option.some.injEq] at h
    exact h ▸ hr
  | cons c calls ih =>
    intro r r1 h hr
    cases c with
    | makeNewCSpace =>
      obtain ⟨index, r2, hm, hr2⟩ := makeNewCSpace_freeListExact r hr
      simp only [Registry.runCalls, hm] at h
      exact ih r2 r1 h hr2
    | destroyCSpace i =>
      simp only [Registry.runCalls] at h
      split_ifs at h with hlive
      obtain ⟨r2, hd, hr2, _⟩ := destroyCSpace_freeListExact r hr i hlive
      simp only [hd] at h
      exact ih r2 r1 h hr2

/-- C14: after any sequence of `makeNewCSpace` and `destroyCSpace` calls in which
`destroyCSpace` is only applied to live indices, `makeNewCSpace` returns the front of the
free list when it is non-empty (and removes it), and otherwise the table length; the
returned index was not live before and is live after the call; and `destroyCSpace(i)` on a
live index nulls slot `i` and appends `i` to the free list. -/
theorem C14_registry_allocates_from_free_list (factory : MotionPlannerFactory)
    (calls : List RegistryCall) (r : Registry)
    (hrun : (Registry.init factory).runCalls calls = some r) :
    (∃ index r1, makeNewCSpace r = RegOutcome.ret index r1 ∧
      (∀ i rest, r.spacesDeleteList = i :: rest →
        index = (i : Int) ∧ r1.spacesDeleteList = rest) ∧
      (r.spacesDeleteList = [] → index = (r.spaces.length : Int)) ∧
      r.space index = none ∧ (r1.space index).isSome = true) ∧
    (∀ i : Int, (r.space i).isSome = true →
      ∃ r1, destroyCSpace r i = RegOutcome.ret () r1 ∧
        r1.spaces = r.spaces.set i.toNat none ∧ r1.space i = none ∧
        r1.spacesDeleteList = r.spacesDeleteList ++ [i.toNat]) := by
  have hr : r.FreeListExact := Registry.runCalls_freeListExact calls _ r hrun
    ⟨List.nodup_nil, by intro i; simp [Registry.init]⟩
  constructor
  · obtain ⟨hnd, hmem⟩ := hr
    unfold makeNewCSpace
    cases hl : r.spacesDeleteList with
    | nil =>
      refine ⟨_, _, rfl, by intro i rest h; exact List.noConfusion h, fun _ => rfl, ?_, ?_⟩
      · simp [Registry.space_natCast]
      · simp [Registry.space_natCast]
    | cons index rest =>
      have hidx : r.spaces[index]? = some none := (hmem index).mp (by rw [hl]; simp)
      have hlt : index < r.spaces.length := by
        by_contra hc
        rw [List.getElem?_eq_none (by omega)] at hidx
        exact Option.noConfusion hidx
      simp only [hlt, if_true]
      refine ⟨_, _, rfl, ?_, by intro h; exact List.noConfusion h, ?_, ?_⟩
      · intro i rest' h
        obtain ⟨rfl, rfl⟩ := List.cons.inj h
        exact ⟨rfl, rfl⟩
      · simp [Registry.space_natCast, hidx]
      · simp [Registry.space_natCast, hlt]
  · intro i hlive
    obtain ⟨r1, hd, _, hsp, hfl⟩ := destroyCSpace_freeListExact r hr i hlive
    obtain ⟨h0, hlt, _⟩ := Registry.space_isSome hlive
    refine ⟨r1, hd, hsp, ?_, hfl⟩
    unfold Registry.space
    rw [hsp]
    simp [hlt]

/-- C14 at a concrete input: after two allocations and the destruction of index 0 the free
list is `[0]`, and the statement of C14 holds of the tables reached. -/
theorem C14_registry_allocates_from_free_list_witness :
    ∃ r, (Registry.init ⟨"prm", 10, 1 / 10, 1 / 10, true, true, 0, 0, false, 50, false, false,
          "", ""⟩).runCalls
        [RegistryCall.makeNewCSpace, RegistryCall.makeNewCSpace, RegistryCall.destroyCSpace 0]
        = some r ∧
      r.spacesDeleteList = [0] ∧
      ((∃ index r1, makeNewCSpace r = RegOutcome.ret index r1 ∧
        (∀ i rest, r.spacesDeleteList = i :: rest →
          index = (i : Int) ∧ r1.spacesDeleteList = rest) ∧
        (r.spacesDeleteList = [] → index = (r.spaces.length : Int)) ∧
        r.space index = none ∧ (r1.space index).isSome = true) ∧
      (∀ i : Int, (r.space i).isSome = true →
        ∃ r1, destroyCSpace r i = RegOutcome.ret () r1 ∧
          r1.spaces = r.spaces.set i.toNat none ∧ r1.space i = none ∧
          r1.spacesDeleteList = r.spacesDeleteList ++ [i.toNat])) :=
  ⟨_, rfl, rfl,
    C14_registry_allocates_from_free_list
      ⟨"prm", 10, 1 / 10, 1 / 10, true, true, 0, 0, false, 50, false, false, "", ""⟩
      [RegistryCall.makeNewCSpace, RegistryCall.makeNewCSpace, RegistryCall.destroyCSpace 0]
      _ rfl⟩

/-- C15 (the code departs from the claim): `destroyCSpace` checks only the range of the
index, not whether the slot is `NULL`: a second `destroyCSpace(0)` returns normally and
puts 0 on the free list a second time, so that the next two `makeNewCSpace` calls both
return 0; a second `destroyPlan(0)` throws and changes nothing. -/
theorem C15_destroyCSpace_twice_is_accepted (factory : MotionPlannerFactory) :
    ∃ r1 r2 r3 r4 r5 r6 r7, makeNewCSpace (Registry.init factory) = RegOutcome.ret 0 r1 ∧
      makeNewPlan r1 0 = RegOutcome.ret 0 r2 ∧
      destroyPlan r2 0 = RegOutcome.ret () r3 ∧
      destroyPlan r3 0 = RegOutcome.throw "Invalid plan index" r3 ∧
      destroyCSpace r3 0 = RegOutcome.ret () r4 ∧
      r4.space 0 = none ∧ r4.spacesDeleteList = [0] ∧
      destroyCSpace r4 0 = RegOutcome.ret () r5 ∧
      r5.spacesDeleteList = [0, 0] ∧
      makeNewCSpace r5 = RegOutcome.ret 0 r6 ∧
      makeNewCSpace r6 = RegOutcome.ret 0 r7 := by
  refine ⟨⟨[some PyCSpace.ctor], [], [], factory, [], []⟩,
    ⟨[some PyCSpace.ctor], [some ⟨[]⟩], [], factory, [], []⟩,
    ⟨[some PyCSpace.ctor], [none], [], factory, [], [0]⟩,
    ⟨[none], [none], [], factory, [0], [0]⟩,
    ⟨[none], [none], [], factory, [0, 0], [0]⟩,
    ⟨[some PyCSpace.ctor], [none], [], factory, [0], [0]⟩,
    ⟨[some PyCSpace.ctor], [none], [], factory, [], [0]⟩,
    ?_, ?_, ?_, ?_, ?_, ?_, rfl, ?_, rfl, ?_, ?_⟩
  · simp [makeNewCSpace, Registry.init]
  · simp [makeNewPlan, Registry.space]
  · simp [destroyPlan, Registry.plan]
  · simp [destroyPlan, Registry.plan]
  · simp [destroyCSpace]
  · simp [Registry.space]
  · simp [destroyCSpace]
  · simp [makeNewCSpace]
  · simp [makeNewCSpace]

/-! ## PyCSpace: dependencies and the edge resolution -/

/-- C16 (the code departs from the claim): both names are registered, yet no prerequisite
list is appended to.  After a first dependency sized the table to two rows, a third
constraint `C` is registered; `setFeasibilityDependency("C", "A")` then writes
`feasibleTestDeps[2]` out of bounds.  And `setVisibilityDependency("B", "A")` between two
names registered as feasibility tests sizes the table to the zero visibility tests and
writes `visibleTestDeps[1]` out of bounds. -/
theorem C16_dependency_on_later_constraint_is_out_of_bounds (f : Config → Bool) :
    (∃ s, PyCSpace.ctor.run
        [Op.addFeasibilityTest "A" f, Op.addFeasibilityTest "B" f,
         Op.setFeasibilityDependency "B" "A", Op.addFeasibilityTest "C" f] = some s ∧
      s.feasibleTestDeps = [[], [0]] ∧ s.lookup "C" = some 2 ∧ s.lookup "A" = some 0 ∧
      s.setFeasibilityDependency "C" "A" = Outcome.fault Fault.undefined) ∧
    (∃ s, PyCSpace.ctor.run [Op.addFeasibilityTest "A" f, Op.addFeasibilityTest "B" f] = some s ∧
      s.lookup "B" = some 1 ∧ s.lookup "A" = some 0 ∧ s.visibleTests = [] ∧
      s.setVisibilityDependency "B" "A" = Outcome.fault Fault.undefined) := by
  refine ⟨⟨_, rfl, rfl, rfl, rfl, rfl⟩, ⟨_, rfl, rfl, rfl, rfl, rfl⟩⟩

/-- What `setFeasibilityDependency` does when the index of `name` is a row of the table:
it throws "Invalid dependency" exactly when a name is not registered, leaving the state
as it is, and otherwise appends the index of `precedingTest` to the row of `name` in the
table, sized first to the number of feasibility tests when empty. -/
theorem setFeasibilityDependency_spec (s : PyCSpace) (name precedingTest : String) :
    ((s.lookup name = none ∨ s.lookup precedingTest = none) ↔
      s.setFeasibilityDependency name precedingTest = Outcome.throw "Invalid dependency" s) ∧
    (∀ cindex dindex row, s.lookup name = some cindex → s.lookup precedingTest = some dindex →
      (if s.feasibleTestDeps.isEmpty then resize s.feasibleTestDeps s.feasibleTests.length []
        else s.feasibleTestDeps)[cindex]? = some row →
      s.setFeasibilityDependency name precedingTest = Outcome.ret ()
        { s with feasibleTestDeps :=
          (if s.feasibleTestDeps.isEmpty then resize s.feasibleTestDeps s.feasibleTests.length []
            else s.feasibleTestDeps).set cindex (row ++ [dindex]) }) := by
  constructor
  · constructor
    · rintro (h | h)
      · simp [PyCSpace.setFeasibilityDependency, h]
      · cases hn : s.lookup name <;> simp [PyCSpace.setFeasibilityDependency, h, hn]
    · intro h
      by_contra hc
      push_neg at hc
      obtain ⟨c, hc1⟩ := Option.ne_none_iff_exists'.mp hc.1
      obtain ⟨d, hd1⟩ := Option.ne_none_iff_exists'.mp hc.2
      simp only [PyCSpace.setFeasibilityDependency, hc1, hd1] at h
      split at h <;> exact Outcome.noConfusion h
  · intro cindex dindex row hc hd hrow
    simp only [PyCSpace.setFeasibilityDependency, hc, hd, pushDependency, hrow]

/-- C17: `setVisibilityEpsilon(eps)` throws "Invalid epsilon" for every `eps ≤ 0` and leaves
the state as it is; for every `eps > 0` it returns, sets `edgeResolution` to `eps`,
empties the visibility tests, stats and order, and leaves the feasibility tests, stats,
order and dependencies, the names and the map unchanged. -/
theorem C17_setVisibilityEpsilon_requires_positive (s : PyCSpace) (eps : ℚ) :
    (eps ≤ 0 → s.setVisibilityEpsilon eps = Outcome.throw "Invalid epsilon" s) ∧
    (0 < eps → ∃ s1, s.setVisibilityEpsilon eps = Outcome.ret () s1 ∧
      s1.edgeResolution = eps ∧ s1.visibleTests = [] ∧ s1.visibleStats = [] ∧
      s1.visibleTestOrder = [] ∧
      s1.feasibleTests = s.feasibleTests ∧ s1.feasibleStats = s.feasibleStats ∧
      s1.feasibleTestOrder = s.feasibleTestOrder ∧
      s1.feasibleTestDeps = s.feasibleTestDeps ∧
      s1.constraintNames = s.constraintNames ∧ s1.constraintMap = s.constraintMap ∧
      s1.adaptive = s.adaptive) := by
  constructor
  · intro h
    simp only [PyCSpace.setVisibilityEpsilon, h, if_true]
  · intro h
    have hn : ¬ eps ≤ 0 := not_le.mpr h
    exact ⟨{ s with visibleTests := [], visibleStats := [], visibleTestOrder := [],
                    edgeResolution := eps },
      by simp only [PyCSpace.setVisibilityEpsilon, hn, if_false],
      rfl, rfl, rfl, rfl, rfl, rfl, rfl, rfl, rfl, rfl, rfl⟩

/-- C17 at concrete inputs: `eps = 0` and `eps = -1` are rejected, `eps = 1/100` is
accepted, on a C-space with one feasibility and one visibility test. -/
theorem C17_setVisibilityEpsilon_requires_positive_witness :
    ((PyCSpace.ctor.setFeasibility (fun _ => true)).setVisibility (fun _ _ => 1)).setVisibilityEpsilon 0
      = Outcome.throw "Invalid epsilon"
        ((PyCSpace.ctor.setFeasibility (fun _ => true)).setVisibility (fun _ _ => 1)) ∧
    ((PyCSpace.ctor.setFeasibility (fun _ => true)).setVisibility (fun _ _ => 1)).setVisibilityEpsilon (-1)
      = Outcome.throw "Invalid epsilon"
        ((PyCSpace.ctor.setFeasibility (fun _ => true)).setVisibility (fun _ _ => 1)) ∧
    ∃ s1, ((PyCSpace.ctor.setFeasibility (fun _ => true)).setVisibility
          (fun _ _ => 1)).setVisibilityEpsilon (1 / 100) = Outcome.ret () s1 ∧
      s1.edgeResolution = 1 / 100 ∧ s1.visibleTests = [] ∧ s1.visibleStats = [] ∧
      s1.visibleTestOrder = [] ∧ s1.feasibleTests.length = 1 :=
  ⟨(C17_setVisibilityEpsilon_requires_positive _ 0).1 (le_refl 0),
    (C17_setVisibilityEpsilon_requires_positive _ (-1)).1 (by norm_num),
    by
      obtain ⟨s1, h1, h2, h3, h4, h5, h6, _⟩ :=
        (C17_setVisibilityEpsilon_requires_positive
          ((PyCSpace.ctor.setFeasibility (fun _ => true)).setVisibility (fun _ _ => 1))
          (1 / 100)).2 (by norm_num)
      exact ⟨s1, h1, h2, h3, h4, h5, by rw [h6]; rfl⟩⟩

/-! ## The planner factory settings -/

/-- C18 (the claim as stated fails): the numeric `setPlanSetting` rejects the field name
`useGrid` of spec section 4.F with "Invalid setting", and accepts the name `grid`, which
the claim counts among the rejected names, by writing the field `useGrid`. -/
theorem C18_useGrid_is_rejected_and_grid_accepted :
    setPlanSetting ⟨"prm", 10, 1 / 10, 1 / 10, true, false, 0, 0, false, 50, false, false, "", ""⟩
        "useGrid" 1 = Except.error "Invalid setting" ∧
    setPlanSetting ⟨"prm", 10, 1 / 10, 1 / 10, true, false, 0, 0, false, 50, false, false, "", ""⟩
        "grid" 1
      = Except.ok ⟨"prm", 10, 1 / 10, 1 / 10, true, true, 0, 0, false, 50, false, false, "", ""⟩ := by
  constructor
  · simp [setPlanSetting]
  · simp [setPlanSetting, toInt]

/-- C18 (amended): the numeric `setPlanSetting` succeeds for `knn`, `connectionThreshold`,
`perturbationRadius`, `bidirectional`, `grid` (which writes the field `useGrid`),
`gridResolution`, `suboptimalityFactor`, `ignoreConnectedComponents`,
`randomizeFrequency`, `shortcut` and `restart`, changing only that field; the string
`setPlanSetting` succeeds for `pointLocation` and `restartTermCond`; every other name is
rejected with "Invalid setting". -/
theorem C18_typed_settings_with_grid (factory : MotionPlannerFactory) (value : ℚ)
    (text setting : String) :
    setPlanSetting factory "knn" value = Except.ok { factory with knn := toInt value } ∧
    setPlanSetting factory "connectionThreshold" value
      = Except.ok { factory with connectionThreshold := value } ∧
    setPlanSetting factory "perturbationRadius" value
      = Except.ok { factory with perturbationRadius := value } ∧
    setPlanSetting factory "bidirectional" value
      = Except.ok { factory with bidirectional := decide (toInt value ≠ 0) } ∧
    setPlanSetting factory "grid" value
      = Except.ok { factory with useGrid := decide (toInt value ≠ 0) } ∧
    setPlanSetting factory "gridResolution" value
      = Except.ok { factory with gridResolution := value } ∧
    setPlanSetting factory "suboptimalityFactor" value
      = Except.ok { factory with suboptimalityFactor := value } ∧
    setPlanSetting factory "ignoreConnectedComponents" value
      = Except.ok { factory with ignoreConnectedComponents := decide (toInt value ≠ 0) } ∧
    setPlanSetting factory "randomizeFrequency" value
      = Except.ok { factory with randomizeFrequency := toInt value } ∧
    setPlanSetting factory "shortcut" value
      = Except.ok { factory with shortcut := decide (value ≠ 0) } ∧
    setPlanSetting factory "restart" value
      = Except.ok { factory with restart := decide (value ≠ 0) } ∧
    setPlanSettingString factory "pointLocation" text
      = Except.ok { factory with pointLocation := text } ∧
    setPlanSettingString factory "restartTermCond" text
      = Except.ok { factory with restartTermCond := text } ∧
    (setting ∉ numericSettings →
      setPlanSetting factory setting value = Except.error "Invalid setting") ∧
    (setting ∉ stringSettings →
      setPlanSettingString factory setting text = Except.error "Invalid setting") := by
  refine ⟨?_, ?_, ?_, ?_, ?_, ?_, ?_, ?_, ?_, ?_, ?_, ?_, ?_, ?_, ?_⟩
  · simp [setPlanSetting]
  · simp [setPlanSetting]
  · simp [setPlanSetting]
  · simp [setPlanSetting]
  · simp [setPlanSetting]
  · simp [setPlanSetting]
  · simp [setPlanSetting]
  · simp [setPlanSetting]
  · simp [setPlanSetting]
  · simp [setPlanSetting]
  · simp [setPlanSetting]
  · simp [setPlanSettingString]
  · simp [setPlanSettingString]
  · intro h
    simp only [numericSettings, List.mem_cons, List.mem_singleton, List.not_mem_nil, or_false,
      not_or] at h
    obtain ⟨h1, h2, h3, h4, h5, h6, h7, h8, h9, h10, h11⟩ := h
    simp [setPlanSetting, h1, h2, h3, h4, h5, h6, h7, h8, h9, h10, h11]
  · intro h
    simp only [stringSettings, List.mem_cons, List.mem_singleton, List.not_mem_nil, or_false,
      not_or] at h
    obtain ⟨h1, h2⟩ := h
    simp [setPlanSettingString, h1, h2]

/-- C18 (amended) at a concrete input: the value `3/2` and the rejected names `useGrid`
and `knn` (for the string setter). -/
theorem C18_typed_settings_with_grid_witness :
    setPlanSetting ⟨"prm", 10, 1 / 10, 1 / 10, true, false, 0, 0, false, 50, false, false, "", ""⟩
        "useGrid" (3 / 2) = Except.error "Invalid setting" ∧
    setPlanSettingString
        ⟨"prm", 10, 1 / 10, 1 / 10, true, false, 0, 0, false, 50, false, false, "", ""⟩
        "useGrid" "kdtree" = Except.error "Invalid setting" ∧
    setPlanSetting ⟨"prm", 10, 1 / 10, 1 / 10, true, false, 0, 0, false, 50, false, false, "", ""⟩
        "knn" (3 / 2)
      = Except.ok { (⟨"prm", 10, 1 / 10, 1 / 10, true, false, 0, 0, false, 50, false, false, "",
          ""⟩ : MotionPlannerFactory) with knn := toInt (3 / 2) } :=
  ⟨(C18_typed_settings_with_grid _ (3 / 2) "kdtree" "useGrid").2.2.2.2.2.2.2.2.2.2.2.2.2.1
      (by decide),
    (C18_typed_settings_with_grid _ (3 / 2) "kdtree" "useGrid").2.2.2.2.2.2.2.2.2.2.2.2.2.2
      (by decide),
    (C18_typed_settings_with_grid _ (3 / 2) "kdtree" "useGrid").1⟩

/-! ## PlannerInterface: endpoints -/

/-- C19: for a planner handle whose plan slot and C-space slot are live, when
`IsFeasible(start)` of the C-space returns false, `setEndpoints(start, goal)` throws
"Start configuration is infeasible" before `AddMilestone` is called: the table of plans,
and with it the milestones of the planner, is unchanged. -/
theorem C19_infeasible_start_throws_before_AddMilestone (self : PlannerInterface)
    (r : Registry) (p : MotionPlannerInterface) (s s1 : PyCSpace) (start : Config)
    (goal : Option Config) (elapsed : Nat → Nat → ℚ) (calls : List (Nat × Bool))
    (hplan : r.plan self.index = some p) (hspace : r.space self.spaceIndex = some s)
    (hinfeasible : s.IsFeasible start (elapsed 0) = Outcome.ret (false, calls) s1) :
    ∃ r1, self.setEndpoints r (some start) goal elapsed
        = RegOutcome.throw "Start configuration is infeasible" r1 ∧
      r1.plans = r.plans ∧ r1.plan self.index = some p := by
  refine ⟨{ r with spaces := r.spaces.set self.spaceIndex.toNat (some s1) }, ?_, rfl, hplan⟩
  simp only [PlannerInterface.setEndpoints, hplan, Registry.spaceIsFeasible, hspace, hinfeasible]

/-- C19 at the scenario of the spec: a C-space with the one feasibility test `q[0] > 0`, a
fresh planner bound to it, start `[-1]` and goal `[1]`: the call throws and the planner
still has no milestone. -/
theorem C19_infeasible_start_throws_before_AddMilestone_witness :
    ∃ r1, (⟨0, 0⟩ : PlannerInterface).setEndpoints
        ⟨[some (PyCSpace.ctor.setFeasibility fun q => decide (0 < q.headD 0))], [some ⟨[]⟩], [],
          ⟨"prm", 10, 1 / 10, 1 / 10, true, false, 0, 0, false, 50, false, false, "", ""⟩, [], []⟩
        (some [-1]) (some [1]) (fun _ _ => 1)
        = RegOutcome.throw "Start configuration is infeasible" r1 ∧
      r1.plans = [some ⟨[]⟩] ∧ r1.plan 0 = some ⟨[]⟩ :=
  C19_infeasible_start_throws_before_AddMilestone ⟨0, 0⟩
    ⟨[some (PyCSpace.ctor.setFeasibility fun q => decide (0 < q.headD 0))], [some ⟨[]⟩], [],
      ⟨"prm", 10, 1 / 10, 1 / 10, true, false, 0, 0, false, 50, false, false, "", ""⟩, [], []⟩
    ⟨[]⟩ (PyCSpace.ctor.setFeasibility fun q => decide (0 < q.headD 0))
    (PyCSpace.ctor.setFeasibility fun q => decide (0 < q.headD 0)) [-1] (some [1])
    (fun _ _ => 1) [(0, false)] rfl rfl
    (by
      simp [PyCSpace.IsFeasible, IsFeasibleLoop, obstacleAt, PyCSpace.setFeasibility,
        PyCSpace.ctor, resize]
      norm_num)

/-! ## The no-dependency branch: a NaN priority -/

theorem indexOf_lt_of_pairwise {R : Nat → Nat → Prop} {l : List Nat} (hl : l.Pairwise R)
    {a b : Nat} (ha : a ∈ l) (hb : b ∈ l) (hne : a ≠ b) (hR : ¬ R b a) :
    l.indexOf a < l.indexOf b := by
  by_contra hc
  have hia : l.indexOf a < l.length := List.indexOf_lt_length.mpr ha
  have hib : l.indexOf b < l.length := List.indexOf_lt_length.mpr hb
  have hne' : l.indexOf b ≠ l.indexOf a := fun h => hne ((List.indexOf_inj hb ha).mp h).symm
  have hlt : l.indexOf b < l.indexOf a := by omega
  have := List.pairwise_iff_getElem.mp hl (l.indexOf b) (l.indexOf a) hib hia hlt
  rw [List.getElem_indexOf hib, List.getElem_indexOf hia] at this
  exact hR this

/-- C20 (the claim as stated fails): of the two constraints `(cost, probability) = (1, 0)`
and `(0, 1)` the second has the NaN quotient `0/0` and gets priority 0, the first has the
positive finite priority 1; the returned order is `[1, 0]`, the NaN constraint first. -/
theorem C20_nan_priority_is_tested_first :
    Double.div (0 : ℚ) (1 - 1) = Double.nan ∧
    priorityAt [⟨1, 0, 0⟩, ⟨0, 1, 0⟩] 1 = Double.fin 0 ∧
    priorityAt [⟨1, 0, 0⟩, ⟨0, 1, 0⟩] 0 = Double.fin 1 ∧
    OptimizeTestingOrder 0 [⟨1, 0, 0⟩, ⟨0, 1, 0⟩] [] = Except.ok [1, 0] := by
  refine ⟨by simp [Double.div], ?_, ?_, ?_⟩
  · simp [priorityAt, priorityOf, Double.div, Double.isNaN]
  · simp [priorityAt, priorityOf, Double.div, Double.isNaN]
  · rw [OptimizeTestingOrder_no_deps]
    simp [initPriority, List.range, List.range.loop, priorityOf, Double.div, Double.isNaN,
      sortPairs, insertPair, pairLt, Double.lt]
    norm_num

/-- C20 (amended): in the no-dependency case a constraint with probability 1 and cost 0
(quotient NaN) is given priority 0 and is therefore tested first among the constraints of
non-negative priority: it appears in the returned order before every constraint that has
a positive priority, finite or infinite. -/
theorem C20_nan_priority_precedes_positive_priorities (fuel : Nat) (stats : List TesterStats)
    (i j : Nat) (hi : i < stats.length) (hj : j < stats.length)
    (hcost : (stats.getD i TesterStats.ctor).cost = 0)
    (hprob : (stats.getD i TesterStats.ctor).probability = 1)
    (hpos : (Double.fin 0).lt (priorityAt stats j) = true) :
    Double.div (stats.getD i TesterStats.ctor).cost
        (1 - (stats.getD i TesterStats.ctor).probability) = Double.nan ∧
    priorityAt stats i = Double.fin 0 ∧
    ∃ order, OptimizeTestingOrder fuel stats [] = Except.ok order ∧
      order.indexOf i < order.indexOf j := by
  have hnan : Double.div (stats.getD i TesterStats.ctor).cost
      (1 - (stats.getD i TesterStats.ctor).probability) = Double.nan := by
    rw [hcost, hprob]
    simp [Double.div]
  have hpi : priorityAt stats i = Double.fin 0 := by
    unfold priorityAt priorityOf
    simp only [hnan, Double.isNaN, if_true]
  refine ⟨hnan, hpi, _, OptimizeTestingOrder_no_deps fuel stats, ?_⟩
  obtain ⟨hp, hs⟩ := sorted_order_spec stats
  have hmi := hp.mem_iff.mpr (List.mem_range.mpr hi)
  have hmj := hp.mem_iff.mpr (List.mem_range.mpr hj)
  have hne : i ≠ j := by
    intro h
    rw [← h, hpi] at hpos
    simp [Double.lt] at hpos
  refine indexOf_lt_of_pairwise hs hmi hmj hne ?_
  unfold Before
  rw [hpi]
  rintro (h | ⟨h, _⟩)
  · rw [Double.lt_asymmetric hpos] at h
    exact Bool.noConfusion h
  · rw [h, Double.lt_irreflexive] at hpos
    exact Bool.noConfusion hpos

/-- C20 (amended) at a concrete input: constraint 2 of `(1, 0), (2, 1), (0, 1)` has the NaN
quotient and comes before constraint 1, whose priority is `+∞`. -/
theorem C20_nan_priority_precedes_positive_priorities_witness :
    Double.div (([⟨1, 0, 0⟩, ⟨2, 1, 0⟩, ⟨0, 1, 0⟩] : List TesterStats).getD 2
        TesterStats.ctor).cost
      (1 - (([⟨1, 0, 0⟩, ⟨2, 1, 0⟩, ⟨0, 1, 0⟩] : List TesterStats).getD 2
        TesterStats.ctor).probability) = Double.nan ∧
    priorityAt [⟨1, 0, 0⟩, ⟨2, 1, 0⟩, ⟨0, 1, 0⟩] 2 = Double.fin 0 ∧
    ∃ order, OptimizeTestingOrder 0 [⟨1, 0, 0⟩, ⟨2, 1, 0⟩, ⟨0, 1, 0⟩] [] = Except.ok order ∧
      order.indexOf 2 < order.indexOf 1 :=
  C20_nan_priority_precedes_positive_priorities 0 [⟨1, 0, 0⟩, ⟨2, 1, 0⟩, ⟨0, 1, 0⟩] 2 1
    (by decide) (by decide) rfl rfl
    (by simp [priorityAt, priorityOf, Double.div, Double.isNaN, Double.lt])

/-! ## CSpaceInterface: testVisibility -/

/-- C21 (the code departs from the claim): `testVisibility` overwrites the handle's
`index` with the constraint index and passes `-1` as the obstacle.  On the one C-space of
handle 0 with the names `A` and `B`, `testVisibility("B", ..)` leaves the handle at index 1
and reads `spaces[1]` out of range.  With two C-spaces that each have the one visibility
test `feasible`, never visible in space 0 and always visible in space 1,
`testVisibility("feasible", [0], [1])` on handle 1 leaves the handle at index 0 and
returns the answer false of space 0, obtained from the query over all obstacles. -/
theorem C21_testVisibility_overwrites_handle_index
    (bisection : PyCSpace → Config → Config → Int → Outcome Bool)
    (factory : MotionPlannerFactory) (f : Config → Bool) (elapsed : Nat → ℚ) :
    (∃ s, PyCSpace.ctor.run [Op.addFeasibilityTest "A" f, Op.addFeasibilityTest "B" f] = some s ∧
      s.lookup "B" = some 1 ∧
      CSpaceInterface.testVisibility bisection ⟨0⟩ ⟨[some s], [], [], factory, [], []⟩ "B"
          (some [0]) (some [1]) elapsed
        = (⟨1⟩, RegOutcome.fault Fault.undefined)) ∧
    (∃ s0 s1, PyCSpace.ctor.run [Op.setFeasibility f, Op.setVisibility (fun _ _ => 0)] = some s0 ∧
      PyCSpace.ctor.run [Op.setFeasibility f, Op.setVisibility (fun _ _ => 1)] = some s1 ∧
      s1.lookup "feasible" = some 0 ∧
      (∃ s2, PyEdgePlanner.IsVisible s1 [0] [1] 0 elapsed
        = Outcome.ret (true, [(0, [0], [1])]) s2) ∧
      ∃ r1, CSpaceInterface.testVisibility bisection ⟨1⟩
            ⟨[some s0, some s1], [], [], factory, [], []⟩ "feasible" (some [0]) (some [1])
            elapsed
          = (⟨0⟩, RegOutcome.ret (false, [(0, [0], [0])]) r1) ∧
        r1.spaces[1]? = some (some s1)) := by
  constructor
  · refine ⟨_, rfl, rfl, ?_⟩
    simp [CSpaceInterface.testVisibility, Registry.space, PyCSpace.lookup, PyCSpace.run,
      PyCSpace.apply, Outcome.state, PyCSpace.addFeasibilityTest, PyCSpace.ctor, resize,
      List.lookup, setBack]
  · refine ⟨_, _, rfl, rfl, rfl, ?_, ?_⟩
    · simp [PyEdgePlanner.IsVisible, updateVisibleStats, isTrue, PyCSpace.setFeasibility,
        PyCSpace.setVisibility, PyCSpace.ctor, resize]
    · simp [CSpaceInterface.testVisibility, Registry.space, PyCSpace.lookup,
        PyCSpace.IsVisibleAt, PyEdgePlanner.IsVisible, IsVisibleLoop, obstacleAt,
        updateVisibleStats, isTrue, PyCSpace.setFeasibility, PyCSpace.setVisibility,
        PyCSpace.ctor, resize, List.lookup]

/-! ## PyCSpace: the default property hints -/

/-- C22 (the claim as stated fails): with a custom distance callback, no custom
interpolate callback and no user property, `Properties()` returns the empty map: the hint
`geodesic` is absent. -/
theorem C22_no_geodesic_hint_with_custom_distance :
    (PyCSpace.Properties ⟨some (fun _ _ => 0), none, ⟨fun _ => none⟩⟩).get "geodesic" = none ∧
    (PyCSpace.Properties ⟨some (fun _ _ => 0), none, ⟨fun _ => none⟩⟩).get "euclidean" = none := by
  constructor <;> simp [PyCSpace.Properties]

/-- C22 (amended): `Properties()` returns the user property map as it is when a custom
distance callback is registered; without one it adds the hints `euclidean=1` and
`metric=euclidean`, and the hint `geodesic=1` when in addition no custom interpolate
callback is registered; every other key keeps the user's value. -/
theorem C22_default_hints_only_without_custom_distance (c : PyCSpaceHints) (key : String) :
    (c.distance.isSome = true → PyCSpace.Properties c = c.properties) ∧
    (c.distance = none →
      (PyCSpace.Properties c).get "euclidean" = some "1" ∧
      (PyCSpace.Properties c).get "metric" = some "euclidean" ∧
      (c.interpolate = none → (PyCSpace.Properties c).get "geodesic" = some "1") ∧
      (c.interpolate.isSome = true →
        (PyCSpace.Properties c).get "geodesic" = c.properties.get "geodesic") ∧
      (key ≠ "euclidean" → key ≠ "metric" → key ≠ "geodesic" →
        (PyCSpace.Properties c).get key = c.properties.get key)) := by
  constructor
  · intro h
    have hn : c.distance.isNone = false := by
      cases hd : c.distance <;> simp [hd] at h ⊢
    simp [PyCSpace.Properties, hn]
  · intro hd
    refine ⟨?_, ?_, ?_, ?_, ?_⟩
    · cases hi : c.interpolate <;> simp [PyCSpace.Properties, hd, hi, PropertyMap.set]
    · cases hi : c.interpolate <;> simp [PyCSpace.Properties, hd, hi, PropertyMap.set]
    · intro hi
      simp [PyCSpace.Properties, hd, hi, PropertyMap.set]
    · intro hi
      cases hi' : c.interpolate with
      | none => simp [hi'] at hi
      | some g => simp [PyCSpace.Properties, hd, hi', PropertyMap.set]
    · intro h1 h2 h3
      cases hi : c.interpolate <;>
        simp [PyCSpace.Properties, hd, hi, PropertyMap.set, h1, h2, h3]

/-- C22 (amended) at concrete inputs: a C-space with the user property `name=box`, once
with a custom distance, once with no callback, once with a custom interpolate only. -/
theorem C22_default_hints_only_without_custom_distance_witness :
    PyCSpace.Properties
        ⟨some (fun _ _ => 0), none, ⟨fun k => if k = "name" then some "box" else none⟩⟩
      = ⟨fun k => if k = "name" then some "box" else none⟩ ∧
    (PyCSpace.Properties
        ⟨none, none, ⟨fun k => if k = "name" then some "box" else none⟩⟩).get "geodesic"
      = some "1" ∧
    (PyCSpace.Properties
        ⟨none, some (fun x _ _ => x),
          ⟨fun k => if k = "name" then some "box" else none⟩⟩).get "geodesic" = none ∧
    (PyCSpace.Properties
        ⟨none, none, ⟨fun k => if k = "name" then some "box" else none⟩⟩).get "name"
      = some "box" :=
  ⟨(C22_default_hints_only_without_custom_distance
      ⟨some (fun _ _ => 0), none, ⟨fun k => if k = "name" then some "box" else none⟩⟩
      "name").1 rfl,
    ((C22_default_hints_only_without_custom_distance
      ⟨none, none, ⟨fun k => if k = "name" then some "box" else none⟩⟩ "name").2 rfl).2.2.1 rfl,
    ((C22_default_hints_only_without_custom_distance
      ⟨none, some (fun x _ _ => x), ⟨fun k => if k = "name" then some "box" else none⟩⟩
      "name").2 rfl).2.2.2.1 rfl,
    ((C22_default_hints_only_without_custom_distance
      ⟨none, none, ⟨fun k => if k = "name" then some "box" else none⟩⟩ "name").2 rfl).2.2.2.2
      (by decide) (by decide) (by decide)⟩

/-! ## PyCSpace: the test order after a registration -/

/-- C23 (the code departs from the claim): the same defect as in C1, the assignment
`feasibleTestOrder.back() = cindex` of `addFeasibilityTest`.  After `A` and `B` are
registered and the order is optimized, registering the new name `C` leaves the order
`[0, 2]` for three tests: it is neither empty nor a permutation of `0..2`, and
`IsFeasible(q)` reads `feasibleTestOrder[2]` out of bounds.  After `A`, `B`, `C` are
registered and the order is optimized, registering `B` again leaves the order `[0, 1, 1]`:
`IsFeasible(q)` calls `B` twice and never calls `C`. -/
theorem C23_addFeasibilityTest_breaks_test_order (q : Config) (elapsed : Nat → ℚ) :
    (∃ s, PyCSpace.ctor.run
        [Op.addFeasibilityTest "A" (fun _ => true), Op.addFeasibilityTest "B" (fun _ => true),
         Op.enableAdaptiveQueries true, Op.optimizeQueryOrder 0,
         Op.addFeasibilityTest "C" (fun _ => true)] = some s ∧
      s.feasibleTests.length = 3 ∧
      s.feasibleTestOrder = [0, 2] ∧
      ¬ (s.feasibleTestOrder = [] ∨
          s.feasibleTestOrder.Perm (List.range s.feasibleTests.length)) ∧
      obstacleAt s.feasibleTestOrder 2 = none ∧
      s.IsFeasible q elapsed = Outcome.fault Fault.undefined) ∧
    (∃ s, PyCSpace.ctor.run
        [Op.addFeasibilityTest "A" (fun _ => true), Op.addFeasibilityTest "B" (fun _ => true),
         Op.addFeasibilityTest "C" (fun _ => true),
         Op.enableAdaptiveQueries true, Op.optimizeQueryOrder 0,
         Op.addFeasibilityTest "B" (fun _ => true)] = some s ∧
      s.feasibleTests.length = 3 ∧
      s.feasibleTestOrder = [0, 1, 1] ∧
      ¬ (s.feasibleTestOrder = [] ∨
          s.feasibleTestOrder.Perm (List.range s.feasibleTests.length)) ∧
      ∃ s1, s.IsFeasible q elapsed
        = Outcome.ret (true, [(0, true), (1, true), (1, true)]) s1) := by
  constructor
  · refine ⟨⟨[some (fun _ => true), some (fun _ => true), some (fun _ => true)], [],
      ["A", "B", "C"], [("A", 0), ("B", 1), ("C", 2)], 1 / 1000, true,
      [⟨0, 0, 0⟩, ⟨0, 0, 0⟩, ⟨0, 0, 0⟩], [], [], [], [0, 2], []⟩, ?_, rfl, rfl, ?_, rfl, ?_⟩
    · simp [PyCSpace.run, PyCSpace.apply, PyCSpace.ctor, PyCSpace.addFeasibilityTest,
        PyCSpace.lookup, resize, List.lookup, Outcome.state, PyCSpace.enableAdaptiveQueries,
        PyCSpace.OptimizeQueryOrder, OptimizeTestingOrder, initPriority, List.range,
        List.range.loop, priorityOf, Double.div, Double.isNaN, TesterStats.ctor, sortPairs,
        insertPair, pairLt, Double.lt, setBack, TesterStats.reset]
    · rintro (h | h)
      · exact List.noConfusion h
      · have := h.length_eq
        simp at this
    · simp [PyCSpace.IsFeasible, IsFeasibleLoop, obstacleAt, updateStat]
  · refine ⟨⟨[some (fun _ => true), some (fun _ => true), some (fun _ => true)], [],
      ["A", "B", "C"], [("A", 0), ("B", 1), ("C", 2)], 1 / 1000, true,
      [⟨0, 0, 0⟩, ⟨0, 0, 0⟩, ⟨0, 0, 0⟩], [], [], [], [0, 1, 1], []⟩, ?_, rfl, rfl, ?_, ?_⟩
    · simp [PyCSpace.run, PyCSpace.apply, PyCSpace.ctor, PyCSpace.addFeasibilityTest,
        PyCSpace.lookup, resize, List.lookup, Outcome.state, PyCSpace.enableAdaptiveQueries,
        PyCSpace.OptimizeQueryOrder, OptimizeTestingOrder, initPriority, List.range,
        List.range.loop, priorityOf, Double.div, Double.isNaN, TesterStats.ctor, sortPairs,
        insertPair, pairLt, Double.lt, setBack, TesterStats.reset]
    · rintro (h | h)
      · exact List.noConfusion h
      · have h2 : (2 : Nat) ∈ [0, 1, 1] ↔ 2 ∈ List.range 3 := h.mem_iff
        simp [List.range, List.range.loop] at h2
    · simp [PyCSpace.IsFeasible, IsFeasibleLoop, obstacleAt, updateStat]

/-! ## PyCSpace: the size of the dependency tables -/

/-- C24 (the code departs from the claim): the same defect as in C16, the dependency
tables are sized once, when the first dependency is set, and never again.  After `A`, `B`
are registered, `B` is made to depend on `A` and `C` is registered, the feasibility table
has two rows for three stats: it is neither empty nor as long as the stats, and
`OptimizeQueryOrder` reads `deps[2]` out of bounds.  And between two names registered
only as feasibility tests, `setVisibilityDependency` sizes the visibility table to the
zero visibility tests and writes `visibleTestDeps[1]` out of bounds. -/
theorem C24_dependency_table_shorter_than_stats (f : Config → Bool) (fuel : Nat) :
    (∃ s, PyCSpace.ctor.run
        [Op.addFeasibilityTest "A" f, Op.addFeasibilityTest "B" f,
         Op.setFeasibilityDependency "B" "A", Op.addFeasibilityTest "C" f,
         Op.enableAdaptiveQueries true] = some s ∧
      s.feasibleTestDeps.length = 2 ∧ s.feasibleStats.length = 3 ∧
      ¬ (s.feasibleTestDeps = [] ∨ s.feasibleTestDeps.length = s.feasibleStats.length) ∧
      s.feasibleTestDeps[2]? = none ∧
      OptimizeTestingOrder fuel s.feasibleStats s.feasibleTestDeps
        = Except.error Fault.undefined ∧
      s.OptimizeQueryOrder fuel = Outcome.fault Fault.undefined) ∧
    (∃ s, PyCSpace.ctor.run
        [Op.addFeasibilityTest "A" f, Op.addFeasibilityTest "B" f,
         Op.enableAdaptiveQueries true] = some s ∧
      s.visibleTestDeps = [] ∧ s.visibleStats = [] ∧
      s.lookup "B" = some 1 ∧ s.lookup "A" = some 0 ∧
      pushDependency (resize s.visibleTestDeps s.visibleTests.length []) 1 0 = none ∧
      s.apply (Op.setVisibilityDependency "B" "A") = Outcome.fault Fault.undefined) := by
  constructor
  · refine ⟨⟨[some f, some f, some f], [], ["A", "B", "C"], [("A", 0), ("B", 1), ("C", 2)],
      1 / 1000, true, [⟨0, 0, 0⟩, ⟨0, 0, 0⟩, ⟨0, 0, 0⟩], [], [[], [0]], [], [], []⟩,
      rfl, rfl, rfl, ?_, rfl, ?_, ?_⟩
    · simp
    · simp [OptimizeTestingOrder, depsInBounds]
    · simp [PyCSpace.OptimizeQueryOrder, OptimizeTestingOrder, depsInBounds]
  · exact ⟨⟨[some f, some f], [], ["A", "B"], [("A", 0), ("B", 1)],
      1 / 1000, true, [⟨0, 0, 0⟩, ⟨0, 0, 0⟩], [], [], [], [], []⟩,
      rfl, rfl, rfl, rfl, rfl, rfl, rfl⟩

/-! ## PyEdgePlanner: the assertion on the number of tests -/

/-- C25 (the code departs from the claim): the registration operations do not keep
`visibleTests.size() == feasibleTests.size()`.  After `A` and `B` are registered as
feasibility tests, `setVisibility(v)` leaves one visibility test for two feasibility
tests; on a new C-space `setVisibility(v)` leaves one visibility test for no feasibility
test; and after `A` is registered as a feasibility test, `addVisibilityTest("V", v)`
leaves two visibility slots for one feasibility test.  In each state a visibility
predicate is registered, `LocalPlanner` builds a `PyEdgePlanner`, and the assertion at the
start of `PyEdgePlanner::IsVisible` fails for every edge and every obstacle argument. -/
theorem C25_registration_breaks_isVisible_assertion
    (bisection : PyCSpace → Config → Config → Int → Outcome Bool)
    (f : Config → Bool) (v : Config → Config → Int) (a b : Config) (obstacle : Int)
    (elapsed : Nat → ℚ) :
    (∃ s, PyCSpace.ctor.run
        [Op.addFeasibilityTest "A" f, Op.addFeasibilityTest "B" f, Op.setVisibility v] = some s ∧
      s.visibleTests = [some v] ∧ s.feasibleTests.length = 2 ∧
      PyEdgePlanner.IsVisible s a b obstacle elapsed = Outcome.fault Fault.abort ∧
      s.IsVisibleAt bisection a b obstacle elapsed = Outcome.fault Fault.abort) ∧
    (∃ s, PyCSpace.ctor.run [Op.setVisibility v] = some s ∧
      s.visibleTests = [some v] ∧ s.feasibleTests.length = 0 ∧
      PyEdgePlanner.IsVisible s a b obstacle elapsed = Outcome.fault Fault.abort ∧
      s.IsVisibleAt bisection a b obstacle elapsed = Outcome.fault Fault.abort) ∧
    (∃ s, PyCSpace.ctor.run
        [Op.addFeasibilityTest "A" f, Op.addVisibilityTest "V" v] = some s ∧
      s.visibleTests = [none, some v] ∧ s.feasibleTests.length = 1 ∧
      PyEdgePlanner.IsVisible s a b obstacle elapsed = Outcome.fault Fault.abort ∧
      s.IsVisibleAt bisection a b obstacle elapsed = Outcome.fault Fault.abort) := by
  refine ⟨⟨_, rfl, rfl, rfl, rfl, rfl⟩, ⟨_, rfl, rfl, rfl, rfl, rfl⟩,
    ⟨_, rfl, rfl, rfl, rfl, rfl⟩⟩

end Klampt
